import Mathlib

/-!
# Small_String: `MyString<MAX_OPT_SIZE>` (src/small_string.cpp)

A shallow embedding of the small-string class.  The C++ object state
(`sz`, the union `item`, the flag `version`) is a record; the free store and
the objects live in a `World`; every member function is a function on worlds
that reads and writes the fields of `this` and `other` through the store, in
the order of the source statements, so that `this` and `other` may alias.

* A byte of storage is a `Cell`: `some c` is the character `c`, `none` is an
  indeterminate (never written) byte.
* `none` as the result of an operation is undefined behaviour (reading an
  indeterminate pointer or byte, running off a buffer, releasing a pointer
  that is not a live allocation).
-/

namespace SmallString

/-- One byte of storage: `some c` holds the character `c` (`0` is the
terminator), `none` is indeterminate. -/
abbrev Cell := Option Nat

/-- Values of type `char *`: the null pointer, the start of the heap array
number `a`, or the start of the inline array of object number `obj`. -/
inductive Ptr where
  | null
  | heap (a : Nat)
  | inl (obj : Nat)
  deriving DecidableEq

/-- The union `repr` of `longer {char *data}` and `shorter {char data[N]}`.
`indeterminate` is the union before any member was written. -/
inductive repr where
  | indeterminate
  | lval (data : Ptr)
  | sval (data : List Cell)
  deriving DecidableEq

/-- The data members of `MyString<MAX_OPT_SIZE>`. -/
structure MyString where
  sz : Nat
  item : repr
  version : Bool
  deriving DecidableEq

/-- The free store and the objects.  Heap array `a` is `heap[a]`: `some cells`
while allocated, `none` once released.  Object `i` is `objs[i]`. -/
structure World where
  heap : List (Option (List Cell))
  objs : List MyString
  deriving DecidableEq

/-- The program start: nothing allocated, no object. -/
def World.empty : World := { heap := [], objs := [] }

/-- The storage mode named by the flag `version`. -/
inductive Mode where
  | Inline
  | Heap
  deriving DecidableEq

/-- Number of bytes `sizeof(sz)` of a `size_t` (LP64). -/
def sizeof_sz : Nat := 8

/-! ## C library and free store -/

/-- The characters a C string scan reads from `cells` before the first
terminator; `none` when it meets an indeterminate byte or the end of the
storage first. -/
def strscan : List Cell → Option (List Nat)
  | [] => none
  | none :: _ => none
  | some 0 :: _ => some []
  | some (c + 1) :: rest => (strscan rest).map fun s => (c + 1) :: s

/-- The function `std::strlen`. -/
def strlen (str : List Cell) : Option Nat := (strscan str).map List.length

/-- The memory of a NUL-terminated text `T`: its bytes, then the terminator. -/
def cstring (T : List Nat) : List Cell := T.map some ++ [some 0]

/-- The bytes `strcpy` writes for the string `s` over the start of `cells`;
`none` when they do not fit. -/
def strput (cells : List Cell) (s : List Nat) : Option (List Cell) :=
  if s.length + 1 ≤ cells.length then
    some (cstring s ++ cells.drop (s.length + 1))
  else none

/-- The expression `new char[n]`: a fresh array of `n` indeterminate bytes. -/
def newArr (n : Nat) (w : World) : World × Ptr :=
  ({ w with heap := w.heap ++ [some (List.replicate n none)] }, Ptr.heap w.heap.length)

/-- The expression `delete[] p`. -/
def deleteArr (p : Ptr) (w : World) : Option World :=
  match p with
  | Ptr.null => some w
  | Ptr.heap a =>
    match w.heap[a]? with
    | some (some _) => some { w with heap := w.heap.set a none }
    | _ => none
  | Ptr.inl _ => none

/-! ## Member access -/

/-- Read `item.lval.data`. -/
def lvalData (item : repr) : Option Ptr :=
  match item with
  | repr.lval p => some p
  | _ => none

/-- The bytes of `item.sval.data`, an array of `N` bytes. -/
def svalData (N : Nat) (item : repr) : List Cell :=
  match item with
  | repr.sval d => d
  | _ => List.replicate N none

def getSz (i : Nat) (w : World) : Option Nat := (w.objs[i]?).map fun o => o.sz

def getVersion (i : Nat) (w : World) : Option Bool := (w.objs[i]?).map fun o => o.version

def getLvalData (i : Nat) (w : World) : Option Ptr := (w.objs[i]?).bind fun o => lvalData o.item

def setObj (i : Nat) (o : MyString) (w : World) : World :=
  { w with objs := w.objs.set i o }

def setSz (i : Nat) (v : Nat) (w : World) : Option World :=
  (w.objs[i]?).map fun o => setObj i { o with sz := v } w

def setVersion (i : Nat) (v : Bool) (w : World) : Option World :=
  (w.objs[i]?).map fun o => setObj i { o with version := v } w

def setLvalData (i : Nat) (p : Ptr) (w : World) : Option World :=
  (w.objs[i]?).map fun o => setObj i { o with item := repr.lval p } w

/-- The bytes stored from `p` on. -/
def cellsAt (N : Nat) (w : World) : Ptr → Option (List Cell)
  | Ptr.null => none
  | Ptr.heap a =>
    match w.heap[a]? with
    | some (some cells) => some cells
    | _ => none
  | Ptr.inl i => (w.objs[i]?).map fun o => svalData N o.item

/-- Replace the bytes stored from `p` on. -/
def setCellsAt (w : World) (p : Ptr) (cells : List Cell) : Option World :=
  match p with
  | Ptr.null => none
  | Ptr.heap a =>
    match w.heap[a]? with
    | some (some _) => some { w with heap := w.heap.set a (some cells) }
    | _ => none
  | Ptr.inl i => (w.objs[i]?).map fun o => setObj i { o with item := repr.sval cells } w

/-- The string `strcpy` reads at `src`. -/
def readStr (N : Nat) (w : World) (src : Ptr) : Option (List Nat) :=
  (cellsAt N w src).bind strscan

/-- Write the string `s` and its terminator at `dst`. -/
def writeStr (N : Nat) (w : World) (dst : Ptr) (s : List Nat) : Option World :=
  (cellsAt N w dst).bind fun cells => (strput cells s).bind (setCellsAt w dst)

/-- The call `strcpy(dst, src)` between two places of the world. -/
def strcpy (N : Nat) (dst src : Ptr) (w : World) : Option World :=
  (readStr N w src).bind (writeStr N w dst)

/-- The call `strcpy(dst, str)` from the caller's text `str`. -/
def strcpyFrom (N : Nat) (dst : Ptr) (str : List Cell) (w : World) : Option World :=
  (strscan str).bind (writeStr N w dst)

/-- The call `memset(&item.sval.data, 0, n)` on object `i`.  The union holds a
`char *`, so its storage has at least `sizeof(char *)` bytes; the bytes of the
write that lie past the `N`-byte array fall in the rest of the union and are
not part of the array. -/
def memsetSval (N : Nat) (i : Nat) (n : Nat) (w : World) : Option World :=
  (w.objs[i]?).map fun o =>
    let zeroed := List.replicate (min n N) (some 0) ++ (svalData N o.item).drop (min n N)
    setObj i { o with item := repr.sval zeroed } w

/-! ## Member functions of `MyString<N>` (`N` is `MAX_OPT_SIZE`)

Constructors add the new object at the end of `objs` and return its number. -/

/-- The destructor `~MyString()`. -/
def dtor (this : Nat) (w : World) : Option World := do
  let version ← getVersion this w
  if version then
    let data ← getLvalData this w
    if data ≠ Ptr.null then deleteArr data w else pure w
  else pure w

/-- The constructor `MyString()`: `sz{0}`, `version{false}`, `item` not written. -/
def ctorDefault (w : World) : World × Nat :=
  ({ w with objs := w.objs ++ [{ sz := 0, item := repr.indeterminate, version := false }] },
    w.objs.length)

/-- The constructor `MyString(const char *str)`. -/
def ctorCStr (N : Nat) (str : List Cell) (w : World) : Option (World × Nat) := do
  let this := w.objs.length
  let len ← strlen str
  let w := { w with objs := w.objs ++ [{ sz := len, item := repr.indeterminate, version := false }] }
  let sz ← getSz this w
  let w ← (if sz ≥ N then setVersion this true w else setVersion this false w)
  let sz ← getSz this w
  if sz > 0 then
    let version ← getVersion this w
    if !version then
      let w ← strcpyFrom N (Ptr.inl this) str w
      pure (w, this)
    else
      let (w, p) := newArr (sz + 1) w
      let w ← setLvalData this p w
      let data ← getLvalData this w
      let w ← strcpyFrom N data str w
      pure (w, this)
  else pure (w, this)

/-- The copy constructor `MyString(const MyString &other)`. -/
def ctorCopy (N : Nat) (other : Nat) (w : World) : Option (World × Nat) := do
  let this := w.objs.length
  let osz ← getSz other w
  let oversion ← getVersion other w
  let w := { w with objs := w.objs ++ [{ sz := osz, item := repr.indeterminate, version := oversion }] }
  let sz ← getSz this w
  if sz > 0 then
    let version ← getVersion this w
    if version then
      let (w, p) := newArr (sz + 1) w
      let w ← setLvalData this p w
      let data ← getLvalData this w
      let odata ← getLvalData other w
      let w ← strcpy N data odata w
      pure (w, this)
    else
      let w ← strcpy N (Ptr.inl this) (Ptr.inl other) w
      pure (w, this)
  else pure (w, this)

/-- The move constructor `MyString(MyString &&other)`. -/
def ctorMove (N : Nat) (other : Nat) (w : World) : Option (World × Nat) := do
  let this := w.objs.length
  let osz ← getSz other w
  let oversion ← getVersion other w
  let w := { w with objs := w.objs ++ [{ sz := osz, item := repr.indeterminate, version := oversion }] }
  let sz ← getSz this w
  if sz > 0 then
    let version ← getVersion this w
    if version then
      let odata ← getLvalData other w
      let w ← setLvalData this odata w
      let w ← setLvalData other Ptr.null w
      let w ← setSz other 0 w
      pure (w, this)
    else
      let w ← strcpy N (Ptr.inl this) (Ptr.inl other) w
      let w ← setSz other 0 w
      let w ← memsetSval N other sizeof_sz w
      pure (w, this)
  else pure (w, this)

/-- The copy assignment `operator=(const MyString &other)`. -/
def assignCopy (N : Nat) (this other : Nat) (w : World) : Option World := do
  let osz ← getSz other w
  let w ← setSz this osz w
  let prevVersion ← getVersion this w
  let oversion ← getVersion other w
  let w ← setVersion this oversion w
  let w ← (if prevVersion then
      (getLvalData this w).bind fun data =>
        if data ≠ Ptr.null then deleteArr data w else pure w
    else pure w)
  let sz ← getSz this w
  if sz > 0 then
    let version ← getVersion this w
    if version then
      let (w, p) := newArr (sz + 1) w
      let w ← setLvalData this p w
      let data ← getLvalData this w
      let odata ← getLvalData other w
      strcpy N data odata w
    else
      strcpy N (Ptr.inl this) (Ptr.inl other) w
  else pure w

/-- The move assignment `operator=(MyString &&other)`.  The source reads
`prevVersion` and never uses it. -/
def assignMove (N : Nat) (this other : Nat) (w : World) : Option World := do
  let osz ← getSz other w
  let w ← setSz this osz w
  let _prevVersion ← getVersion this w
  let oversion ← getVersion other w
  let w ← setVersion this oversion w
  let sz ← getSz this w
  if sz > 0 then
    let version ← getVersion this w
    if version then
      let odata ← getLvalData other w
      let w ← setLvalData this odata w
      let w ← setLvalData other Ptr.null w
      setSz other 0 w
    else
      let w ← strcpy N (Ptr.inl this) (Ptr.inl other) w
      let w ← setSz other 0 w
      memsetSval N other sizeof_sz w
  else pure w

/-- The assignment `operator=(const char *str)`. -/
def assignCStr (N : Nat) (this : Nat) (str : List Cell) (w : World) : Option World := do
  let len ← strlen str
  let w ← setSz this len w
  let prevVersion ← getVersion this w
  let w ← (if prevVersion then
      (getLvalData this w).bind fun data => deleteArr data w
    else pure w)
  let sz ← getSz this w
  let w ← (if sz ≥ N then setVersion this true w else setVersion this false w)
  let sz ← getSz this w
  if sz > 0 then
    let version ← getVersion this w
    if !version then
      strcpyFrom N (Ptr.inl this) str w
    else
      let (w, p) := newArr (sz + 1) w
      let w ← setLvalData this p w
      let data ← getLvalData this w
      strcpyFrom N data str w
  else pure w

/-- The member `size()`. -/
def size (this : Nat) (w : World) : Option Nat := getSz this w

/-- The outcome of `operator[]`: a reference to the byte `off` bytes after
`p`, the exception `std::out_of_range`, or undefined behaviour. -/
inductive IndexResult where
  | ref (p : Ptr) (off : Nat)
  | out_of_range
  | undefined
  deriving DecidableEq

/-- The member `const char &operator[](std::size_t pos) const`. -/
def opIndexConst (this : Nat) (pos : Nat) (w : World) : IndexResult :=
  match w.objs[this]? with
  | none => IndexResult.undefined
  | some o =>
    if pos < o.sz then
      if o.version then
        match lvalData o.item with
        | some data => IndexResult.ref data pos
        | none => IndexResult.undefined
      else IndexResult.ref (Ptr.inl this) pos
    else IndexResult.out_of_range

/-- The member `char &operator[](std::size_t pos)`. -/
def opIndex (this : Nat) (pos : Nat) (w : World) : IndexResult :=
  match w.objs[this]? with
  | none => IndexResult.undefined
  | some o =>
    if pos < o.sz then
      if o.version then
        match lvalData o.item with
        | some data => IndexResult.ref data pos
        | none => IndexResult.undefined
      else IndexResult.ref (Ptr.inl this) pos
    else IndexResult.out_of_range

/-- The member `CStr()`; `Ptr.null` is `nullptr`. -/
def CStr (this : Nat) (w : World) : Option Ptr := do
  let sz ← getSz this w
  if sz = 0 then pure Ptr.null
  else
    let version ← getVersion this w
    if version then getLvalData this w else pure (Ptr.inl this)

/-- The friend `operator<<`: the sink `os` is the list of characters
written so far. -/
def render (N : Nat) (os : List Nat) (s : Nat) (w : World) : Option (List Nat) := do
  let sz ← getSz s w
  if sz > 0 then
    let version ← getVersion s w
    if version then
      let data ← getLvalData s w
      let text ← readStr N w data
      pure (os ++ text)
    else
      let text ← readStr N w (Ptr.inl s)
      pure (os ++ text)
  else pure os

/-! ## Observations through references and pointers -/

/-- Read the byte a reference designates; `none` when the reference is not
into live storage. -/
def load (N : Nat) (w : World) (p : Ptr) (off : Nat) : Option Cell :=
  (cellsAt N w p).bind fun cells => cells[off]?

/-- Write the character `c` through a reference. -/
def store (N : Nat) (w : World) (p : Ptr) (off : Nat) (c : Nat) : Option World :=
  (cellsAt N w p).bind fun cells =>
    if off < cells.length then setCellsAt w p (cells.set off (some c)) else none

/-- The statement `s[pos] = c` through the mutable `operator[]`; `none` also
when the operator throws. -/
def writeChar (N : Nat) (s : Nat) (pos : Nat) (c : Nat) (w : World) : Option World :=
  match opIndex s pos w with
  | IndexResult.ref p off => store N w p off c
  | _ => none

/-- The byte read through `s[pos]` with the read-only `operator[]`; `none`
when the operator throws or the reference is not into live storage. -/
def charAt (N : Nat) (s : Nat) (pos : Nat) (w : World) : Option Cell :=
  match opIndexConst s pos w with
  | IndexResult.ref p off => load N w p off
  | _ => none

/-- The storage mode of object `i`. -/
def mode (i : Nat) (w : World) : Option Mode :=
  (getVersion i w).map fun v => if v then Mode.Heap else Mode.Inline

/-- The terminated byte sequence seen through the pointer `CStr()` returns:
`some none` for the null pointer, `some (some T)` for the text `T`. -/
def CStrText (N : Nat) (this : Nat) (w : World) : Option (Option (List Nat)) :=
  (CStr this w).bind fun p =>
    if p = Ptr.null then some none else (readStr N w p).map some

/-- Heap array `a` is allocated in `w`. -/
def isLive (w : World) (a : Nat) : Bool :=
  match w.heap[a]? with
  | some (some _) => true
  | _ => false

/-- Heap array `a` was allocated and has been released in `w`. -/
def isReleased (w : World) (a : Nat) : Bool :=
  match w.heap[a]? with
  | some none => true
  | _ => false

/-- Some object of `w` in heap mode holds a pointer to heap array `a`. -/
def isOwned (w : World) (a : Nat) : Bool :=
  w.objs.any fun o => o.version && decide (o.item = repr.lval (Ptr.heap a))

/-- The world of `main` after `MyString<25> val7 = "abcdef"; MyString<25> val8 =
std::move(val7);`: object 0 is `val7`, object 1 is `val8`. -/
def val8World : World :=
  { heap := [],
    objs := [
      { sz := 0, item := repr.sval (List.replicate 8 (some 0) ++ List.replicate 17 none),
        version := false },
      { sz := 6, item := repr.sval (cstring [97, 98, 99, 100, 101, 102] ++ List.replicate 18 none),
        version := false }] }


/-- The world after `MyString<2> val("abc");` at program start: object 0 owns
heap array 0. -/
def abcWorld : World :=
  { heap := [some (cstring [97, 98, 99])],
    objs := [{ sz := 3, item := repr.lval (Ptr.heap 0), version := true }] }

/-- Object `i` of `w` stores the text `T` the way the constructor from text
lays it out for threshold `N`: `sz` is the length of `T`, `version` is
`sz >= N`, and for a non-empty `T` the active storage (the heap array `data`
points to, or the inline array) starts with the bytes of `T` and the
terminator. -/
def HoldsText (N : Nat) (w : World) (i : Nat) (T : List Nat) : Prop :=
  ∃ o, w.objs[i]? = some o ∧ o.sz = T.length ∧ o.version = decide (N ≤ T.length) ∧
    (T ≠ [] →
      (N ≤ T.length → ∃ a rest, o.item = repr.lval (Ptr.heap a) ∧
        w.heap[a]? = some (some (cstring T ++ rest))) ∧
      (T.length < N → ∃ rest, o.item = repr.sval (cstring T ++ rest)))

/-- Object `i` of `w` is a well-formed receiver of an assignment: in inline
mode its array has `N` bytes; in heap mode its `data` points to an allocated
heap array. -/
def Assignable (N : Nat) (w : World) (i : Nat) : Prop :=
  ∃ o, w.objs[i]? = some o ∧
    ((o.version = false ∧ (svalData N o.item).length = N) ∨
     (o.version = true ∧ ∃ b cb, o.item = repr.lval (Ptr.heap b) ∧
        w.heap[b]? = some (some cb)))

/-- World `w1` keeps every object and every heap array of `w` as it is. -/
def Extends (w w1 : World) : Prop :=
  (∀ j, j < w.objs.length → w1.objs[j]? = w.objs[j]?) ∧
  (∀ a, a < w.heap.length → w1.heap[a]? = w.heap[a]?)

/-! ## Write footprints of the inline arrays -/

/-- The offsets from `dst` that `strcpy(dst, src)` writes when the string at
`src` is `s`: one per character, and the terminator. -/
def strcpyOffsets (s : List Nat) : List Nat := List.range (s.length + 1)

/-- The offsets from `dst` that `memset(dst, 0, n)` writes. -/
def memsetOffsets (n : Nat) : List Nat := List.range n

/-- The writes into inline arrays made by the constructor
`MyString(const char *str)`, as pairs of the object and the offset in its
`item.sval.data`: the `strcpy` of the inline branch. -/
def ctorCStrInlineWrites (N : Nat) (str : List Cell) (w : World) : Option (List (Nat × Nat)) := do
  let this := w.objs.length
  let text ← strscan str
  let sz := text.length
  if sz > 0 then
    if sz ≥ N then pure []
    else pure ((strcpyOffsets text).map fun off => (this, off))
  else pure []

/-- The writes into inline arrays made by the move constructor
`MyString(MyString &&other)`: in the inline branch, the `strcpy` into
`item.sval.data` of the new object and the `memset` of `sizeof(sz)` bytes on
`other.item.sval.data`. -/
def ctorMoveInlineWrites (N : Nat) (other : Nat) (w : World) : Option (List (Nat × Nat)) := do
  let this := w.objs.length
  let sz ← getSz other w
  let version ← getVersion other w
  if sz > 0 then
    if version then pure []
    else
      let text ← readStr N w (Ptr.inl other)
      pure (((strcpyOffsets text).map fun off => (this, off)) ++
        ((memsetOffsets sizeof_sz).map fun off => (other, off)))
  else pure []

/-- The writes into inline arrays made by the move assignment
`operator=(MyString &&other)`, whose inline branch is that of the move
constructor. -/
def assignMoveInlineWrites (N : Nat) (this other : Nat) (w : World) :
    Option (List (Nat × Nat)) := do
  let sz ← getSz other w
  let version ← getVersion other w
  if sz > 0 then
    if version then pure []
    else
      let text ← readStr N w (Ptr.inl other)
      pure (((strcpyOffsets text).map fun off => (this, off)) ++
        ((memsetOffsets sizeof_sz).map fun off => (other, off)))
  else pure []

/-! ## Sequences of public operations -/

/-- One public operation on the objects of a world.  Constructors make the
next object; the other operations name their objects by number. -/
inductive Op where
  | default
  | fromText (str : List Cell)
  | copy (other : Nat)
  | move (other : Nat)
  | assignCopy (this other : Nat)
  | assignMove (this other : Nat)
  | assignText (this : Nat) (str : List Cell)
  | write (s pos c : Nat)

/-- Run one operation for threshold `N`; `none` is undefined behaviour or, for
a write, the exception `std::out_of_range`. -/
def exec (N : Nat) : Op → World → Option World
  | Op.default, w => some (ctorDefault w).1
  | Op.fromText str, w => (ctorCStr N str w).map fun r => r.1
  | Op.copy other, w => (ctorCopy N other w).map fun r => r.1
  | Op.move other, w => (ctorMove N other w).map fun r => r.1
  | Op.assignCopy this other, w => assignCopy N this other w
  | Op.assignMove this other, w => assignMove N this other w
  | Op.assignText this str, w => assignCStr N this str w
  | Op.write s pos c, w => writeChar N s pos c w

/-- The operation writes no NUL character through `operator[]`. -/
def Op.nulFree : Op → Prop
  | Op.write _ _ c => c ≠ 0
  | _ => True

/-- The worlds reached from the program start by a finite sequence of public
operations that write no NUL character through `operator[]`. -/
inductive Reachable (N : Nat) : World → Prop where
  | start : Reachable N World.empty
  | step (w w1 : World) (op : Op) (hw : Reachable N w) (hop : op.nulFree)
      (he : exec N op w = some w1) : Reachable N w1

/-- The storage of object `o` in a heap `heap` is well formed for threshold
`N`: an inline instance is shorter than `N`; a heap instance is at least `N`
long or empty; a non-empty instance holds its `sz` characters, none of them
NUL, and the terminator in its active storage (a live heap array of `sz + 1`
bytes, or the inline array); the inline array has `N` bytes; and `data` never
points past the heap. -/
def ObjOK (N : Nat) (heap : List (Option (List Cell))) (o : MyString) : Prop :=
  (o.version = false → o.sz < N) ∧
  (o.version = true → N ≤ o.sz ∨ o.sz = 0) ∧
  (0 < o.sz → o.version = true → ∃ a txt, o.item = repr.lval (Ptr.heap a) ∧
    heap[a]? = some (some (cstring txt)) ∧ txt.length = o.sz ∧ ∀ c ∈ txt, c ≠ 0) ∧
  (0 < o.sz → o.version = false → ∃ txt rest, o.item = repr.sval (cstring txt ++ rest) ∧
    txt.length = o.sz ∧ ∀ c ∈ txt, c ≠ 0) ∧
  (∀ a, o.item = repr.lval (Ptr.heap a) → a < heap.length) ∧
  (svalData N o.item).length = N

/-- The invariant of the reachable worlds: every object is well formed and no
two objects hold the same heap pointer. -/
def Inv (N : Nat) (w : World) : Prop :=
  (∀ (i : Nat) (o : MyString), w.objs[i]? = some o → ObjOK N w.heap o) ∧
  (∀ (i j : Nat) (oi oj : MyString) (a : Nat), i ≠ j → w.objs[i]? = some oi →
    w.objs[j]? = some oj →
    oi.item = repr.lval (Ptr.heap a) → oj.item ≠ repr.lval (Ptr.heap a))

/-! ## The parts of the assignments -/

/-- The first statements of the copy assignment, up to the release of the
buffer the receiver held: `sz = other.sz; bool prevVersion{version};
version = other.version; if (prevVersion && item.lval.data) delete[] ...`. -/
def assignCopyHead (this other : Nat) (w : World) : Option World := do
  let osz ← getSz other w
  let w ← setSz this osz w
  let prevVersion ← getVersion this w
  let oversion ← getVersion other w
  let w ← setVersion this oversion w
  (if prevVersion then
      (getLvalData this w).bind fun data =>
        if data ≠ Ptr.null then deleteArr data w else pure w
    else pure w)

/-- The statements `if (sz > 0) { ... }` that end the copy assignment (and
the copy constructor). -/
def copyBody (N : Nat) (this other : Nat) (w : World) : Option World := do
  let sz ← getSz this w
  if sz > 0 then
    let version ← getVersion this w
    if version then
      let (w, p) := newArr (sz + 1) w
      let w ← setLvalData this p w
      let data ← getLvalData this w
      let odata ← getLvalData other w
      strcpy N data odata w
    else
      strcpy N (Ptr.inl this) (Ptr.inl other) w
  else pure w

/-- The first statements of the assignment from text, up to the release of
the buffer the receiver held: `sz = std::strlen(str); bool
prevVersion{version}; if (prevVersion) delete[] item.lval.data;`. -/
def assignCStrHead (this : Nat) (str : List Cell) (w : World) : Option World := do
  let len ← strlen str
  let w ← setSz this len w
  let prevVersion ← getVersion this w
  (if prevVersion then
      (getLvalData this w).bind fun data => deleteArr data w
    else pure w)

/-- The statements from `if (sz >= MAX_OPT_SIZE)` on that end the assignment
from text (and the constructor from text). -/
def textBody (N : Nat) (this : Nat) (str : List Cell) (w : World) : Option World := do
  let sz ← getSz this w
  let w ← (if sz ≥ N then setVersion this true w else setVersion this false w)
  let sz ← getSz this w
  if sz > 0 then
    let version ← getVersion this w
    if !version then
      strcpyFrom N (Ptr.inl this) str w
    else
      let (w, p) := newArr (sz + 1) w
      let w ← setLvalData this p w
      let data ← getLvalData this w
      strcpyFrom N data str w
  else pure w

/-- The world after `MyString<2> val("abc"); MyString<2> b(std::move(val));` at
program start: object 0 is the moved-from `val`, object 1 is `b`, which owns
heap array 0. -/
def abcMovedWorld : World :=
  { heap := [some (cstring [97, 98, 99])],
    objs := [{ sz := 0, item := repr.lval Ptr.null, version := true },
             { sz := 3, item := repr.lval (Ptr.heap 0), version := true }] }

/-! ## Runs with writes of any character -/

/-- The worlds reached from the program start by a finite sequence of public
operations, writes of any character through `operator[]` included. -/
inductive Attained (N : Nat) : World → Prop where
  | start : Attained N World.empty
  | step (w w1 : World) (op : Op) (hw : Attained N w)
      (he : exec N op w = some w1) : Attained N w1

/-- The layout of object `o` in a heap `heap` is well formed for threshold `N`,
whatever its characters are: an inline instance is shorter than `N`; `data` of
a non-empty heap instance points to a live heap array of `sz + 1` bytes; the
inline array has `N` bytes; and `data` never points past the heap. -/
def ShapeOK (N : Nat) (heap : List (Option (List Cell))) (o : MyString) : Prop :=
  (o.version = false → o.sz < N) ∧
  (0 < o.sz → o.version = true → ∃ a cells, o.item = repr.lval (Ptr.heap a) ∧
    heap[a]? = some (some cells) ∧ cells.length = o.sz + 1) ∧
  (∀ a, o.item = repr.lval (Ptr.heap a) → a < heap.length) ∧
  (svalData N o.item).length = N

/-- The invariant of the attained worlds: every object has a well-formed
layout and no two objects hold the same heap pointer. -/
def Shape (N : Nat) (w : World) : Prop :=
  (∀ (i : Nat) (o : MyString), w.objs[i]? = some o → ShapeOK N w.heap o) ∧
  (∀ (i j : Nat) (oi oj : MyString) (a : Nat), i ≠ j → w.objs[i]? = some oi →
    w.objs[j]? = some oj →
    oi.item = repr.lval (Ptr.heap a) → oj.item ≠ repr.lval (Ptr.heap a))

/-- The world after `MyString<2> s("abc"); MyString<2> t("xyz"); t[0] = 0;` at
program start: object 0 is `s`, object 1 is `t`. -/
def nulWrittenWorld : World :=
  { heap := [some (cstring [97, 98, 99]), some [some 0, some 121, some 122, some 0]],
    objs := [{ sz := 3, item := repr.lval (Ptr.heap 0), version := true },
             { sz := 3, item := repr.lval (Ptr.heap 1), version := true }] }
/-! ## Lemmas on the C library model and on the member functions -/

theorem strscan_text (T : List Nat) (hT : ∀ c ∈ T, c ≠ 0) (rest : List Cell) :
    strscan (T.map some ++ some 0 :: rest) = some T := by
  induction T with
  | nil => simp [strscan]
  | cons c T ih =>
    have hc : c ≠ 0 := hT c (by simp)
    obtain ⟨k, rfl⟩ := Nat.exists_eq_succ_of_ne_zero hc
    have ih2 := ih (fun d hd => hT d (by simp [hd]))
    simp [strscan, ih2]

theorem strscan_cstring (T : List Nat) (hT : ∀ c ∈ T, c ≠ 0) :
    strscan (cstring T) = some T := by
  unfold cstring
  exact strscan_text T hT []

theorem ne_length_of_some {α : Type} (l : List α) (x : α) (i : Nat)
    (h : l[i]? = some x) : i < l.length := by
  by_contra hc
  have := List.getElem?_eq_none (l := l) (n := i) (by omega)
  simp [this] at h

theorem set_concat_length {α : Type} (l : List α) (a b : α) :
    (l ++ [a]).set l.length b = l ++ [b] := by
  induction l with
  | nil => rfl
  | cons x l ih => simp [ih]

theorem set_concat_old {α : Type} (l : List α) (i : Nat) (a b x : α) (h : l[i]? = some x) :
    (l ++ [a]).set i b = l.set i b ++ [a] := by
  have hi := ne_length_of_some l x i h
  simp [List.set_append, hi]

theorem get_set_self {α : Type} (l : List α) (i : Nat) (a x : α) (h : l[i]? = some x) :
    (l.set i a)[i]? = some a := by
  have hi := ne_length_of_some l x i h
  simp [List.getElem?_set, hi]

theorem get_set_ne {α : Type} (l : List α) (i j : Nat) (a : α) (h : i ≠ j) :
    (l.set i a)[j]? = l[j]? := by
  simp [List.getElem?_set, h]

theorem get_concat_new {α : Type} (l : List α) (a : α) : (l ++ [a])[l.length]? = some a := by
  simp

theorem get_concat_old {α : Type} (l : List α) (a x : α) (i : Nat)
    (h : l[i]? = some x) : (l ++ [a])[i]? = some x := by
  rw [List.getElem?_append_left (ne_length_of_some l x i h)]
  exact h

@[simp] theorem svalData_indeterminate (N : Nat) :
    svalData N repr.indeterminate = List.replicate N none := rfl

@[simp] theorem svalData_lval (N : Nat) (p : Ptr) :
    svalData N (repr.lval p) = List.replicate N none := rfl

@[simp] theorem svalData_sval (N : Nat) (d : List Cell) : svalData N (repr.sval d) = d := rfl

@[simp] theorem lvalData_lval (p : Ptr) : lvalData (repr.lval p) = some p := rfl

@[simp] theorem lvalData_sval (d : List Cell) : lvalData (repr.sval d) = none := rfl

@[simp] theorem lvalData_indeterminate : lvalData repr.indeterminate = none := rfl

theorem heap_ne_null (a : Nat) : (Ptr.heap a = Ptr.null) = False := by simp

theorem ctorCStr_eq (N : Nat) (T : List Nat) (w : World) (hT : ∀ c ∈ T, c ≠ 0) :
    ctorCStr N (cstring T) w = some (
      if T.length = 0 then
        { w with objs := w.objs ++ [{ sz := 0, item := repr.indeterminate, version := decide (N = 0) }] }
      else if T.length < N then
        { w with objs := w.objs ++ [{ sz := T.length, item := repr.sval (cstring T ++ List.replicate (N - (T.length + 1)) none), version := false }] }
      else
        { heap := w.heap ++ [some (cstring T)],
          objs := w.objs ++ [{ sz := T.length, item := repr.lval (Ptr.heap w.heap.length), version := true }] },
      w.objs.length) := by
  rcases Nat.eq_zero_or_pos T.length with h0 | h0
  · rcases Nat.eq_zero_or_pos N with hN | hN
    · simp only [ctorCStr, strlen, strcpyFrom, strscan_cstring T hT, getSz, getVersion, setVersion,
        setObj, Option.bind_eq_bind, Option.some_bind, Option.map_some', Option.pure_def,
        get_concat_new, set_concat_length, h0, hN, gt_iff_lt, ge_iff_le, le_refl, lt_self_iff_false,
        if_true, if_false, decide_True]
    · have hN2 : ¬ N ≤ 0 := by omega
      have hN3 : ¬ N = 0 := by omega
      simp only [ctorCStr, strlen, strcpyFrom, strscan_cstring T hT, getSz, getVersion, setVersion,
        setObj, Option.bind_eq_bind, Option.some_bind, Option.map_some', Option.pure_def,
        get_concat_new, set_concat_length, h0, hN2, hN3, gt_iff_lt, ge_iff_le, lt_self_iff_false,
        if_true, if_false, decide_False]
  · have h1 : T.length ≠ 0 := by omega
    by_cases hlt : T.length < N
    · have h2 : ¬ (N ≤ T.length) := by omega
      have h3 : T.length + 1 ≤ N := by omega
      simp only [ctorCStr, strlen, strcpyFrom, strscan_cstring T hT, getSz, getVersion, setVersion,
        setObj, writeStr, cellsAt, setCellsAt, strput,
        Option.bind_eq_bind, Option.some_bind, Option.map_some', Option.pure_def,
        get_concat_new, set_concat_length, svalData_indeterminate, List.length_replicate,
        List.drop_replicate, h0, h1, h2, h3, hlt, gt_iff_lt, ge_iff_le,
        if_true, if_false, Bool.not_false]
    · have h2 : N ≤ T.length := by omega
      simp only [ctorCStr, strlen, strcpyFrom, strscan_cstring T hT, getSz, getVersion,
        getLvalData, setLvalData, setVersion, newArr,
        setObj, writeStr, cellsAt, setCellsAt, strput,
        Option.bind_eq_bind, Option.some_bind, Option.map_some', Option.pure_def,
        get_concat_new, set_concat_length, lvalData_lval, List.length_replicate,
        List.drop_replicate, h0, h1, h2, hlt, gt_iff_lt, ge_iff_le, le_refl, Nat.sub_self,
        List.replicate_zero, List.append_nil,
        if_true, if_false, Bool.not_true, Bool.false_eq_true]

theorem ctorMove_heap_eq (N : Nat) (w : World) (s : Nat) (o : MyString) (p : Ptr)
    (ho : w.objs[s]? = some o) (hsz : 0 < o.sz) (hv : o.version = true)
    (hp : o.item = repr.lval p) :
    ctorMove N s w = some (
      { heap := w.heap,
        objs := w.objs.set s { sz := 0, item := repr.lval Ptr.null, version := true } ++
          [{ sz := o.sz, item := repr.lval p, version := true }] },
      w.objs.length) := by
  have hs1 : (w.objs ++ [({ sz := o.sz, item := repr.lval p, version := true } : MyString)])[s]? = some o :=
    get_concat_old _ _ _ _ ho
  have hs2 : (w.objs.set s { sz := o.sz, item := repr.lval Ptr.null, version := true } ++
      [({ sz := o.sz, item := repr.lval p, version := true } : MyString)])[s]? =
      some { sz := o.sz, item := repr.lval Ptr.null, version := true } :=
    get_concat_old _ _ _ _ (get_set_self _ _ _ _ ho)
  simp only [ctorMove, getSz, getVersion, getLvalData, setLvalData, setSz, setObj,
    Option.bind_eq_bind, Option.some_bind, Option.map_some', Option.pure_def,
    get_concat_new, get_concat_old _ _ _ _ ho, set_concat_length, set_concat_old _ _ _ _ _ ho,
    set_concat_old _ _ _ _ _ (get_set_self _ _ _ _ ho), hs1, hs2,
    List.set_set, ho, hv, hp, hsz, lvalData_lval, gt_iff_lt, if_true]

theorem ctorMove_inline_eq (N : Nat) (w : World) (s : Nat) (o : MyString) (txt : List Nat)
    (ho : w.objs[s]? = some o) (hsz : 0 < o.sz) (hv : o.version = false)
    (htxt : strscan (svalData N o.item) = some txt) (hfit : txt.length + 1 ≤ N) :
    ctorMove N s w = some (
      { heap := w.heap,
        objs := w.objs.set s { sz := 0, item := repr.sval (List.replicate (min sizeof_sz N) (some 0) ++
              (svalData N o.item).drop (min sizeof_sz N)), version := false } ++
          [{ sz := o.sz, item := repr.sval (cstring txt ++ List.replicate (N - (txt.length + 1)) none),
             version := false }] },
      w.objs.length) := by
  have hs1 : ∀ x : MyString, (w.objs ++ [x])[s]? = some o := fun x => get_concat_old _ _ _ _ ho
  have hs2 : ∀ x y : MyString, (w.objs.set s y ++ [x])[s]? = some y :=
    fun x y => get_concat_old _ _ _ _ (get_set_self _ _ _ _ ho)
  have hs3 : ∀ x y z : MyString, (w.objs.set s y ++ [x]).set s z = w.objs.set s z ++ [x] := by
    intro x y z
    rw [set_concat_old _ _ _ _ _ (get_set_self _ _ _ _ ho), List.set_set]
  simp only [ctorMove, getSz, getVersion, setSz, setObj, strcpy, readStr, writeStr, cellsAt,
    setCellsAt, strput, memsetSval,
    Option.bind_eq_bind, Option.some_bind, Option.map_some', Option.pure_def,
    get_concat_new, set_concat_length, set_concat_old _ _ _ _ _ ho, hs1, hs2, hs3,
    svalData_indeterminate, List.length_replicate, List.drop_replicate,
    ho, hv, hsz, htxt, hfit, gt_iff_lt, if_true, if_false, Bool.false_eq_true]

theorem lookup_new {α : Type} (l : List α) (i : Nat) (a b : α) :
    (l.set i a ++ [b])[l.length]? = some b := by
  rw [List.getElem?_append_right (by simp)]
  simp

theorem lookup_set {α : Type} (l : List α) (i : Nat) (a b : α) (h : i < l.length) :
    (l.set i a ++ [b])[i]? = some a := by
  rw [List.getElem?_append_left (by simpa using h)]
  simp [List.getElem?_set, h]

theorem lookup_other {α : Type} (l : List α) (i j : Nat) (a b : α) (h1 : j ≠ i)
    (h2 : j ≠ l.length) : (l.set i a ++ [b])[j]? = l[j]? := by
  by_cases hj : j < l.length
  · rw [List.getElem?_append_left (by simpa using hj)]
    simp [List.getElem?_set, Ne.symm h1]
  · have h3 : l.length < j := by omega
    rw [List.getElem?_eq_none (by simp; omega), List.getElem?_eq_none (by omega)]

theorem ctorCStr_spec (N : Nat) (T : List Nat) (w : World) (hT : ∀ c ∈ T, c ≠ 0) :
    ∃ w1, ctorCStr N (cstring T) w = some (w1, w.objs.length) ∧
      (∀ j, j ≠ w.objs.length → w1.objs[j]? = w.objs[j]?) ∧
      (T = [] → w1.heap = w.heap ∧ w1.objs[w.objs.length]? =
        some { sz := 0, item := repr.indeterminate, version := decide (N = 0) }) ∧
      (T ≠ [] → T.length < N → w1.heap = w.heap ∧ w1.objs[w.objs.length]? =
        some { sz := T.length,
               item := repr.sval (cstring T ++ List.replicate (N - (T.length + 1)) none),
               version := false }) ∧
      (T ≠ [] → N ≤ T.length → w1.heap = w.heap ++ [some (cstring T)] ∧
        w1.objs[w.objs.length]? =
          some { sz := T.length, item := repr.lval (Ptr.heap w.heap.length), version := true }) := by
  refine ⟨_, ctorCStr_eq N T w hT, ?_, ?_, ?_, ?_⟩
  · intro j hj
    by_cases hjl : j < w.objs.length
    · split_ifs <;> simp [List.getElem?_append_left hjl]
    · have h3 : w.objs.length < j := by omega
      split_ifs <;> simp [List.getElem?_eq_none, h3, Nat.le_of_lt h3] <;> omega
  · intro h
    subst h
    simp
  · intro h hlt
    have h1 : T.length ≠ 0 := by simpa using h
    simp [h1, hlt]
  · intro h hge
    have h1 : T.length ≠ 0 := by simpa using h
    have h2 : ¬ T.length < N := by omega
    simp [h1, h2]

theorem ctorMove_heap_spec (N : Nat) (w : World) (s : Nat) (o : MyString) (p : Ptr)
    (ho : w.objs[s]? = some o) (hsz : 0 < o.sz) (hv : o.version = true)
    (hp : o.item = repr.lval p) :
    ∃ w1, ctorMove N s w = some (w1, w.objs.length) ∧ w1.heap = w.heap ∧
      w1.objs[w.objs.length]? = some { sz := o.sz, item := repr.lval p, version := true } ∧
      w1.objs[s]? = some { sz := 0, item := repr.lval Ptr.null, version := true } ∧
      (∀ j, j ≠ s → j ≠ w.objs.length → w1.objs[j]? = w.objs[j]?) :=
  ⟨_, ctorMove_heap_eq N w s o p ho hsz hv hp, rfl, lookup_new _ _ _ _,
    lookup_set _ _ _ _ (ne_length_of_some _ _ _ ho), fun _ h1 h2 => lookup_other _ _ _ _ _ h1 h2⟩

theorem ctorMove_inline_spec (N : Nat) (w : World) (s : Nat) (o : MyString) (txt : List Nat)
    (ho : w.objs[s]? = some o) (hsz : 0 < o.sz) (hv : o.version = false)
    (htxt : strscan (svalData N o.item) = some txt) (hfit : txt.length + 1 ≤ N) :
    ∃ w1, ctorMove N s w = some (w1, w.objs.length) ∧ w1.heap = w.heap ∧
      w1.objs[w.objs.length]? = some
        { sz := o.sz,
          item := repr.sval (cstring txt ++ List.replicate (N - (txt.length + 1)) none),
          version := false } ∧
      w1.objs[s]? = some
        { sz := 0,
          item := repr.sval (List.replicate (min sizeof_sz N) (some 0) ++
            (svalData N o.item).drop (min sizeof_sz N)),
          version := false } ∧
      (∀ j, j ≠ s → j ≠ w.objs.length → w1.objs[j]? = w.objs[j]?) :=
  ⟨_, ctorMove_inline_eq N w s o txt ho hsz hv htxt hfit, rfl, lookup_new _ _ _ _,
    lookup_set _ _ _ _ (ne_length_of_some _ _ _ ho), fun _ h1 h2 => lookup_other _ _ _ _ _ h1 h2⟩

theorem cstring_length (T : List Nat) : (cstring T).length = T.length + 1 := by
  simp [cstring]

theorem cstring_getElem? (T : List Nat) (i : Nat) (h : i < T.length) (rest : List Cell) :
    (cstring T ++ rest)[i]? = some (some T[i]) := by
  have h1 : i < (cstring T).length := by rw [cstring_length]; omega
  rw [List.getElem?_append_left h1]
  unfold cstring
  rw [List.getElem?_append_left (by simpa using h)]
  simp [h]

theorem cellsAt_ext (N : Nat) (w w1 : World) (p : Ptr) (cells : List Cell)
    (h : cellsAt N w p = some cells)
    (hobjs : ∀ j, j < w.objs.length → w1.objs[j]? = w.objs[j]?)
    (hheap : ∀ a, a < w.heap.length → w1.heap[a]? = w.heap[a]?) :
    cellsAt N w1 p = some cells := by
  cases p with
  | null => simp [cellsAt] at h
  | heap a =>
    have hlt : a < w.heap.length := by
      by_contra hc
      simp [cellsAt, List.getElem?_eq_none (Nat.le_of_not_lt hc)] at h
    simp only [cellsAt, hheap a hlt]
    simpa [cellsAt] using h
  | inl i =>
    have hlt : i < w.objs.length := by
      by_contra hc
      simp [cellsAt, List.getElem?_eq_none (Nat.le_of_not_lt hc)] at h
    simp only [cellsAt, hobjs i hlt]
    simpa [cellsAt] using h

theorem readStr_ext (N : Nat) (w w1 : World) (p : Ptr) (txt : List Nat)
    (h : readStr N w p = some txt)
    (hobjs : ∀ j, j < w.objs.length → w1.objs[j]? = w.objs[j]?)
    (hheap : ∀ a, a < w.heap.length → w1.heap[a]? = w.heap[a]?) :
    readStr N w1 p = some txt := by
  unfold readStr at h ⊢
  cases hc : cellsAt N w p with
  | none => simp [hc] at h
  | some cells =>
    rw [cellsAt_ext N w w1 p cells hc hobjs hheap]
    simpa [hc] using h

theorem ctorCopy_heap_eq (N : Nat) (w : World) (s : Nat) (o : MyString) (p : Ptr)
    (txt : List Nat)
    (ho : w.objs[s]? = some o) (hsz : 0 < o.sz) (hv : o.version = true)
    (hp : o.item = repr.lval p) (hread : readStr N w p = some txt) (hfit : txt.length ≤ o.sz) :
    ctorCopy N s w = some (
      { heap := w.heap ++ [some (cstring txt ++ List.replicate (o.sz - txt.length) none)],
        objs := w.objs ++ [{ sz := o.sz, item := repr.lval (Ptr.heap w.heap.length), version := true }] },
      w.objs.length) := by
  have hfit2 : txt.length + 1 ≤ o.sz + 1 := by omega
  have hs1 : ∀ x : MyString, (w.objs ++ [x])[s]? = some o := fun x => get_concat_old _ _ _ _ ho
  have hread1 : readStr N
      { heap := w.heap ++ [some (List.replicate (o.sz + 1) none)],
        objs := w.objs ++ [{ sz := o.sz, item := repr.lval (Ptr.heap w.heap.length), version := true }] }
      p = some txt :=
    readStr_ext N w _ p txt hread
      (fun j hj => by simp [List.getElem?_append_left hj])
      (fun a ha => by simp [List.getElem?_append_left ha])
  simp only [ctorCopy, getSz, getVersion, getLvalData, setLvalData, setObj, newArr, strcpy,
    writeStr, cellsAt, setCellsAt, strput,
    Option.bind_eq_bind, Option.some_bind, Option.map_some', Option.pure_def,
    get_concat_new, set_concat_length, hs1, hread1,
    List.length_replicate, List.drop_replicate, Nat.add_sub_add_right,
    ho, hv, hp, hsz, hfit2, lvalData_lval, gt_iff_lt, if_true]

theorem ctorCopy_inline_eq (N : Nat) (w : World) (s : Nat) (o : MyString) (txt : List Nat)
    (ho : w.objs[s]? = some o) (hsz : 0 < o.sz) (hv : o.version = false)
    (hscan : strscan (svalData N o.item) = some txt) (hfit : txt.length + 1 ≤ N) :
    ctorCopy N s w = some (
      { heap := w.heap,
        objs := w.objs ++
          [{ sz := o.sz,
             item := repr.sval (cstring txt ++ List.replicate (N - (txt.length + 1)) none),
             version := false }] },
      w.objs.length) := by
  have hs1 : ∀ x : MyString, (w.objs ++ [x])[s]? = some o := fun x => get_concat_old _ _ _ _ ho
  simp only [ctorCopy, getSz, getVersion, setObj, strcpy, readStr, writeStr, cellsAt,
    setCellsAt, strput,
    Option.bind_eq_bind, Option.some_bind, Option.map_some', Option.pure_def,
    get_concat_new, set_concat_length, hs1,
    svalData_indeterminate, List.length_replicate, List.drop_replicate,
    ho, hv, hsz, hscan, hfit, gt_iff_lt, if_true, if_false, Bool.false_eq_true]

theorem ctorCopy_empty_eq (N : Nat) (w : World) (s : Nat) (o : MyString)
    (ho : w.objs[s]? = some o) (hsz : o.sz = 0) :
    ctorCopy N s w = some (
      { heap := w.heap,
        objs := w.objs ++ [{ sz := 0, item := repr.indeterminate, version := o.version }] },
      w.objs.length) := by
  simp only [ctorCopy, getSz, getVersion, Option.bind_eq_bind, Option.some_bind,
    Option.map_some', Option.pure_def, get_concat_new, ho, hsz, gt_iff_lt, lt_self_iff_false,
    if_false]

theorem strscan_eq_some (cells : List Cell) (txt : List Nat) (h : strscan cells = some txt) :
    (∀ c ∈ txt, c ≠ 0) ∧ ∃ rest, cells = txt.map some ++ some 0 :: rest := by
  induction cells generalizing txt with
  | nil => simp [strscan] at h
  | cons x cells ih =>
    cases x with
    | none => simp [strscan] at h
    | some c =>
      cases c with
      | zero =>
        simp [strscan] at h
        subst h
        exact ⟨by simp, cells, by simp⟩
      | succ k =>
        simp only [strscan, Option.map_eq_some'] at h
        obtain ⟨t, ht, rfl⟩ := h
        obtain ⟨h1, rest, h2⟩ := ih t ht
        refine ⟨?_, rest, ?_⟩
        · intro c hc
          rcases List.mem_cons.mp hc with hc | hc
          · omega
          · exact h1 c hc
        · simp [h2]

theorem strscan_length_lt (cells : List Cell) (txt : List Nat) (h : strscan cells = some txt) :
    txt.length < cells.length := by
  obtain ⟨-, rest, rfl⟩ := strscan_eq_some cells txt h
  simp

theorem strscan_getElem? (cells : List Cell) (txt : List Nat) (h : strscan cells = some txt)
    (i : Nat) (hi : i < txt.length) : cells[i]? = some (some txt[i]) := by
  obtain ⟨-, rest, rfl⟩ := strscan_eq_some cells txt h
  rw [List.getElem?_append_left (by simpa using hi)]
  simp [hi]

theorem assignCopy_heap_eq_of_inline (N : Nat) (w : World) (r s : Nat) (orr os : MyString)
    (a : Nat) (cells : List Cell) (txt : List Nat)
    (hor : w.objs[r]? = some orr) (hos : w.objs[s]? = some os) (hne : r ≠ s)
    (hsz : 0 < os.sz) (hv : os.version = true) (hp : os.item = repr.lval (Ptr.heap a))
    (hb : w.heap[a]? = some (some cells)) (hscan : strscan cells = some txt)
    (hfit : txt.length ≤ os.sz)
    (hrv : orr.version = false ∨ orr.item = repr.lval Ptr.null) :
    assignCopy N r s w = some
      { heap := w.heap ++ [some (cstring txt ++ List.replicate (os.sz - txt.length) none)],
        objs := w.objs.set r
          { sz := os.sz, item := repr.lval (Ptr.heap w.heap.length), version := true } } := by
  have hfit2 : txt.length + 1 ≤ os.sz + 1 := by omega
  have hold : ∀ x, (w.heap ++ [x])[a]? = some (some cells) := fun x => get_concat_old _ _ _ _ hb
  have hself : ∀ x : MyString, (w.objs.set r x)[r]? = some x := fun x => get_set_self _ _ _ _ hor
  have key : ∀ v : Bool, orr.version = v → (v = false ∨ orr.item = repr.lval Ptr.null) →
      assignCopy N r s w = some
        { heap := w.heap ++ [some (cstring txt ++ List.replicate (os.sz - txt.length) none)],
          objs := w.objs.set r
            { sz := os.sz, item := repr.lval (Ptr.heap w.heap.length), version := true } } := by
    intro v hv1 hcase
    cases v with
    | false =>
      simp only [assignCopy, getSz, getVersion, getLvalData, setSz, setVersion, setLvalData, setObj,
        newArr, strcpy, readStr, writeStr, cellsAt, setCellsAt, strput,
        Option.bind_eq_bind, Option.some_bind, Option.map_some', Option.pure_def,
        List.set_set, List.length_replicate, List.drop_replicate, set_concat_length,
        get_concat_new, hself, get_set_ne _ _ _ _ hne, hor, hos, hv, hp, hv1, hsz, hold, hscan,
        hfit2, Nat.add_sub_add_right,
        lvalData_lval, gt_iff_lt, if_true, if_false, Bool.false_eq_true]
    | true =>
      have hitem : orr.item = repr.lval Ptr.null := by
        rcases hcase with h | h
        · exact absurd h (by decide)
        · exact h
      simp only [assignCopy, getSz, getVersion, getLvalData, setSz, setVersion, setObj,
        Option.bind_eq_bind, Option.some_bind, Option.map_some', Option.pure_def,
        List.set_set, hself, get_set_ne _ _ _ _ hne, hor, hos, hv, hp, hv1, hitem,
        lvalData_lval, if_true]
      simp only [ne_eq, eq_self_iff_true, not_true_eq_false, if_false, Option.some_bind]
      simp only [getSz, getVersion, getLvalData, setSz, setVersion, setLvalData, setObj,
        newArr, strcpy, readStr, writeStr, cellsAt, setCellsAt, strput,
        Option.bind_eq_bind, Option.some_bind, Option.map_some', Option.pure_def,
        List.set_set, List.length_replicate, List.drop_replicate, set_concat_length,
        get_concat_new, hself, get_set_ne _ _ _ _ hne, hor, hos, hv, hp, hsz, hold,
        hscan, hfit2, Nat.add_sub_add_right,
        lvalData_lval, gt_iff_lt, if_true, if_false, Bool.false_eq_true]
  exact key orr.version rfl hrv

theorem assignCopy_heap_eq_of_heap (N : Nat) (w : World) (r s : Nat) (orr os : MyString)
    (a b : Nat) (cells cb : List Cell) (txt : List Nat)
    (hor : w.objs[r]? = some orr) (hos : w.objs[s]? = some os) (hne : r ≠ s)
    (hsz : 0 < os.sz) (hv : os.version = true) (hp : os.item = repr.lval (Ptr.heap a))
    (hb : w.heap[a]? = some (some cells)) (hscan : strscan cells = some txt)
    (hfit : txt.length ≤ os.sz)
    (hrv : orr.version = true) (hrp : orr.item = repr.lval (Ptr.heap b))
    (hrb : w.heap[b]? = some (some cb)) (hab : b ≠ a) :
    assignCopy N r s w = some
      { heap := w.heap.set b none ++
          [some (cstring txt ++ List.replicate (os.sz - txt.length) none)],
        objs := w.objs.set r
          { sz := os.sz, item := repr.lval (Ptr.heap w.heap.length), version := true } } := by
  have hfit2 : txt.length + 1 ≤ os.sz + 1 := by omega
  have hold : ∀ x, (w.heap.set b none ++ [x])[a]? = some (some cells) := fun x =>
    get_concat_old _ _ _ _ (by rw [get_set_ne _ _ _ _ hab]; exact hb)
  have hlen : (w.heap.set b none).length = w.heap.length := List.length_set _ _ _
  have hnew : ∀ x, (w.heap.set b none ++ [x])[w.heap.length]? = some x := by
    intro x
    have := get_concat_new (w.heap.set b none) x
    rwa [hlen] at this
  have hset : ∀ x y, (w.heap.set b none ++ [x]).set w.heap.length y = w.heap.set b none ++ [y] := by
    intro x y
    have := set_concat_length (w.heap.set b none) x y
    rwa [hlen] at this
  have hself : ∀ x : MyString, (w.objs.set r x)[r]? = some x := fun x => get_set_self _ _ _ _ hor
  simp only [assignCopy, getSz, getVersion, getLvalData, setSz, setVersion, setLvalData, setObj,
    newArr, strcpy, readStr, writeStr, cellsAt, setCellsAt, strput, deleteArr,
    Option.bind_eq_bind, Option.some_bind, Option.map_some', Option.pure_def,
    List.set_set, List.length_replicate, List.drop_replicate, List.length_set,
    hnew, hset, hself, get_set_ne _ _ _ _ hne, hor, hos, hv, hp, hrv, hrp, hrb, hsz, hold,
    hscan, hfit2, Nat.add_sub_add_right, heap_ne_null,
    lvalData_lval, gt_iff_lt, ne_eq, not_false_eq_true, if_true, if_false, Bool.false_eq_true]

theorem writeChar_heap_eq (N : Nat) (w : World) (c i ch nb : Nat) (oc : MyString)
    (cells : List Cell)
    (hoc : w.objs[c]? = some oc) (hv : oc.version = true)
    (hp : oc.item = repr.lval (Ptr.heap nb)) (hi : i < oc.sz)
    (hb : w.heap[nb]? = some (some cells)) (hic : i < cells.length) :
    writeChar N c i ch w = some
      { heap := w.heap.set nb (some (cells.set i (some ch))), objs := w.objs } := by
  simp only [writeChar, opIndex, hoc, hv, hp, hi, store, cellsAt, setCellsAt, hb, hic,
    lvalData_lval, Option.some_bind, if_true]

theorem charAt_heap_eq (N : Nat) (w : World) (s j a : Nat) (os : MyString) (cells : List Cell)
    (hos : w.objs[s]? = some os) (hv : os.version = true)
    (hp : os.item = repr.lval (Ptr.heap a)) (hb : w.heap[a]? = some (some cells)) :
    charAt N s j w = if j < os.sz then cells[j]? else none := by
  by_cases hj : j < os.sz
  · simp only [charAt, opIndexConst, hos, hv, hp, hj, load, cellsAt, hb, lvalData_lval,
      Option.some_bind, if_true]
  · simp only [charAt, opIndexConst, hos, hj, if_false]

theorem write_copy_frame (N : Nat) (w1 : World) (c s n a nb : Nat) (os : MyString)
    (cells newcells : List Cell)
    (hc : w1.objs[c]? = some { sz := n, item := repr.lval (Ptr.heap nb), version := true })
    (hos : w1.objs[s]? = some os) (hv : os.version = true)
    (hp : os.item = repr.lval (Ptr.heap a))
    (hnb : w1.heap[nb]? = some (some newcells)) (hlen : newcells.length = n + 1)
    (ha : w1.heap[a]? = some (some cells)) (hne : nb ≠ a) :
    ∀ i ch, i < n → ∃ w2, writeChar N c i ch w1 = some w2 ∧
      charAt N c i w2 = some (some ch) ∧
      w2.heap[a]? = some (some cells) ∧
      ∀ j, charAt N s j w2 = if j < os.sz then cells[j]? else none := by
  intro i ch hi
  have hic : i < newcells.length := by omega
  have h1 : (w1.heap.set nb (some (newcells.set i (some ch))))[nb]? =
      some (some (newcells.set i (some ch))) := get_set_self _ _ _ _ hnb
  have h2 : (newcells.set i (some ch))[i]? = some (some ch) := by
    simp [List.getElem?_set, hic]
  have h3 : (w1.heap.set nb (some (newcells.set i (some ch))))[a]? = some (some cells) := by
    rw [get_set_ne _ _ _ _ hne]
    exact ha
  refine ⟨{ heap := w1.heap.set nb (some (newcells.set i (some ch))), objs := w1.objs },
    writeChar_heap_eq N w1 c i ch nb _ newcells hc rfl rfl hi hnb hic, ?_, h3, ?_⟩
  · rw [charAt_heap_eq N { heap := w1.heap.set nb (some (newcells.set i (some ch))), objs := w1.objs }
      c i nb _ _ hc rfl rfl h1]
    simp only [hi, if_true, h2]
  · intro j
    exact charAt_heap_eq N { heap := w1.heap.set nb (some (newcells.set i (some ch))), objs := w1.objs }
      s j a os cells hos hv hp h3

theorem assignCStr_eq_of_inline (N : Nat) (T : List Nat) (w : World) (r : Nat) (orr : MyString)
    (hN : 1 ≤ N) (hT : ∀ c ∈ T, c ≠ 0)
    (hor : w.objs[r]? = some orr) (hrv : orr.version = false)
    (harr : (svalData N orr.item).length = N) :
    assignCStr N r (cstring T) w = some (
      if T.length = 0 then
        { heap := w.heap,
          objs := w.objs.set r { sz := 0, item := orr.item, version := false } }
      else if T.length < N then
        { heap := w.heap,
          objs := w.objs.set r
            { sz := T.length,
              item := repr.sval (cstring T ++ (svalData N orr.item).drop (T.length + 1)),
              version := false } }
      else
        { heap := w.heap ++ [some (cstring T)],
          objs := w.objs.set r
            { sz := T.length, item := repr.lval (Ptr.heap w.heap.length), version := true } }) := by
  have hself : ∀ x : MyString, (w.objs.set r x)[r]? = some x := fun x => get_set_self _ _ _ _ hor
  simp only [assignCStr, strlen, strscan_cstring T hT, getSz, getVersion, setSz, setObj,
    Option.bind_eq_bind, Option.some_bind, Option.map_some', Option.pure_def,
    hself, hor, hrv, if_false, Bool.false_eq_true]
  rcases Nat.eq_zero_or_pos T.length with h0 | h0
  · have hN2 : ¬ N ≤ 0 := by omega
    simp only [setVersion, setObj, getSz, Option.bind_eq_bind, Option.some_bind,
      Option.map_some', Option.pure_def, List.set_set, hself, h0, hN2, ge_iff_le, gt_iff_lt,
      lt_self_iff_false, if_true, if_false]
  · have h1 : T.length ≠ 0 := by omega
    by_cases hlt : T.length < N
    · have h2 : ¬ (N ≤ T.length) := by omega
      have h3 : T.length + 1 ≤ N := by omega
      simp only [setVersion, setObj, getSz, getVersion, strcpyFrom, strscan_cstring T hT,
        writeStr, cellsAt, setCellsAt, strput,
        Option.bind_eq_bind, Option.some_bind, Option.map_some', Option.pure_def,
        List.set_set, hself, harr, h0, h1, h2, h3, hlt, ge_iff_le, gt_iff_lt,
        if_true, if_false, Bool.not_false]
    · have h2 : N ≤ T.length := by omega
      simp only [setVersion, setLvalData, getLvalData, newArr, setObj, getSz, getVersion,
        strcpyFrom, strscan_cstring T hT, writeStr, cellsAt, setCellsAt, strput,
        Option.bind_eq_bind, Option.some_bind, Option.map_some', Option.pure_def,
        List.set_set, hself, get_concat_new, set_concat_length, lvalData_lval,
        List.length_replicate, List.drop_replicate, Nat.sub_self, List.replicate_zero,
        List.append_nil, le_refl, h0, h1, h2, hlt, ge_iff_le, gt_iff_lt,
        if_true, if_false, Bool.not_true, Bool.false_eq_true]

theorem assignCStr_eq_of_heap (N : Nat) (T : List Nat) (w : World) (r b : Nat) (orr : MyString)
    (cb : List Cell) (hN : 1 ≤ N) (hT : ∀ c ∈ T, c ≠ 0)
    (hor : w.objs[r]? = some orr) (hrv : orr.version = true)
    (hrp : orr.item = repr.lval (Ptr.heap b)) (hrb : w.heap[b]? = some (some cb)) :
    assignCStr N r (cstring T) w = some (
      if T.length = 0 then
        { heap := w.heap.set b none,
          objs := w.objs.set r { sz := 0, item := repr.lval (Ptr.heap b), version := false } }
      else if T.length < N then
        { heap := w.heap.set b none,
          objs := w.objs.set r
            { sz := T.length,
              item := repr.sval (cstring T ++ List.replicate (N - (T.length + 1)) none),
              version := false } }
      else
        { heap := w.heap.set b none ++ [some (cstring T)],
          objs := w.objs.set r
            { sz := T.length, item := repr.lval (Ptr.heap w.heap.length), version := true } }) := by
  have hself : ∀ x : MyString, (w.objs.set r x)[r]? = some x := fun x => get_set_self _ _ _ _ hor
  have hlen : (w.heap.set b none).length = w.heap.length := List.length_set _ _ _
  have hnew : ∀ x, (w.heap.set b none ++ [x])[w.heap.length]? = some x := by
    intro x
    have := get_concat_new (w.heap.set b none) x
    rwa [hlen] at this
  have hset : ∀ x y, (w.heap.set b none ++ [x]).set w.heap.length y = w.heap.set b none ++ [y] := by
    intro x y
    have := set_concat_length (w.heap.set b none) x y
    rwa [hlen] at this
  simp only [assignCStr, strlen, strscan_cstring T hT, getSz, getVersion, getLvalData, setSz,
    setObj, deleteArr,
    Option.bind_eq_bind, Option.some_bind, Option.map_some', Option.pure_def,
    hself, hor, hrv, hrp, hrb, lvalData_lval, if_true]
  rcases Nat.eq_zero_or_pos T.length with h0 | h0
  · have hN2 : ¬ N ≤ 0 := by omega
    simp only [setVersion, setObj, getSz, Option.bind_eq_bind, Option.some_bind,
      Option.map_some', Option.pure_def, List.set_set, hself, h0, hN2, ge_iff_le, gt_iff_lt,
      lt_self_iff_false, if_true, if_false]
  · have h1 : T.length ≠ 0 := by omega
    by_cases hlt : T.length < N
    · have h2 : ¬ (N ≤ T.length) := by omega
      have h3 : T.length + 1 ≤ N := by omega
      simp only [setVersion, setObj, getSz, getVersion, strcpyFrom, strscan_cstring T hT,
        writeStr, cellsAt, setCellsAt, strput, svalData_lval,
        List.length_replicate, List.drop_replicate,
        Option.bind_eq_bind, Option.some_bind, Option.map_some', Option.pure_def,
        List.set_set, hself, h0, h1, h2, h3, hlt, ge_iff_le, gt_iff_lt,
        if_true, if_false, Bool.not_false]
    · have h2 : N ≤ T.length := by omega
      simp only [setVersion, setLvalData, getLvalData, newArr, setObj, getSz, getVersion,
        strcpyFrom, strscan_cstring T hT, writeStr, cellsAt, setCellsAt, strput,
        Option.bind_eq_bind, Option.some_bind, Option.map_some', Option.pure_def,
        List.set_set, List.length_set, hself, hnew, hset, lvalData_lval,
        List.length_replicate, List.drop_replicate, Nat.sub_self, List.replicate_zero,
        List.append_nil, le_refl, h0, h1, h2, hlt, ge_iff_le, gt_iff_lt,
        if_true, if_false, Bool.not_true, Bool.false_eq_true]

theorem index_out_of_range_iff (w : World) (s n pos : Nat) (hs : size s w = some n) :
    (opIndexConst s pos w = IndexResult.out_of_range ↔ n ≤ pos) ∧
    (opIndex s pos w = IndexResult.out_of_range ↔ n ≤ pos) := by
  obtain ⟨o, ho, hn⟩ : ∃ o, w.objs[s]? = some o ∧ o.sz = n := by
    simpa [size, getSz] using hs
  subst hn
  constructor
  · by_cases hv : o.version <;> by_cases hp : pos < o.sz <;>
      cases hd : lvalData o.item <;> simp [opIndexConst, ho, hv, hp, hd] <;> omega
  · by_cases hv : o.version <;> by_cases hp : pos < o.sz <;>
      cases hd : lvalData o.item <;> simp [opIndex, ho, hv, hp, hd] <;> omega

theorem holdsText_obs (N : Nat) (w : World) (i : Nat) (T : List Nat) (hT : ∀ c ∈ T, c ≠ 0)
    (h : HoldsText N w i T) :
    size i w = some T.length ∧
    mode i w = some (if T.length < N then Mode.Inline else Mode.Heap) ∧
    CStrText N i w = some (if T = [] then none else some T) ∧
    (∀ pos, charAt N i pos w = (T[pos]?).map some) ∧
    (∀ pos, opIndexConst i pos w = IndexResult.out_of_range ↔ T.length ≤ pos) ∧
    (∀ pos, opIndex i pos w = IndexResult.out_of_range ↔ T.length ≤ pos) := by
  obtain ⟨o, ho, hsz, hv, hst⟩ := h
  have hsize : size i w = some T.length := by simp [size, getSz, ho, hsz]
  have hidx := fun pos => index_out_of_range_iff w i T.length pos hsize
  refine ⟨hsize, ?_, ?_, ?_, fun pos => (hidx pos).1, fun pos => (hidx pos).2⟩
  · by_cases hlt : T.length < N
    · have : ¬ N ≤ T.length := by omega
      simp [mode, getVersion, ho, hv, hlt, this]
    · have : N ≤ T.length := by omega
      simp [mode, getVersion, ho, hv, hlt, this]
  · by_cases hne : T = []
    · subst hne
      simp [CStrText, CStr, getSz, ho, hsz]
    · have h1 : T.length ≠ 0 := by simpa using hne
      obtain ⟨hheap, hinl⟩ := hst hne
      by_cases hlt : T.length < N
      · obtain ⟨rest, hitem⟩ := hinl hlt
        have hv2 : o.version = false := by rw [hv]; simp; omega
        have hscan : strscan (cstring T ++ rest) = some T := by
          unfold cstring; rw [List.append_assoc]; exact strscan_text T hT _
        simp [CStrText, CStr, getSz, getVersion, ho, hsz, h1, hv2, readStr, cellsAt, hitem,
          svalData_sval, hscan, hne]
      · obtain ⟨a, rest, hitem, hb⟩ := hheap (by omega)
        have hv2 : o.version = true := by rw [hv]; simp; omega
        have hscan : strscan (cstring T ++ rest) = some T := by
          unfold cstring; rw [List.append_assoc]; exact strscan_text T hT _
        simp [CStrText, CStr, getSz, getVersion, getLvalData, ho, hsz, h1, hv2, readStr, cellsAt,
          hitem, lvalData_lval, hb, hscan, hne]
  · intro pos
    by_cases hpos : pos < T.length
    · have hne : T ≠ [] := by
        intro h0; subst h0; simp at hpos
      obtain ⟨hheap, hinl⟩ := hst hne
      have hget : T[pos]? = some T[pos] := List.getElem?_eq_getElem hpos
      by_cases hlt : T.length < N
      · obtain ⟨rest, hitem⟩ := hinl hlt
        have hv2 : o.version = false := by rw [hv]; simp; omega
        simp [charAt, opIndexConst, ho, hsz, hpos, hv2, load, cellsAt, hitem, svalData_sval,
          cstring_getElem? T pos hpos rest, hget]
      · obtain ⟨a, rest, hitem, hb⟩ := hheap (by omega)
        have hv2 : o.version = true := by rw [hv]; simp; omega
        simp [charAt, opIndexConst, ho, hsz, hpos, hv2, load, cellsAt, hitem, lvalData_lval, hb,
          cstring_getElem? T pos hpos rest, hget]
    · have hget : T[pos]? = none := List.getElem?_eq_none (by omega)
      simp [charAt, opIndexConst, ho, hsz, hpos, hget]

theorem ctorCStr_holds (N : Nat) (T : List Nat) (w : World) (hT : ∀ c ∈ T, c ≠ 0) :
    ∃ w1, ctorCStr N (cstring T) w = some (w1, w.objs.length) ∧
      HoldsText N w1 w.objs.length T := by
  obtain ⟨w1, hc, -, hnil, hin, hhp⟩ := ctorCStr_spec N T w hT
  refine ⟨w1, hc, ?_⟩
  by_cases hne : T = []
  · subst hne
    exact ⟨_, (hnil rfl).2, rfl, by simp, fun h => absurd rfl h⟩
  · by_cases hlt : T.length < N
    · have h2 : ¬ N ≤ T.length := by omega
      refine ⟨_, (hin hne hlt).2, rfl, by simp [h2], fun _ => ⟨fun h => absurd h h2, fun _ => ⟨_, rfl⟩⟩⟩
    · have h2 : N ≤ T.length := by omega
      obtain ⟨hheap, hobj⟩ := hhp hne h2
      refine ⟨_, hobj, rfl, by simp [h2], fun _ => ⟨fun _ => ⟨w.heap.length, [], rfl, ?_⟩,
        fun h => absurd h hlt⟩⟩
      rw [hheap]
      simp

theorem assignCStr_holds_of_inline (N : Nat) (T : List Nat) (w : World) (r : Nat)
    (orr : MyString) (hN : 1 ≤ N) (hT : ∀ c ∈ T, c ≠ 0)
    (hor : w.objs[r]? = some orr) (hrv : orr.version = false)
    (harr : (svalData N orr.item).length = N) :
    ∃ w2, assignCStr N r (cstring T) w = some w2 ∧ HoldsText N w2 r T ∧
      ∀ a, a < w.heap.length → w2.heap[a]? = w.heap[a]? := by
  refine ⟨_, assignCStr_eq_of_inline N T w r orr hN hT hor hrv harr, ?_, ?_⟩
  · by_cases hne : T = []
    · subst hne
      have h2 : ¬ N ≤ 0 := by omega
      exact ⟨_, get_set_self _ _ _ _ hor, rfl, by simp [h2], fun h => absurd rfl h⟩
    · have h1 : T.length ≠ 0 := by simpa using hne
      by_cases hlt : T.length < N
      · have h2 : ¬ N ≤ T.length := by omega
        simp only [h1, hlt, if_true, if_false]
        exact ⟨_, get_set_self _ _ _ _ hor, rfl, by simp [h2],
          fun _ => ⟨fun h => absurd h h2, fun _ => ⟨_, rfl⟩⟩⟩
      · have h2 : N ≤ T.length := by omega
        simp only [h1, hlt, if_true, if_false]
        exact ⟨_, get_set_self _ _ _ _ hor, rfl, by simp [h2],
          fun _ => ⟨fun _ => ⟨w.heap.length, [], rfl, by simp⟩, fun h => absurd h hlt⟩⟩
  · intro a ha
    split_ifs
    · rfl
    · rfl
    · exact List.getElem?_append_left ha

theorem assignCStr_holds_of_heap (N : Nat) (T : List Nat) (w : World) (r b : Nat)
    (orr : MyString) (cb : List Cell) (hN : 1 ≤ N) (hT : ∀ c ∈ T, c ≠ 0)
    (hor : w.objs[r]? = some orr) (hrv : orr.version = true)
    (hrp : orr.item = repr.lval (Ptr.heap b)) (hrb : w.heap[b]? = some (some cb)) :
    ∃ w2, assignCStr N r (cstring T) w = some w2 ∧ HoldsText N w2 r T ∧
      w2.heap[b]? = some none ∧
      ∀ a, a < w.heap.length → a ≠ b → w2.heap[a]? = w.heap[a]? := by
  have hltb := ne_length_of_some _ _ _ hrb
  have hlen : (w.heap.set b none).length = w.heap.length := List.length_set _ _ _
  have hb2 : (w.heap.set b none)[b]? = some none := get_set_self _ _ _ _ hrb
  refine ⟨_, assignCStr_eq_of_heap N T w r b orr cb hN hT hor hrv hrp hrb, ?_, ?_, ?_⟩
  · by_cases hne : T = []
    · subst hne
      have h2 : ¬ N ≤ 0 := by omega
      exact ⟨_, get_set_self _ _ _ _ hor, rfl, by simp [h2], fun h => absurd rfl h⟩
    · have h1 : T.length ≠ 0 := by simpa using hne
      by_cases hlt : T.length < N
      · have h2 : ¬ N ≤ T.length := by omega
        simp only [h1, hlt, if_true, if_false]
        exact ⟨_, get_set_self _ _ _ _ hor, rfl, by simp [h2],
          fun _ => ⟨fun h => absurd h h2, fun _ => ⟨_, rfl⟩⟩⟩
      · have h2 : N ≤ T.length := by omega
        simp only [h1, hlt, if_true, if_false]
        refine ⟨_, get_set_self _ _ _ _ hor, rfl, by simp [h2],
          fun _ => ⟨fun _ => ⟨w.heap.length, [], rfl, ?_⟩, fun h => absurd h hlt⟩⟩
        simp
  · split_ifs
    · exact hb2
    · exact hb2
    · exact get_concat_old _ _ _ _ hb2
  · intro a ha hab
    have h3 : (w.heap.set b none)[a]? = w.heap[a]? := get_set_ne _ _ _ _ (Ne.symm hab)
    split_ifs
    · exact h3
    · exact h3
    · show (w.heap.set b none ++ [some (cstring T)])[a]? = w.heap[a]?
      rw [List.getElem?_append_left (by rw [hlen]; exact ha)]
      exact h3
/-! ## The claims -/

/-- C1: for every threshold `N ≥ 1` and every text `T`, the constructor from
the NUL-terminated `T` returns, the new instance reports `size()` equal to the
number of bytes of `T`, and it is in inline mode exactly when that length is
below `N`, in heap mode exactly when it is at least `N`. -/
theorem C1_ctor_size_and_mode (N : Nat) (T : List Nat) (w : World) (hN : 1 ≤ N)
    (hT : ∀ c ∈ T, c ≠ 0) :
    ∃ w1 s, ctorCStr N (cstring T) w = some (w1, s) ∧
      size s w1 = some T.length ∧
      (mode s w1 = some Mode.Inline ↔ T.length < N) ∧
      (mode s w1 = some Mode.Heap ↔ N ≤ T.length) := by
  refine ⟨_, _, ctorCStr_eq N T w hT, ?_⟩
  have hN0 : N ≠ 0 := by omega
  rcases Nat.eq_zero_or_pos T.length with h0 | h0
  · simp [h0, size, mode, getSz, getVersion, hN0]
    omega
  · have h1 : T.length ≠ 0 := by omega
    by_cases hlt : T.length < N
    · simp [h1, hlt, size, mode, getSz, getVersion]
    · simp [h1, hlt, size, mode, getSz, getVersion]
      omega

/-- Witness for C1 in the empty world: `N = 2` with `"abc"` (heap, size 3),
`N = 2` with `""` (inline, size 0), `N = 25` with `"abcdef"` (inline, size 6). -/
theorem C1_ctor_size_and_mode_witness :
    (1 ≤ 2 ∧ ∀ c ∈ [97, 98, 99], c ≠ 0) ∧
    (∃ w1 s, ctorCStr 2 (cstring [97, 98, 99]) World.empty = some (w1, s) ∧
      size s w1 = some 3 ∧
      (mode s w1 = some Mode.Inline ↔ 3 < 2) ∧
      (mode s w1 = some Mode.Heap ↔ 2 ≤ 3)) ∧
    (∃ w1 s, ctorCStr 2 (cstring []) World.empty = some (w1, s) ∧
      size s w1 = some 0 ∧
      (mode s w1 = some Mode.Inline ↔ 0 < 2) ∧
      (mode s w1 = some Mode.Heap ↔ 2 ≤ 0)) ∧
    (∃ w1 s, ctorCStr 25 (cstring [97, 98, 99, 100, 101, 102]) World.empty = some (w1, s) ∧
      size s w1 = some 6 ∧
      (mode s w1 = some Mode.Inline ↔ 6 < 25) ∧
      (mode s w1 = some Mode.Heap ↔ 25 ≤ 6)) :=
  ⟨⟨by decide, by decide⟩,
    C1_ctor_size_and_mode 2 [97, 98, 99] World.empty (by decide) (by decide),
    C1_ctor_size_and_mode 2 [] World.empty (by decide) (by simp),
    C1_ctor_size_and_mode 25 [97, 98, 99, 100, 101, 102] World.empty (by decide) (by decide)⟩

/-- C2 fails for the empty text: with `N = 2`, `CStr()` of the instance built
from `""` is the null pointer, not a terminated empty byte sequence. -/
theorem C2_counterexample_empty_text :
    ∃ w1 s, ctorCStr 2 (cstring []) World.empty = some (w1, s) ∧
      CStr s w1 = some Ptr.null ∧ CStrText 2 s w1 ≠ some (some []) :=
  ⟨_, _, rfl, rfl, by decide⟩

/-- C2 (amended): for every threshold `N` and every non-empty text `T`,
`CStr()` of the instance constructed from `T` points to a terminated byte
sequence equal to `T`; for the empty text `CStr()` is the null pointer. -/
theorem C2_round_trip_nonempty (N : Nat) (T : List Nat) (w : World)
    (hT : ∀ c ∈ T, c ≠ 0) :
    ∃ w1 s, ctorCStr N (cstring T) w = some (w1, s) ∧
      (T ≠ [] → CStrText N s w1 = some (some T)) ∧
      (T = [] → CStr s w1 = some Ptr.null) := by
  refine ⟨_, _, ctorCStr_eq N T w hT, ?_, ?_⟩
  · intro hne
    have h1 : T.length ≠ 0 := by simpa using hne
    by_cases hlt : T.length < N
    · simp [h1, hlt, CStrText, CStr, getSz, getVersion, readStr, cellsAt]
      unfold cstring
      rw [List.append_assoc]
      exact strscan_text T hT _
    · simp [h1, hlt, CStrText, CStr, getSz, getVersion, getLvalData, readStr, cellsAt,
        strscan_cstring T hT]
  · intro he
    subst he
    simp [CStr, getSz]

/-- Witness for C2 (amended) at `N = 2`, `"abc"`. -/
theorem C2_round_trip_nonempty_witness :
    (∀ c ∈ [97, 98, 99], c ≠ 0) ∧
    ∃ w1 s, ctorCStr 2 (cstring [97, 98, 99]) World.empty = some (w1, s) ∧
      ([97, 98, 99] ≠ [] → CStrText 2 s w1 = some (some [97, 98, 99])) ∧
      ([97, 98, 99] = [] → CStr s w1 = some Ptr.null) :=
  ⟨by decide, C2_round_trip_nonempty 2 [97, 98, 99] World.empty (by decide)⟩

/-- C3: for every instance `s` of size `n` and every position `pos`, both
`operator[]` throw `out_of_range` exactly when `pos ≥ n` (so index `n` always
throws); when `pos < n` they return the reference to offset `pos` of the
active storage (the inline array in inline mode, the buffer `data` in heap
mode); and for the instance built from a non-empty text `T` the index
`size() - 1` does not throw and designates the last character of `T`. -/
theorem C3_index_bounds (N : Nat) (w : World) (s n pos : Nat) (hs : size s w = some n) :
    (opIndexConst s pos w = IndexResult.out_of_range ↔ n ≤ pos) ∧
    (opIndex s pos w = IndexResult.out_of_range ↔ n ≤ pos) ∧
    opIndexConst s n w = IndexResult.out_of_range ∧
    opIndex s n w = IndexResult.out_of_range ∧
    (pos < n → mode s w = some Mode.Inline →
      opIndexConst s pos w = IndexResult.ref (Ptr.inl s) pos ∧
      opIndex s pos w = IndexResult.ref (Ptr.inl s) pos) ∧
    (pos < n → mode s w = some Mode.Heap → ∀ data, getLvalData s w = some data →
      opIndexConst s pos w = IndexResult.ref data pos ∧
      opIndex s pos w = IndexResult.ref data pos) ∧
    (∀ (T : List Nat) (w0 : World) (hne : T ≠ []), (∀ c ∈ T, c ≠ 0) →
      ∃ w1 s1 p, ctorCStr N (cstring T) w0 = some (w1, s1) ∧
        opIndexConst s1 (T.length - 1) w1 = IndexResult.ref p (T.length - 1) ∧
        opIndex s1 (T.length - 1) w1 = IndexResult.ref p (T.length - 1) ∧
        load N w1 p (T.length - 1) = some (some (T.getLast hne))) := by
  obtain ⟨o, ho, hn⟩ : ∃ o, w.objs[s]? = some o ∧ o.sz = n := by
    simpa [size, getSz] using hs
  subst hn
  refine ⟨?_, ?_, ?_, ?_, ?_, ?_, ?_⟩
  · by_cases hv : o.version <;> by_cases hp : pos < o.sz <;>
      cases hd : lvalData o.item <;> simp [opIndexConst, ho, hv, hp, hd] <;> omega
  · by_cases hv : o.version <;> by_cases hp : pos < o.sz <;>
      cases hd : lvalData o.item <;> simp [opIndex, ho, hv, hp, hd] <;> omega
  · simp [opIndexConst, ho]
  · simp [opIndex, ho]
  · intro hp hm
    have hv : o.version = false := by
      cases hv : o.version <;> simp_all [mode, getVersion]
    simp [opIndexConst, opIndex, ho, hv, hp]
  · intro hp hm data hd
    have hv : o.version = true := by
      cases hv : o.version <;> simp_all [mode, getVersion]
    have hd2 : lvalData o.item = some data := by simpa [getLvalData, ho] using hd
    simp [opIndexConst, opIndex, ho, hv, hp, hd2]
  · intro T w0 hne hT
    have h1 : T.length ≠ 0 := by simpa using hne
    have hlast : T.length - 1 < T.length := by omega
    have hget : T[T.length - 1] = T.getLast hne := by
      rw [List.getLast_eq_getElem]
    by_cases hlt : T.length < N
    · refine ⟨_, _, Ptr.inl w0.objs.length, ctorCStr_eq N T w0 hT, ?_, ?_, ?_⟩
      · simp [h1, hlt, opIndexConst, hlast]
      · simp [h1, hlt, opIndex, hlast]
      · simp only [h1, hlt, if_true, if_false, load, cellsAt]
        simp [cstring_getElem? T _ hlast, hget]
    · refine ⟨_, _, Ptr.heap w0.heap.length, ctorCStr_eq N T w0 hT, ?_, ?_, ?_⟩
      · simp [h1, hlt, opIndexConst, hlast]
      · simp [h1, hlt, opIndex, hlast]
      · simp only [h1, hlt, if_true, if_false, load, cellsAt]
        have := cstring_getElem? T _ hlast []
        simp at this
        simp [this, hget]

/-- Witness for C3 in the world of `main`: `val8` (object 1, built by moving
`"abcdef"` with `N = 25`) has size 6 and `val8[6]` throws. -/
theorem C3_index_bounds_witness :
    size 1 val8World = some 6 ∧
    (ctorCStr 25 (cstring [97, 98, 99, 100, 101, 102]) World.empty).bind
      (fun r => ctorMove 25 r.2 r.1) = some (val8World, 1) ∧
    opIndex 1 6 val8World = IndexResult.out_of_range ∧
    opIndexConst 1 6 val8World = IndexResult.out_of_range :=
  ⟨rfl, rfl, (C3_index_bounds 25 val8World 1 6 6 rfl).2.2.2.1,
    (C3_index_bounds 25 val8World 1 6 6 rfl).2.2.1⟩

/-- C4: for every non-empty text `T` (of either mode), move-constructing `d`
from the instance `s` built from `T` returns, `d` has the size and the mode
`s` had, `d[i]` is `T[i]` for every `i` below the length, `CStr()` of `d` reads
`T`, and afterwards `s` has size 0. -/
theorem C4_move_transfer (N : Nat) (T : List Nat) (w : World) (hne : T ≠ [])
    (hT : ∀ c ∈ T, c ≠ 0) :
    ∃ w1 s, ctorCStr N (cstring T) w = some (w1, s) ∧
      ∃ w2 d, ctorMove N s w1 = some (w2, d) ∧
        size d w2 = some T.length ∧
        mode d w2 = mode s w1 ∧
        mode d w2 = some (if T.length < N then Mode.Inline else Mode.Heap) ∧
        (∀ i (h : i < T.length), charAt N d i w2 = some (some T[i])) ∧
        CStrText N d w2 = some (some T) ∧
        size s w2 = some 0 := by
  have h1 : T.length ≠ 0 := by simpa using hne
  have hpos : 0 < T.length := by omega
  obtain ⟨w1, hc, -, -, hin, hhp⟩ := ctorCStr_spec N T w hT
  refine ⟨w1, _, hc, ?_⟩
  have hsv : mode w.objs.length w1 = some (if T.length < N then Mode.Inline else Mode.Heap) := by
    by_cases hlt : T.length < N
    · simp [mode, getVersion, (hin hne hlt).2, hlt]
    · simp [mode, getVersion, (hhp hne (by omega)).2, hlt]
  rw [hsv]
  by_cases hlt : T.length < N
  · obtain ⟨hheap, hobj⟩ := hin hne hlt
    have hscan : strscan (svalData N (repr.sval (cstring T ++ List.replicate (N - (T.length + 1)) none)))
        = some T := by
      simp only [svalData_sval, cstring, List.append_assoc]
      exact strscan_text T hT _
    obtain ⟨w2, hm, -, hd, hs, -⟩ :=
      ctorMove_inline_spec N w1 w.objs.length _ T hobj hpos rfl hscan (by omega)
    refine ⟨w2, _, hm, ?_, ?_, ?_, ?_, ?_, ?_⟩
    · simp [size, getSz, hd]
    · simp [mode, getVersion, hd, hlt]
    · simp [mode, getVersion, hd, hlt]
    · intro i hi
      simp [charAt, opIndexConst, hd, hi, load, cellsAt, cstring_getElem? T i hi]
    · simp only [svalData_sval] at hscan
      simp [CStrText, CStr, getSz, getVersion, hd, readStr, cellsAt, h1, hscan]
    · simp [size, getSz, hs]
  · obtain ⟨hheap, hobj⟩ := hhp hne (by omega)
    obtain ⟨w2, hm, hh2, hd, hs, -⟩ :=
      ctorMove_heap_spec N w1 w.objs.length _ (Ptr.heap w.heap.length) hobj hpos rfl rfl
    have hblock : w2.heap[w.heap.length]? = some (some (cstring T)) := by
      rw [hh2, hheap]; simp
    refine ⟨w2, _, hm, ?_, ?_, ?_, ?_, ?_, ?_⟩
    · simp [size, getSz, hd]
    · simp [mode, getVersion, hd, hlt]
    · simp [mode, getVersion, hd, hlt]
    · intro i hi
      have := cstring_getElem? T i hi []
      simp only [List.append_nil] at this
      simp [charAt, opIndexConst, hd, hi, load, cellsAt, hblock, this]
    · simp [CStrText, CStr, getSz, getVersion, getLvalData, hd, readStr, cellsAt, hblock, h1,
        strscan_cstring T hT]
    · simp [size, getSz, hs]

/-- Witness for C4 in the empty world: `N = 2` with `"abc"` (heap mode) and
`N = 25` with `"abcdef"` (inline mode). -/
theorem C4_move_transfer_witness :
    ([97, 98, 99] ≠ [] ∧ ∀ c ∈ [97, 98, 99], c ≠ 0) ∧
    (∃ w1 s, ctorCStr 2 (cstring [97, 98, 99]) World.empty = some (w1, s) ∧
      ∃ w2 d, ctorMove 2 s w1 = some (w2, d) ∧
        size d w2 = some 3 ∧
        mode d w2 = mode s w1 ∧
        mode d w2 = some Mode.Heap ∧
        (∀ i (h : i < 3), charAt 2 d i w2 = some (some [97, 98, 99][i])) ∧
        CStrText 2 d w2 = some (some [97, 98, 99]) ∧
        size s w2 = some 0) ∧
    (∃ w1 s, ctorCStr 25 (cstring [97, 98, 99, 100, 101, 102]) World.empty = some (w1, s) ∧
      ∃ w2 d, ctorMove 25 s w1 = some (w2, d) ∧
        size d w2 = some 6 ∧
        mode d w2 = mode s w1 ∧
        mode d w2 = some Mode.Inline ∧
        (∀ i (h : i < 6), charAt 25 d i w2 = some (some [97, 98, 99, 100, 101, 102][i])) ∧
        CStrText 25 d w2 = some (some [97, 98, 99, 100, 101, 102]) ∧
        size s w2 = some 0) :=
  ⟨⟨by decide, by decide⟩,
    C4_move_transfer 2 [97, 98, 99] World.empty (by decide) (by decide),
    C4_move_transfer 25 [97, 98, 99, 100, 101, 102] World.empty (by decide) (by decide)⟩

/-- C5 fails after a NUL was written through `operator[]`: with `N = 2`, build
`s` from `"abc"`, write `s[1] = 0`, copy-construct `c`; `strcpy` stops at the
NUL, so `c[2]` is an indeterminate byte of the new buffer while `s[2]` is `c`
(99), although `size()` of both is 3. -/
theorem C5_counterexample_embedded_nul :
    ∃ w1 s w2 w3 c, ctorCStr 2 (cstring [97, 98, 99]) World.empty = some (w1, s) ∧
      writeChar 2 s 1 0 w1 = some w2 ∧ ctorCopy 2 s w2 = some (w3, c) ∧
      size s w3 = some 3 ∧ size c w3 = some 3 ∧
      charAt 2 s 2 w3 = some (some 99) ∧ charAt 2 c 2 w3 = some none ∧
      charAt 2 c 2 w3 ≠ charAt 2 s 2 w3 :=
  ⟨_, _, _, _, _, rfl, rfl, rfl, rfl, rfl, rfl, rfl, by decide⟩

/-- C5 (amended): for every instance `s` of size `n` that is empty or whose
`CStr()` view has exactly `n` characters (none of its characters is NUL), and
that is shorter than `N` when inline, the copy constructor returns a copy `c`
with the size and mode of `s` and `c[i] = s[i]` for every `i < n`; the objects
and heap arrays that existed before, `s` among them, are unchanged. -/
theorem C5_copy_duplicates (N : Nat) (w : World) (s n : Nat) (hs : size s w = some n)
    (hinv : mode s w = some Mode.Inline → n < N)
    (hview : 0 < n → ∃ txt, CStrText N s w = some (some txt) ∧ txt.length = n) :
    ∃ w1 c, ctorCopy N s w = some (w1, c) ∧
      size c w1 = some n ∧ mode c w1 = mode s w ∧
      (∀ i, i < n → charAt N c i w1 = charAt N s i w ∧ ∃ ch, charAt N s i w = some (some ch)) ∧
      size s w1 = some n ∧ mode s w1 = mode s w ∧
      (∀ i, charAt N s i w1 = charAt N s i w) ∧
      (∃ o, w1.objs = w.objs ++ [o]) ∧ (∃ blocks, w1.heap = w.heap ++ blocks) := by
  obtain ⟨o, ho, hn⟩ : ∃ o, w.objs[s]? = some o ∧ o.sz = n := by
    simpa [size, getSz] using hs
  subst hn
  have hlt := ne_length_of_some _ _ _ ho
  rcases Nat.eq_zero_or_pos o.sz with h0 | hpos
  · refine ⟨_, _, ctorCopy_empty_eq N w s o ho h0, ?_⟩
    simp [size, mode, getSz, getVersion, charAt, opIndexConst, List.getElem?_append_left hlt, ho, h0]
  · obtain ⟨txt, hc, hlen⟩ := hview hpos
    have hsz0 : o.sz ≠ 0 := by omega
    cases hv : o.version with
    | true =>
      obtain ⟨p, hp, hpn, hread⟩ : ∃ p, lvalData o.item = some p ∧ p ≠ Ptr.null ∧
          readStr N w p = some txt := by
        cases hd : lvalData o.item with
        | none => simp [CStrText, CStr, getSz, getVersion, getLvalData, ho, hsz0, hv, hd] at hc
        | some p =>
          refine ⟨p, rfl, ?_⟩
          by_cases hpn : p = Ptr.null
          · simp [CStrText, CStr, getSz, getVersion, getLvalData, ho, hsz0, hv, hd, hpn] at hc
          · exact ⟨hpn, by simpa [CStrText, CStr, getSz, getVersion, getLvalData, ho, hsz0, hv, hd, hpn] using hc⟩
      have hitem : o.item = repr.lval p := by
        cases hi : o.item <;> simp_all [lvalData]
      obtain ⟨cells, hcells, hscan⟩ : ∃ cells, cellsAt N w p = some cells ∧ strscan cells = some txt := by
        cases hca : cellsAt N w p with
        | none => simp [readStr, hca] at hread
        | some cells => exact ⟨cells, rfl, by simpa [readStr, hca] using hread⟩
      have hext : cellsAt N
          { heap := w.heap ++ [some (cstring txt ++ List.replicate (o.sz - txt.length) none)],
            objs := w.objs ++ [{ sz := o.sz, item := repr.lval (Ptr.heap w.heap.length), version := true }] }
          p = some cells :=
        cellsAt_ext N w _ p cells hcells
          (fun j hj => by simp [List.getElem?_append_left hj])
          (fun a ha => by simp [List.getElem?_append_left ha])
      refine ⟨_, _, ctorCopy_heap_eq N w s o p txt ho hpos hv hitem hread (by omega), ?_, ?_, ?_, ?_, ?_, ?_, ⟨_, rfl⟩, ⟨_, rfl⟩⟩
      · simp [size, getSz]
      · simp [mode, getVersion, ho, hv]
      · intro i hi
        have hi2 : i < txt.length := by omega
        have h1 := strscan_getElem? cells txt hscan i hi2
        have h2 := cstring_getElem? txt i hi2 (List.replicate (o.sz - txt.length) none)
        have hcs : charAt N s i w = some (some txt[i]) := by
          simp [charAt, opIndexConst, ho, hv, hi, hp, load, hcells, h1]
        rw [hcs]
        refine ⟨?_, _, rfl⟩
        simp [charAt, opIndexConst, hi, load, cellsAt, h2]
      · simp [size, getSz, List.getElem?_append_left hlt, ho]
      · simp [mode, getVersion, List.getElem?_append_left hlt, ho]
      · intro i
        by_cases hi : i < o.sz
        · simp only [charAt, opIndexConst, List.getElem?_append_left hlt, ho, hv, hi, hp, load, hext, hcells, if_true]
        · simp [charAt, opIndexConst, List.getElem?_append_left hlt, ho, hi]
    | false =>
      have hscan : strscan (svalData N o.item) = some txt := by
        simpa [CStrText, CStr, getSz, getVersion, ho, hsz0, hv, readStr, cellsAt] using hc
      have hN : o.sz < N := hinv (by simp [mode, getVersion, ho, hv])
      refine ⟨_, _, ctorCopy_inline_eq N w s o txt ho hpos hv hscan (by omega), ?_, ?_, ?_, ?_, ?_, ?_, ⟨_, rfl⟩, ⟨[], by simp⟩⟩
      · simp [size, getSz]
      · simp [mode, getVersion, ho, hv]
      · intro i hi
        have hi2 : i < txt.length := by omega
        have h1 := strscan_getElem? _ txt hscan i hi2
        have h2 := cstring_getElem? txt i hi2 (List.replicate (N - (txt.length + 1)) none)
        have hcs : charAt N s i w = some (some txt[i]) := by
          simp [charAt, opIndexConst, ho, hv, hi, load, cellsAt, h1]
        rw [hcs]
        refine ⟨?_, _, rfl⟩
        simp [charAt, opIndexConst, hi, load, cellsAt, h2]
      · simp [size, getSz, List.getElem?_append_left hlt, ho]
      · simp [mode, getVersion, List.getElem?_append_left hlt, ho]
      · intro i
        by_cases hi : i < o.sz
        · simp [charAt, opIndexConst, List.getElem?_append_left hlt, ho, hv, hi, load, cellsAt]
        · simp [charAt, opIndexConst, List.getElem?_append_left hlt, ho, hi]

/-- Witness for C5 (amended): the heap instance built from `"abc"` with
`N = 2`. -/
theorem C5_copy_duplicates_witness :
    (size 0 abcWorld = some 3 ∧
      (mode 0 abcWorld = some Mode.Inline → 3 < 2) ∧
      (0 < 3 → ∃ txt, CStrText 2 0 abcWorld = some (some txt) ∧ txt.length = 3)) ∧
    ∃ w1 c, ctorCopy 2 0 abcWorld = some (w1, c) ∧
      size c w1 = some 3 ∧ mode c w1 = mode 0 abcWorld ∧
      (∀ i, i < 3 → charAt 2 c i w1 = charAt 2 0 i abcWorld ∧
        ∃ ch, charAt 2 0 i abcWorld = some (some ch)) ∧
      size 0 w1 = some 3 ∧ mode 0 w1 = mode 0 abcWorld ∧
      (∀ i, charAt 2 0 i w1 = charAt 2 0 i abcWorld) ∧
      (∃ o, w1.objs = abcWorld.objs ++ [o]) ∧ (∃ blocks, w1.heap = abcWorld.heap ++ blocks) :=
  ⟨⟨rfl, by decide, fun _ => ⟨[97, 98, 99], rfl, rfl⟩⟩,
    C5_copy_duplicates 2 abcWorld 0 3 rfl (by decide) (fun _ => ⟨[97, 98, 99], rfl, rfl⟩)⟩

/-- C6 fails on the code: with `N = 2`, build `a` from `"abc"`, move it into
`b`, copy-construct `c` from the moved-from `a`, and build `s` from `"uvw"`
(non-empty, heap mode).  The copy constructor left `c` in heap mode with size
0 and never wrote `c.item.lval.data`.  The copy assignment `c = s` into this
distinct instance tests and deletes that indeterminate pointer, so its
behaviour is undefined and no copy of `s` with a buffer of its own is made. -/
theorem C6_assign_into_copy_of_moved_undefined :
    ∃ w1 a w2 b w3 c w4 s, ctorCStr 2 (cstring [97, 98, 99]) World.empty = some (w1, a) ∧
      ctorMove 2 a w1 = some (w2, b) ∧ ctorCopy 2 a w2 = some (w3, c) ∧
      ctorCStr 2 (cstring [117, 118, 119]) w3 = some (w4, s) ∧ Reachable 2 w4 ∧
      size s w4 = some 3 ∧ mode s w4 = some Mode.Heap ∧ c ≠ s ∧
      size c w4 = some 0 ∧ mode c w4 = some Mode.Heap ∧ getLvalData c w4 = none ∧
      assignCopy 2 c s w4 = none :=
  ⟨_, _, _, _, _, _, _, _, rfl, rfl, rfl, rfl,
    Reachable.step _ _ (Op.fromText (cstring [117, 118, 119]))
      (Reachable.step _ _ (Op.copy 0)
        (Reachable.step _ _ (Op.move 0)
          (Reachable.step World.empty _ (Op.fromText (cstring [97, 98, 99]))
            Reachable.start trivial rfl) trivial rfl) trivial rfl) trivial rfl,
    rfl, rfl, by decide, rfl, rfl, rfl, rfl⟩

/-- Copy independence where the copy is made: for every non-empty heap-mode
instance `s` (size `n > 0`, owning the live buffer `a` that holds a terminated
string of at most `n` characters), every copy of `s`, made by the copy
constructor or by copy assignment into a distinct instance `r` that is inline,
holds the null pointer or owns a live buffer of its own, holds a buffer
different from `a`, and writing any character `ch` at any position `i < n` of
the copy through the mutable `operator[]` succeeds, is read back from the
copy, and leaves the buffer of `s` and every character `s[j]` unchanged. -/
theorem copy_independence (N : Nat) (w : World) (s n a : Nat) (cells : List Cell)
    (txt : List Nat)
    (hs : size s w = some n) (hn : 0 < n) (hm : mode s w = some Mode.Heap)
    (hp : getLvalData s w = some (Ptr.heap a)) (hb : w.heap[a]? = some (some cells))
    (hscan : strscan cells = some txt) (hfit : txt.length ≤ n) :
    (∃ w1 c b, ctorCopy N s w = some (w1, c) ∧ c ≠ s ∧
      getLvalData c w1 = some (Ptr.heap b) ∧ b ≠ a ∧
      ∀ i ch, i < n → ∃ w2, writeChar N c i ch w1 = some w2 ∧
        charAt N c i w2 = some (some ch) ∧
        w2.heap[a]? = some (some cells) ∧ ∀ j, charAt N s j w2 = charAt N s j w) ∧
    (∀ r, r ≠ s → (∃ m, size r w = some m) →
      (mode r w = some Mode.Heap → getLvalData r w = some Ptr.null ∨
        ∃ b, getLvalData r w = some (Ptr.heap b) ∧ b ≠ a ∧ isLive w b = true) →
      ∃ w1 b, assignCopy N r s w = some w1 ∧
        getLvalData r w1 = some (Ptr.heap b) ∧ b ≠ a ∧
        ∀ i ch, i < n → ∃ w2, writeChar N r i ch w1 = some w2 ∧
          charAt N r i w2 = some (some ch) ∧
          w2.heap[a]? = some (some cells) ∧ ∀ j, charAt N s j w2 = charAt N s j w) := by
  obtain ⟨os, hos, hsz⟩ : ∃ o, w.objs[s]? = some o ∧ o.sz = n := by
    simpa [size, getSz] using hs
  subst hsz
  have hv : os.version = true := by
    cases hv : os.version <;> simp_all [mode, getVersion]
  have hitem : os.item = repr.lval (Ptr.heap a) := by
    have h1 : lvalData os.item = some (Ptr.heap a) := by simpa [getLvalData, hos] using hp
    cases hi : os.item <;> simp_all [lvalData]
  have hlts := ne_length_of_some _ _ _ hos
  have hlta := ne_length_of_some _ _ _ hb
  have hread : readStr N w (Ptr.heap a) = some txt := by
    simp only [readStr, cellsAt, hb, Option.some_bind, hscan]
  have hsw : ∀ j, charAt N s j w = if j < os.sz then cells[j]? else none :=
    fun j => charAt_heap_eq N w s j a os cells hos hv hitem hb
  have hnewlen : (cstring txt ++ List.replicate (os.sz - txt.length) (none : Cell)).length = os.sz + 1 := by
    simp [cstring_length]; omega
  refine ⟨?_, ?_⟩
  · refine ⟨_, _, w.heap.length, ctorCopy_heap_eq N w s os (Ptr.heap a) txt hos hn hv hitem hread hfit,
      by omega, ?_, by omega, ?_⟩
    · simp only [getLvalData, get_concat_new, Option.some_bind, lvalData_lval]
    · intro i ch hi
      obtain ⟨w2, h1, h2, h3, h4⟩ := write_copy_frame N
        { heap := w.heap ++ [some (cstring txt ++ List.replicate (os.sz - txt.length) none)],
          objs := w.objs ++ [{ sz := os.sz, item := repr.lval (Ptr.heap w.heap.length), version := true }] }
        w.objs.length s os.sz a w.heap.length os cells _
        (get_concat_new _ _) (get_concat_old _ _ _ _ hos) hv hitem (get_concat_new _ _) hnewlen
        (get_concat_old _ _ _ _ hb) (by omega) i ch hi
      exact ⟨w2, h1, h2, h3, fun j => by rw [h4 j, hsw j]⟩
  · intro r hrs ⟨m, hr⟩ hrel
    obtain ⟨orr, hor, -⟩ : ∃ o, w.objs[r]? = some o ∧ o.sz = m := by
      simpa [size, getSz] using hr
    have hsr : s ≠ r := Ne.symm hrs
    have hcases : (orr.version = false ∨ orr.item = repr.lval Ptr.null) ∨
        ∃ b cb, orr.version = true ∧ orr.item = repr.lval (Ptr.heap b) ∧ b ≠ a ∧
          w.heap[b]? = some (some cb) := by
      cases hrv : orr.version with
      | false => exact Or.inl (Or.inl rfl)
      | true =>
        rcases hrel (by simp [mode, getVersion, hor, hrv]) with h | ⟨b, h1, h2, h3⟩
        · left; right
          have h1 : lvalData orr.item = some Ptr.null := by simpa [getLvalData, hor] using h
          cases hi : orr.item <;> simp_all [lvalData]
        · right
          have h1 : lvalData orr.item = some (Ptr.heap b) := by simpa [getLvalData, hor] using h1
          have hitem2 : orr.item = repr.lval (Ptr.heap b) := by
            cases hi : orr.item <;> simp_all [lvalData]
          cases hbb : w.heap[b]? with
          | none => simp [isLive, hbb] at h3
          | some x =>
            cases x with
            | none => simp [isLive, hbb] at h3
            | some cb => exact ⟨b, cb, rfl, hitem2, h2, hbb⟩
    rcases hcases with hc | ⟨b, cb, hrv, hrp, hba, hrb⟩
    · refine ⟨_, w.heap.length,
        assignCopy_heap_eq_of_inline N w r s orr os a cells txt hor hos hrs hn hv hitem hb hscan hfit hc,
        ?_, by omega, ?_⟩
      · simp only [getLvalData, get_set_self _ _ _ _ hor, Option.some_bind, lvalData_lval]
      · intro i ch hi
        obtain ⟨w2, h1, h2, h3, h4⟩ := write_copy_frame N
          { heap := w.heap ++ [some (cstring txt ++ List.replicate (os.sz - txt.length) none)],
            objs := w.objs.set r { sz := os.sz, item := repr.lval (Ptr.heap w.heap.length), version := true } }
          r s os.sz a w.heap.length os cells _
          (get_set_self _ _ _ _ hor) (by show (w.objs.set r _)[s]? = some os
                                         rw [get_set_ne _ _ _ _ hrs]; exact hos)
          hv hitem (get_concat_new _ _) hnewlen
          (get_concat_old _ _ _ _ hb) (by omega) i ch hi
        exact ⟨w2, h1, h2, h3, fun j => by rw [h4 j, hsw j]⟩
    · have hlen : (w.heap.set b none).length = w.heap.length := List.length_set _ _ _
      have hnew : ∀ x, (w.heap.set b none ++ [x])[w.heap.length]? = some x := by
        intro x
        have := get_concat_new (w.heap.set b none) x
        rwa [hlen] at this
      refine ⟨_, w.heap.length,
        assignCopy_heap_eq_of_heap N w r s orr os a b cells cb txt hor hos hrs hn hv hitem hb hscan hfit
          hrv hrp hrb hba,
        ?_, by omega, ?_⟩
      · simp only [getLvalData, get_set_self _ _ _ _ hor, Option.some_bind, lvalData_lval]
      · intro i ch hi
        obtain ⟨w2, h1, h2, h3, h4⟩ := write_copy_frame N
          { heap := w.heap.set b none ++ [some (cstring txt ++ List.replicate (os.sz - txt.length) none)],
            objs := w.objs.set r { sz := os.sz, item := repr.lval (Ptr.heap w.heap.length), version := true } }
          r s os.sz a w.heap.length os cells _
          (get_set_self _ _ _ _ hor) (by show (w.objs.set r _)[s]? = some os
                                         rw [get_set_ne _ _ _ _ hrs]; exact hos)
          hv hitem (hnew _) hnewlen
          (get_concat_old _ _ _ _ (by rw [get_set_ne _ _ _ _ hba]; exact hb)) (by omega) i ch hi
        exact ⟨w2, h1, h2, h3, fun j => by rw [h4 j, hsw j]⟩

/-- The copy constructor on the heap instance built from `"abc"` with `N = 2`
(object 0, buffer 0). -/
theorem copy_independence_abc :
    (size 0 abcWorld = some 3 ∧ 0 < 3 ∧ mode 0 abcWorld = some Mode.Heap ∧
      getLvalData 0 abcWorld = some (Ptr.heap 0) ∧
      abcWorld.heap[0]? = some (some (cstring [97, 98, 99])) ∧
      strscan (cstring [97, 98, 99]) = some [97, 98, 99] ∧ [97, 98, 99].length ≤ 3) ∧
    (∃ w1 c b, ctorCopy 2 0 abcWorld = some (w1, c) ∧ c ≠ 0 ∧
      getLvalData c w1 = some (Ptr.heap b) ∧ b ≠ 0 ∧
      ∀ i ch, i < 3 → ∃ w2, writeChar 2 c i ch w1 = some w2 ∧
        charAt 2 c i w2 = some (some ch) ∧
        w2.heap[0]? = some (some (cstring [97, 98, 99])) ∧
        ∀ j, charAt 2 0 j w2 = charAt 2 0 j abcWorld) :=
  ⟨⟨rfl, by decide, rfl, rfl, rfl, rfl, by decide⟩,
    (copy_independence 2 abcWorld 0 3 0 (cstring [97, 98, 99]) [97, 98, 99]
      rfl (by decide) rfl rfl rfl rfl (by decide)).1⟩

/-- C7 fails on the code: with `N = 2`, build `a` from `"abc"`, move it into
`b` (so `a` is a moved-from heap instance), build `r` from `"xyz"` and
copy-assign `r = a`.  The assignment releases `r`'s buffer (heap array 1) and,
because `a` is empty, stores no new pointer: `r` is left in heap mode with a
non-null pointer to the released array, and destroying `r` releases it a
second time (undefined behaviour, `none`). -/
theorem C7_dangling_after_assign_from_moved :
    ∃ w1 a w2 b w3 r w4,
      ctorCStr 2 (cstring [97, 98, 99]) World.empty = some (w1, a) ∧
      ctorMove 2 a w1 = some (w2, b) ∧
      ctorCStr 2 (cstring [120, 121, 122]) w2 = some (w3, r) ∧
      assignCopy 2 r a w3 = some w4 ∧
      mode r w4 = some Mode.Heap ∧
      getLvalData r w4 = some (Ptr.heap 1) ∧
      isLive w4 1 = false ∧ isReleased w4 1 = true ∧
      dtor r w4 = none :=
  ⟨_, _, _, _, _, _, _, rfl, rfl, rfl, rfl, rfl, rfl, rfl, rfl, rfl⟩

/-- C8 fails on the code: with `N = 2`, build `r` from `"abc"` (heap array 0)
and `s` from `"xyz"` (heap array 1) and move-assign `r = std::move(s)`.  The
receiver adopts array 1 and never releases array 0: afterwards array 0 is
still allocated, no object points to it, and it stays allocated after both
objects are destroyed. -/
theorem C8_move_assign_leaks_receiver_buffer :
    ∃ w1 r w2 s w3 w4 w5,
      ctorCStr 2 (cstring [97, 98, 99]) World.empty = some (w1, r) ∧
      ctorCStr 2 (cstring [120, 121, 122]) w1 = some (w2, s) ∧
      getLvalData r w2 = some (Ptr.heap 0) ∧ isLive w2 0 = true ∧
      assignMove 2 r s w2 = some w3 ∧
      getLvalData r w3 = some (Ptr.heap 1) ∧ size r w3 = some 3 ∧ size s w3 = some 0 ∧
      isLive w3 0 = true ∧ isOwned w3 0 = false ∧
      dtor r w3 = some w4 ∧ dtor s w4 = some w5 ∧ isLive w5 0 = true :=
  ⟨_, _, _, _, _, _, _, rfl, rfl, rfl, rfl, rfl, rfl, rfl, rfl, rfl, rfl, rfl, rfl, rfl⟩

/-- C9 fails on the code: with `N = 2`, build `a` from `"abc"` and copy-assign
`a = a`.  The assignment releases `a`'s buffer, allocates a new one and then
runs `strcpy` from `other.item.lval.data`, which is the new, unwritten buffer
itself: the old content is gone and the copy reads indeterminate bytes
(undefined behaviour, `none`). -/
theorem C9_self_assign_heap_undefined :
    ∃ w1 a, ctorCStr 2 (cstring [97, 98, 99]) World.empty = some (w1, a) ∧
      mode a w1 = some Mode.Heap ∧ CStrText 2 a w1 = some (some [97, 98, 99]) ∧
      assignCopy 2 a a w1 = none :=
  ⟨_, _, rfl, rfl, rfl, rfl⟩

/-- C10: for every threshold `N ≥ 1`, every receiver `r` built by the
constructor from a text `R` and every text `T`, the assignment `r = T`
returns, and afterwards `size()`, the mode, the text read through `CStr()` and
every `r[pos]` (value or `out_of_range`) are those of a fresh instance
constructed from `T`, whatever the mode of `r` was; a receiver in heap mode
has its buffer released by the assignment (it was allocated before and is
released after), and no other heap array that existed is changed. -/
theorem C10_assign_text_as_construction (N : Nat) (R T : List Nat) (w0 wf0 : World)
    (hN : 1 ≤ N) (hR : ∀ c ∈ R, c ≠ 0) (hT : ∀ c ∈ T, c ≠ 0) :
    ∃ w1 r, ctorCStr N (cstring R) w0 = some (w1, r) ∧
    ∃ w2, assignCStr N r (cstring T) w1 = some w2 ∧
    ∃ wf f, ctorCStr N (cstring T) wf0 = some (wf, f) ∧
      size r w2 = size f wf ∧ size r w2 = some T.length ∧
      mode r w2 = mode f wf ∧
      mode r w2 = some (if T.length < N then Mode.Inline else Mode.Heap) ∧
      CStrText N r w2 = CStrText N f wf ∧
      CStrText N r w2 = some (if T = [] then none else some T) ∧
      (∀ pos, charAt N r pos w2 = charAt N f pos wf) ∧
      (∀ pos, charAt N r pos w2 = (T[pos]?).map some) ∧
      (∀ pos, opIndexConst r pos w2 = IndexResult.out_of_range ↔
        opIndexConst f pos wf = IndexResult.out_of_range) ∧
      (∀ pos, opIndex r pos w2 = IndexResult.out_of_range ↔
        opIndex f pos wf = IndexResult.out_of_range) ∧
      (∀ b, mode r w1 = some Mode.Heap → getLvalData r w1 = some (Ptr.heap b) →
        isLive w1 b = true ∧ isReleased w2 b = true) ∧
      (∀ a, a < w1.heap.length → getLvalData r w1 ≠ some (Ptr.heap a) →
        w2.heap[a]? = w1.heap[a]?) := by
  obtain ⟨w1, hc1, -, hnil, hin, hhp⟩ := ctorCStr_spec N R w0 hR
  obtain ⟨wf, hcf, hholdf⟩ := ctorCStr_holds N T wf0 hT
  have hN0 : ¬ N = 0 := by omega
  -- the receiver is inline (version false) or owns a live heap array
  have hrecv : (∃ orr, w1.objs[w0.objs.length]? = some orr ∧ orr.version = false ∧
        (svalData N orr.item).length = N) ∨
      (∃ orr b cb, w1.objs[w0.objs.length]? = some orr ∧ orr.version = true ∧
        orr.item = repr.lval (Ptr.heap b) ∧ w1.heap[b]? = some (some cb)) := by
    by_cases hne : R = []
    · left
      exact ⟨_, (hnil hne).2, by simp [hN0], by simp [svalData_indeterminate]⟩
    · by_cases hlt : R.length < N
      · left
        refine ⟨_, (hin hne hlt).2, rfl, ?_⟩
        simp only [svalData_sval, List.length_append, cstring_length, List.length_replicate]
        omega
      · right
        obtain ⟨hheap, hobj⟩ := hhp hne (by omega)
        exact ⟨_, w0.heap.length, cstring R, hobj, rfl, rfl, by rw [hheap]; simp⟩
  refine ⟨w1, _, hc1, ?_⟩
  have hfin : ∀ w2, HoldsText N w2 w0.objs.length T →
      size w0.objs.length w2 = size wf0.objs.length wf ∧
      size w0.objs.length w2 = some T.length ∧
      mode w0.objs.length w2 = mode wf0.objs.length wf ∧
      mode w0.objs.length w2 = some (if T.length < N then Mode.Inline else Mode.Heap) ∧
      CStrText N w0.objs.length w2 = CStrText N wf0.objs.length wf ∧
      CStrText N w0.objs.length w2 = some (if T = [] then none else some T) ∧
      (∀ pos, charAt N w0.objs.length pos w2 = charAt N wf0.objs.length pos wf) ∧
      (∀ pos, charAt N w0.objs.length pos w2 = (T[pos]?).map some) ∧
      (∀ pos, opIndexConst w0.objs.length pos w2 = IndexResult.out_of_range ↔
        opIndexConst wf0.objs.length pos wf = IndexResult.out_of_range) ∧
      (∀ pos, opIndex w0.objs.length pos w2 = IndexResult.out_of_range ↔
        opIndex wf0.objs.length pos wf = IndexResult.out_of_range) := by
    intro w2 hh
    obtain ⟨a1, a2, a3, a4, a5, a6⟩ := holdsText_obs N w2 _ T hT hh
    obtain ⟨b1, b2, b3, b4, b5, b6⟩ := holdsText_obs N wf _ T hT hholdf
    exact ⟨by rw [a1, b1], a1, by rw [a2, b2], a2, by rw [a3, b3], a3,
      fun pos => by rw [a4 pos, b4 pos], a4,
      fun pos => by rw [a5 pos, b5 pos], fun pos => by rw [a6 pos, b6 pos]⟩
  rcases hrecv with ⟨orr, hor, hrv, harr⟩ | ⟨orr, b, cb, hor, hrv, hrp, hrb⟩
  · obtain ⟨w2, ha, hh, hframe⟩ := assignCStr_holds_of_inline N T w1 _ orr hN hT hor hrv harr
    obtain ⟨c1, c2, c3, c4, c5, c6, c7, c8, c9, c10⟩ := hfin w2 hh
    refine ⟨w2, ha, wf, _, hcf, c1, c2, c3, c4, c5, c6, c7, c8, c9, c10, ?_, ?_⟩
    · intro b hm
      simp [mode, getVersion, hor, hrv] at hm
    · intro a ha2 _
      exact hframe a ha2
  · obtain ⟨w2, ha, hh, hrel, hframe⟩ :=
      assignCStr_holds_of_heap N T w1 _ b orr cb hN hT hor hrv hrp hrb
    obtain ⟨c1, c2, c3, c4, c5, c6, c7, c8, c9, c10⟩ := hfin w2 hh
    refine ⟨w2, ha, wf, _, hcf, c1, c2, c3, c4, c5, c6, c7, c8, c9, c10, ?_, ?_⟩
    · intro b2 _ hp2
      have hbb : b2 = b := by
        simp only [getLvalData, hor, Option.some_bind, hrp, lvalData_lval, Option.some.injEq,
          Ptr.heap.injEq] at hp2
        exact hp2.symm
      subst hbb
      exact ⟨by simp [isLive, hrb], by simp [isReleased, hrel]⟩
    · intro a ha2 hne
      refine hframe a ha2 ?_
      intro hab
      subst hab
      exact hne (by simp [getLvalData, hor, hrp, lvalData_lval])

/-- Witness for C10 at `N = 2`: the receiver built from `"abc"` (heap mode) is
assigned `"x"` (inline mode). -/
theorem C10_assign_text_as_construction_witness :
    (1 ≤ 2 ∧ (∀ c ∈ [97, 98, 99], c ≠ 0) ∧ ∀ c ∈ [120], c ≠ 0) ∧
    ∃ w1 r, ctorCStr 2 (cstring [97, 98, 99]) World.empty = some (w1, r) ∧
    ∃ w2, assignCStr 2 r (cstring [120]) w1 = some w2 ∧
    ∃ wf f, ctorCStr 2 (cstring [120]) World.empty = some (wf, f) ∧
      size r w2 = size f wf ∧ size r w2 = some 1 ∧
      mode r w2 = mode f wf ∧
      mode r w2 = some Mode.Inline ∧
      CStrText 2 r w2 = CStrText 2 f wf ∧
      CStrText 2 r w2 = some (some [120]) ∧
      (∀ pos, charAt 2 r pos w2 = charAt 2 f pos wf) ∧
      (∀ pos, charAt 2 r pos w2 = ([120][pos]?).map some) ∧
      (∀ pos, opIndexConst r pos w2 = IndexResult.out_of_range ↔
        opIndexConst f pos wf = IndexResult.out_of_range) ∧
      (∀ pos, opIndex r pos w2 = IndexResult.out_of_range ↔
        opIndex f pos wf = IndexResult.out_of_range) ∧
      (∀ b, mode r w1 = some Mode.Heap → getLvalData r w1 = some (Ptr.heap b) →
        isLive w1 b = true ∧ isReleased w2 b = true) ∧
      (∀ a, a < w1.heap.length → getLvalData r w1 ≠ some (Ptr.heap a) →
        w2.heap[a]? = w1.heap[a]?) :=
  ⟨⟨by decide, by decide, by decide⟩,
    C10_assign_text_as_construction 2 [97, 98, 99] [120] World.empty World.empty
      (by decide) (by decide) (by decide)⟩

/-! ## Further lemmas on the member functions -/

theorem assignCopy_empty_eq_of_inline (N : Nat) (w : World) (r s : Nat) (orr os : MyString)
    (hor : w.objs[r]? = some orr) (hos : w.objs[s]? = some os) (hne : r ≠ s)
    (hsz : os.sz = 0) (hrv : orr.version = false) :
    assignCopy N r s w = some
      { heap := w.heap,
        objs := w.objs.set r { sz := 0, item := orr.item, version := os.version } } := by
  have hself : ∀ x : MyString, (w.objs.set r x)[r]? = some x := fun x => get_set_self _ _ _ _ hor
  simp only [assignCopy, getSz, getVersion, setSz, setVersion, setObj,
    Option.bind_eq_bind, Option.some_bind, Option.map_some', Option.pure_def,
    List.set_set, hself, get_set_ne _ _ _ _ hne, hor, hos, hrv, hsz,
    gt_iff_lt, lt_self_iff_false, if_false, Bool.false_eq_true]

theorem assignCopy_empty_eq_of_heap (N : Nat) (w : World) (r s b : Nat) (orr os : MyString)
    (cb : List Cell)
    (hor : w.objs[r]? = some orr) (hos : w.objs[s]? = some os) (hne : r ≠ s)
    (hsz : os.sz = 0) (hrv : orr.version = true) (hrp : orr.item = repr.lval (Ptr.heap b))
    (hrb : w.heap[b]? = some (some cb)) :
    assignCopy N r s w = some
      { heap := w.heap.set b none,
        objs := w.objs.set r { sz := 0, item := repr.lval (Ptr.heap b), version := os.version } } := by
  have hself : ∀ x : MyString, (w.objs.set r x)[r]? = some x := fun x => get_set_self _ _ _ _ hor
  simp only [assignCopy, getSz, getVersion, getLvalData, setSz, setVersion, setObj, deleteArr,
    Option.bind_eq_bind, Option.some_bind, Option.map_some', Option.pure_def,
    List.set_set, hself, get_set_ne _ _ _ _ hne, hor, hos, hrv, hrp, hrb, hsz,
    lvalData_lval, heap_ne_null, ne_eq, not_false_eq_true,
    gt_iff_lt, lt_self_iff_false, if_true, if_false]

theorem assignCopy_inline_eq_of_inline (N : Nat) (w : World) (r s : Nat) (orr os : MyString)
    (txt : List Nat)
    (hor : w.objs[r]? = some orr) (hos : w.objs[s]? = some os) (hne : r ≠ s)
    (hsz : 0 < os.sz) (hv : os.version = false)
    (hscan : strscan (svalData N os.item) = some txt)
    (hrv : orr.version = false) (hfit : txt.length + 1 ≤ (svalData N orr.item).length) :
    assignCopy N r s w = some
      { heap := w.heap,
        objs := w.objs.set r
          { sz := os.sz,
            item := repr.sval (cstring txt ++ (svalData N orr.item).drop (txt.length + 1)),
            version := false } } := by
  have hself : ∀ x : MyString, (w.objs.set r x)[r]? = some x := fun x => get_set_self _ _ _ _ hor
  simp only [assignCopy, getSz, getVersion, setSz, setVersion, setObj,
    Option.bind_eq_bind, Option.some_bind, Option.map_some', Option.pure_def,
    List.set_set, hself, get_set_ne _ _ _ _ hne, hor, hos, hrv, hv, hsz,
    gt_iff_lt, if_true, if_false, Bool.false_eq_true]
  simp only [strcpy, readStr, writeStr, cellsAt, setCellsAt, strput, setObj,
    Option.bind_eq_bind, Option.some_bind, Option.map_some', Option.pure_def,
    List.set_set, hself, get_set_ne _ _ _ _ hne, hos, hscan, hfit, if_true]

theorem assignCopy_inline_eq_of_heap (N : Nat) (w : World) (r s b : Nat) (orr os : MyString)
    (cb : List Cell) (txt : List Nat)
    (hor : w.objs[r]? = some orr) (hos : w.objs[s]? = some os) (hne : r ≠ s)
    (hsz : 0 < os.sz) (hv : os.version = false)
    (hscan : strscan (svalData N os.item) = some txt) (hfit : txt.length + 1 ≤ N)
    (hrv : orr.version = true) (hrp : orr.item = repr.lval (Ptr.heap b))
    (hrb : w.heap[b]? = some (some cb)) :
    assignCopy N r s w = some
      { heap := w.heap.set b none,
        objs := w.objs.set r
          { sz := os.sz,
            item := repr.sval (cstring txt ++ List.replicate (N - (txt.length + 1)) none),
            version := false } } := by
  have hself : ∀ x : MyString, (w.objs.set r x)[r]? = some x := fun x => get_set_self _ _ _ _ hor
  simp only [assignCopy, getSz, getVersion, getLvalData, setSz, setVersion, setObj, deleteArr,
    Option.bind_eq_bind, Option.some_bind, Option.map_some', Option.pure_def,
    List.set_set, hself, get_set_ne _ _ _ _ hne, hor, hos, hrv, hrp, hrb, hv, hsz,
    lvalData_lval, heap_ne_null, ne_eq, not_false_eq_true,
    gt_iff_lt, if_true, if_false, Bool.false_eq_true]
  simp only [strcpy, readStr, writeStr, cellsAt, setCellsAt, strput, setObj,
    Option.bind_eq_bind, Option.some_bind, Option.map_some', Option.pure_def,
    List.set_set, hself, get_set_ne _ _ _ _ hne, hos, hscan, hfit, svalData_lval,
    List.length_replicate, List.drop_replicate, if_true]

theorem holdsText_extends (N : Nat) (w w1 : World) (i : Nat) (T : List Nat)
    (h : HoldsText N w i T) (he : Extends w w1) : HoldsText N w1 i T := by
  obtain ⟨o, ho, hsz, hv, hst⟩ := h
  have hi := ne_length_of_some _ _ _ ho
  refine ⟨o, by rw [he.1 i hi]; exact ho, hsz, hv, fun hne => ⟨fun hge => ?_, (hst hne).2⟩⟩
  obtain ⟨a, rest, hitem, hb⟩ := (hst hne).1 hge
  exact ⟨a, rest, hitem, by rw [he.2 a (ne_length_of_some _ _ _ hb)]; exact hb⟩

theorem assignable_extends (N : Nat) (w w1 : World) (i : Nat)
    (h : Assignable N w i) (he : Extends w w1) : Assignable N w1 i := by
  obtain ⟨o, ho, hc⟩ := h
  have hi := ne_length_of_some _ _ _ ho
  refine ⟨o, by rw [he.1 i hi]; exact ho, ?_⟩
  rcases hc with hc | ⟨hv, b, cb, hitem, hb⟩
  · exact Or.inl hc
  · exact Or.inr ⟨hv, b, cb, hitem, by rw [he.2 b (ne_length_of_some _ _ _ hb)]; exact hb⟩

theorem ctorCStr_built (N : Nat) (T : List Nat) (w : World) (hN : 1 ≤ N)
    (hT : ∀ c ∈ T, c ≠ 0) :
    ∃ w1, ctorCStr N (cstring T) w = some (w1, w.objs.length) ∧
      HoldsText N w1 w.objs.length T ∧ Assignable N w1 w.objs.length ∧ Extends w w1 ∧
      w1.objs.length = w.objs.length + 1 ∧
      (T.length < N → w1.heap = w.heap) ∧
      (N ≤ T.length → w1.heap = w.heap ++ [some (cstring T)] ∧
        getLvalData w.objs.length w1 = some (Ptr.heap w.heap.length)) ∧
      (T.length < N → getLvalData w.objs.length w1 = none) := by
  have hN0 : ¬ N = 0 := by omega
  refine ⟨_, ctorCStr_eq N T w hT, ?_⟩
  have hc := ctorCStr_eq N T w hT
  obtain ⟨w1, hc1, hh⟩ := ctorCStr_holds N T w hT
  rw [hc] at hc1
  have hw : (if T.length = 0 then
        ({ w with objs := w.objs ++ [{ sz := 0, item := repr.indeterminate, version := decide (N = 0) }] } : World)
      else if T.length < N then
        { w with objs := w.objs ++ [{ sz := T.length, item := repr.sval (cstring T ++ List.replicate (N - (T.length + 1)) none), version := false }] }
      else
        { heap := w.heap ++ [some (cstring T)],
          objs := w.objs ++ [{ sz := T.length, item := repr.lval (Ptr.heap w.heap.length), version := true }] }) = w1 := by
    have := Option.some.inj hc1
    exact congrArg Prod.fst this
  rw [hw]
  refine ⟨hh, ?_⟩
  subst hw
  rcases Nat.eq_zero_or_pos T.length with h0 | h0
  · rw [if_pos h0]
    refine ⟨⟨_, get_concat_new _ _, Or.inl ⟨by simp [hN0], by simp⟩⟩, ⟨fun j hj => List.getElem?_append_left hj, fun a _ => rfl⟩, by simp, fun _ => rfl, fun h => by omega, fun _ => ?_⟩
    simp only [getLvalData, get_concat_new, Option.some_bind, lvalData_indeterminate]
  · have h1 : T.length ≠ 0 := by omega
    by_cases hlt : T.length < N
    · rw [if_neg h1, if_pos hlt]
      refine ⟨⟨_, get_concat_new _ _, Or.inl ⟨rfl, ?_⟩⟩, ⟨fun j hj => List.getElem?_append_left hj, fun a _ => rfl⟩, by simp, fun _ => rfl, fun h => by omega, fun _ => ?_⟩
      · simp only [svalData_sval, List.length_append, cstring_length, List.length_replicate]
        omega
      · simp only [getLvalData, get_concat_new, Option.some_bind, lvalData_sval]
    · rw [if_neg h1, if_neg hlt]
      refine ⟨⟨_, get_concat_new _ _, Or.inr ⟨rfl, w.heap.length, cstring T, rfl, get_concat_new _ _⟩⟩,
        ⟨fun j hj => List.getElem?_append_left hj, fun a ha => List.getElem?_append_left ha⟩,
        by simp, fun h => absurd h hlt, fun _ => ⟨rfl, ?_⟩, fun h => absurd h hlt⟩
      simp only [getLvalData, get_concat_new, Option.some_bind, lvalData_lval]

theorem assignCopy_holds (N : Nat) (w : World) (r s : Nat) (S : List Nat) (hN : 1 ≤ N)
    (hS : ∀ c ∈ S, c ≠ 0) (hne : r ≠ s) (hsrc : HoldsText N w s S)
    (hrecv : Assignable N w r)
    (hdist : ∀ a, getLvalData r w = some (Ptr.heap a) → getLvalData s w ≠ some (Ptr.heap a)) :
    ∃ w3, assignCopy N r s w = some w3 ∧ HoldsText N w3 r S ∧ HoldsText N w3 s S ∧
      w3.objs[s]? = w.objs[s]? ∧
      (∀ b, mode r w = some Mode.Heap → getLvalData r w = some (Ptr.heap b) →
        isLive w b = true ∧ isReleased w3 b = true) ∧
      (∀ a, a < w.heap.length →
        ¬ (mode r w = some Mode.Heap ∧ getLvalData r w = some (Ptr.heap a)) →
        w3.heap[a]? = w.heap[a]?) ∧
      (N ≤ S.length → w3.heap.length = w.heap.length + 1 ∧
        getLvalData r w3 = some (Ptr.heap w.heap.length) ∧
        w3.heap[w.heap.length]? = some (some (cstring S))) ∧
      (S.length < N → w3.heap.length = w.heap.length) := by
  obtain ⟨os, hos, hsz, hv, hst⟩ := hsrc
  obtain ⟨orr, hor, hrc⟩ := hrecv
  have hsr : s ≠ r := Ne.symm hne
  have hmode : ∀ v : Bool, orr.version = v →
      (mode r w = some Mode.Heap ↔ v = true) := by
    intro v hv1
    cases v <;> simp [mode, getVersion, hor, hv1]
  have hptr : getLvalData r w = lvalData orr.item := by
    simp only [getLvalData, hor, Option.some_bind]
  -- what is to be shown of an explicit result
  have fin : ∀ (H : List (Option (List Cell))) (o3 : MyString),
      HoldsText N { heap := H, objs := w.objs.set r o3 } r S →
      (∀ a, a < w.heap.length → (∀ b, orr.version = true → orr.item = repr.lval (Ptr.heap b) → a ≠ b) →
        H[a]? = w.heap[a]?) →
      (∀ b cb, orr.version = true → orr.item = repr.lval (Ptr.heap b) →
        w.heap[b]? = some (some cb) → H[b]? = some none) →
      (N ≤ S.length → H.length = w.heap.length + 1 ∧
        o3.item = repr.lval (Ptr.heap w.heap.length) ∧
        H[w.heap.length]? = some (some (cstring S))) →
      (S.length < N → H.length = w.heap.length) →
      (∀ a rest, os.item = repr.lval (Ptr.heap a) → w.heap[a]? = some (some (cstring S ++ rest)) →
        N ≤ S.length → H[a]? = some (some (cstring S ++ rest))) →
      HoldsText N { heap := H, objs := w.objs.set r o3 } r S ∧
      HoldsText N { heap := H, objs := w.objs.set r o3 } s S ∧
      ({ heap := H, objs := w.objs.set r o3 } : World).objs[s]? = w.objs[s]? ∧
      (∀ b, mode r w = some Mode.Heap → getLvalData r w = some (Ptr.heap b) →
        isLive w b = true ∧ isReleased { heap := H, objs := w.objs.set r o3 } b = true) ∧
      (∀ a, a < w.heap.length →
        ¬ (mode r w = some Mode.Heap ∧ getLvalData r w = some (Ptr.heap a)) →
        ({ heap := H, objs := w.objs.set r o3 } : World).heap[a]? = w.heap[a]?) ∧
      (N ≤ S.length → ({ heap := H, objs := w.objs.set r o3 } : World).heap.length = w.heap.length + 1 ∧
        getLvalData r { heap := H, objs := w.objs.set r o3 } = some (Ptr.heap w.heap.length) ∧
        ({ heap := H, objs := w.objs.set r o3 } : World).heap[w.heap.length]? = some (some (cstring S))) ∧
      (S.length < N → ({ heap := H, objs := w.objs.set r o3 } : World).heap.length = w.heap.length) := by
    intro H o3 hr3 hframe hrel hfresh hsame hsblock
    have hs3 : (w.objs.set r o3)[s]? = some os := by rw [get_set_ne _ _ _ _ hne]; exact hos
    refine ⟨hr3, ?_, by rw [← hos] at hs3; exact hs3, ?_, ?_, ?_, hsame⟩
    · refine ⟨os, hs3, hsz, hv, fun hne0 => ⟨fun hge => ?_, (hst hne0).2⟩⟩
      obtain ⟨a, rest, hitem, hb⟩ := (hst hne0).1 hge
      exact ⟨a, rest, hitem, hsblock a rest hitem hb hge⟩
    · intro b hm hp
      have hv1 : orr.version = true := (hmode orr.version rfl).1 hm
      have hitem : orr.item = repr.lval (Ptr.heap b) := by
        rw [hptr] at hp
        cases hi : orr.item <;> simp_all [lvalData]
      rcases hrc with ⟨hf, -⟩ | ⟨-, b2, cb, hitem2, hb2⟩
      · rw [hf] at hv1; exact absurd hv1 (by decide)
      · have hbb : b2 = b := by rw [hitem2] at hitem; simpa using hitem
        subst hbb
        exact ⟨by simp [isLive, hb2], by simp [isReleased, hrel b2 cb hv1 hitem2 hb2]⟩
    · intro a ha hnot
      refine hframe a ha ?_
      intro b hv1 hitem hab
      subst hab
      exact hnot ⟨(hmode orr.version rfl).2 hv1, by rw [hptr, hitem]; rfl⟩
    · intro hge
      obtain ⟨h1, h2, h3⟩ := hfresh hge
      refine ⟨h1, ?_, h3⟩
      simp only [getLvalData, get_set_self _ _ _ _ hor, Option.some_bind, h2, lvalData_lval]
  have hscanS : ∀ rest, strscan (cstring S ++ rest) = some S := by
    intro rest
    unfold cstring
    rw [List.append_assoc]
    exact strscan_text S hS _
  by_cases hS0 : S = []
  · -- empty source
    subst hS0
    have hsz0 : os.sz = 0 := by simpa using hsz
    have hN2 : ¬ N ≤ 0 := by omega
    rcases hrc with ⟨hf, harr⟩ | ⟨ht, b, cb, hitem, hb⟩
    · refine ⟨_, assignCopy_empty_eq_of_inline N w r s orr os hor hos hne hsz0 hf,
        fin _ _ ⟨_, get_set_self _ _ _ _ hor, rfl, hv, fun h => absurd rfl h⟩
          (fun a _ _ => rfl) (fun b cb h => by rw [hf] at h; exact absurd h (by decide))
          (fun h => absurd h hN2) (fun _ => rfl) (fun _ _ _ _ h => absurd h hN2)⟩
    · refine ⟨_, assignCopy_empty_eq_of_heap N w r s b orr os cb hor hos hne hsz0 ht hitem hb,
        fin _ _ ⟨_, get_set_self _ _ _ _ hor, rfl, hv, fun h => absurd rfl h⟩
          (fun a _ h => get_set_ne _ _ _ _ (Ne.symm (h b ht hitem)))
          (fun b2 cb2 _ h2 _ => by
            have hbb : b2 = b := by rw [hitem] at h2; simpa using h2.symm
            subst hbb
            exact get_set_self _ _ _ _ hb)
          (fun h => absurd h hN2) (fun _ => List.length_set _ _ _)
          (fun _ _ _ _ h => absurd h hN2)⟩
  · have hlen0 : S.length ≠ 0 := by simpa using hS0
    have hpos : 0 < os.sz := by omega
    by_cases hlt : S.length < N
    · -- inline source
      have hge : ¬ N ≤ S.length := by omega
      have hvf : os.version = false := by rw [hv]; simp [hge]
      obtain ⟨rest, hitem_s⟩ := (hst hS0).2 hlt
      have hscan : strscan (svalData N os.item) = some S := by
        rw [hitem_s, svalData_sval]; exact hscanS rest
      rcases hrc with ⟨hf, harr⟩ | ⟨ht, b, cb, hitem, hb⟩
      · refine ⟨_, assignCopy_inline_eq_of_inline N w r s orr os S hor hos hne hpos hvf hscan hf
            (by rw [harr]; omega),
          fin _ _ ⟨_, get_set_self _ _ _ _ hor, hsz, by simp [hge],
              fun _ => ⟨fun h => absurd h hge, fun _ => ⟨_, rfl⟩⟩⟩
            (fun a _ _ => rfl) (fun b cb h => by rw [hf] at h; exact absurd h (by decide))
            (fun h => absurd h hge) (fun _ => rfl) (fun _ _ _ _ h => absurd h hge)⟩
      · refine ⟨_, assignCopy_inline_eq_of_heap N w r s b orr os cb S hor hos hne hpos hvf hscan
            (by omega) ht hitem hb,
          fin _ _ ⟨_, get_set_self _ _ _ _ hor, hsz, by simp [hge],
              fun _ => ⟨fun h => absurd h hge, fun _ => ⟨_, rfl⟩⟩⟩
            (fun a _ h => get_set_ne _ _ _ _ (Ne.symm (h b ht hitem)))
            (fun b2 cb2 _ h2 _ => by
              have hbb : b2 = b := by rw [hitem] at h2; simpa using h2.symm
              subst hbb
              exact get_set_self _ _ _ _ hb)
            (fun h => absurd h hge) (fun _ => List.length_set _ _ _)
            (fun _ _ _ _ h => absurd h hge)⟩
    · -- heap source
      have hge : N ≤ S.length := by omega
      have hvt : os.version = true := by rw [hv]; simp [hge]
      obtain ⟨a, rest, hitem_s, hba⟩ := (hst hS0).1 hge
      have hnewcells : cstring S ++ List.replicate (os.sz - S.length) (none : Cell) = cstring S := by
        rw [hsz]; simp
      have hlta := ne_length_of_some _ _ _ hba
      rcases hrc with ⟨hf, harr⟩ | ⟨ht, b, cb, hitem, hb⟩
      · have heq := assignCopy_heap_eq_of_inline N w r s orr os a _ S hor hos hne hpos hvt hitem_s
          hba (hscanS rest) (by omega) (Or.inl hf)
        rw [hnewcells] at heq
        refine ⟨_, heq,
          fin _ _ ⟨_, get_set_self _ _ _ _ hor, hsz, by simp [hge],
              fun _ => ⟨fun _ => ⟨w.heap.length, [], rfl, by simp⟩, fun h => absurd h hlt⟩⟩
            (fun a2 ha2 _ => List.getElem?_append_left ha2)
            (fun b cb h => by rw [hf] at h; exact absurd h (by decide))
            (fun _ => ⟨by simp, rfl, get_concat_new _ _⟩) (fun h => absurd h hlt)
            (fun a2 rest2 h2 hb2 _ => get_concat_old _ _ _ _ hb2)⟩
      · have hab : b ≠ a := by
          intro hab
          subst hab
          exact hdist b (by rw [hptr, hitem]; rfl)
            (by simp only [getLvalData, hos, Option.some_bind, hitem_s, lvalData_lval])
        have heq := assignCopy_heap_eq_of_heap N w r s orr os a b _ cb S hor hos hne hpos hvt
          hitem_s hba (hscanS rest) (by omega) ht hitem hb hab
        rw [hnewcells] at heq
        have hlen : (w.heap.set b none).length = w.heap.length := List.length_set _ _ _
        refine ⟨_, heq,
          fin _ _ ⟨_, get_set_self _ _ _ _ hor, hsz, by simp [hge],
              fun _ => ⟨fun _ => ⟨w.heap.length, [], rfl, by simp⟩, fun h => absurd h hlt⟩⟩
            (fun a2 ha2 h => by
              rw [List.getElem?_append_left (by rw [hlen]; exact ha2)]
              exact get_set_ne _ _ _ _ (Ne.symm (h b ht hitem)))
            (fun b2 cb2 _ h2 _ => by
              have hbb : b2 = b := by rw [hitem] at h2; simpa using h2.symm
              subst hbb
              exact get_concat_old _ _ _ _ (get_set_self _ _ _ _ hb))
            (fun _ => ⟨by simp, rfl, by simp⟩) (fun h => absurd h hlt)
            (fun a2 rest2 h2 hb2 _ => by
              have ha2 : a2 = a := by rw [hitem_s] at h2; simpa using h2.symm
              subst ha2
              exact get_concat_old _ _ _ _ (by rw [get_set_ne _ _ _ _ hab]; exact hb2))⟩

theorem getLvalData_extends (w w1 : World) (i : Nat) (hi : i < w.objs.length)
    (he : Extends w w1) : getLvalData i w1 = getLvalData i w := by
  simp only [getLvalData, he.1 i hi]

theorem two_built (N : Nat) (T1 T2 : List Nat) (w0 : World) (hN : 1 ≤ N)
    (h1 : ∀ c ∈ T1, c ≠ 0) (h2 : ∀ c ∈ T2, c ≠ 0) :
    ∃ w1 w2, ctorCStr N (cstring T1) w0 = some (w1, w0.objs.length) ∧
      ctorCStr N (cstring T2) w1 = some (w2, w0.objs.length + 1) ∧
      HoldsText N w2 w0.objs.length T1 ∧ HoldsText N w2 (w0.objs.length + 1) T2 ∧
      Assignable N w2 w0.objs.length ∧ Assignable N w2 (w0.objs.length + 1) ∧
      (∀ a, getLvalData w0.objs.length w2 = some (Ptr.heap a) →
        getLvalData (w0.objs.length + 1) w2 ≠ some (Ptr.heap a)) ∧
      (∀ a, getLvalData w0.objs.length w2 = some (Ptr.heap a) → a < w2.heap.length) ∧
      (∀ a, getLvalData (w0.objs.length + 1) w2 = some (Ptr.heap a) → a < w2.heap.length) := by
  obtain ⟨w1, hc1, hh1, ha1, he1, hl1, hin1, hhp1, hno1⟩ := ctorCStr_built N T1 w0 hN h1
  obtain ⟨w2, hc2, hh2, ha2, he2, hl2, hin2, hhp2, hno2⟩ := ctorCStr_built N T2 w1 hN h2
  rw [hl1] at hc2 hh2 ha2 hhp2 hno2
  have hx : w0.objs.length < w1.objs.length := by omega
  have hpx : getLvalData w0.objs.length w2 = getLvalData w0.objs.length w1 :=
    getLvalData_extends w1 w2 _ hx he2
  have hw2len : w1.heap.length ≤ w2.heap.length := by
    by_cases hlt : T2.length < N
    · rw [hin2 hlt]
    · rw [(hhp2 (by omega)).1]; simp
  refine ⟨w1, w2, hc1, hc2, holdsText_extends N w1 w2 _ T1 hh1 he2, hh2,
    assignable_extends N w1 w2 _ ha1 he2, ha2, ?_, ?_, ?_⟩
  · intro a hpa
    rw [hpx] at hpa
    by_cases hlt1 : T1.length < N
    · rw [hno1 hlt1] at hpa; exact absurd hpa (by simp)
    · obtain ⟨hheap1, hp1⟩ := hhp1 (by omega)
      rw [hp1] at hpa
      have ha : a = w0.heap.length := by simpa using hpa.symm
      by_cases hlt2 : T2.length < N
      · rw [hno2 hlt2]; simp
      · rw [(hhp2 (by omega)).2, hheap1, ha]
        simp
  · intro a hpa
    rw [hpx] at hpa
    by_cases hlt1 : T1.length < N
    · rw [hno1 hlt1] at hpa; exact absurd hpa (by simp)
    · obtain ⟨hheap1, hp1⟩ := hhp1 (by omega)
      rw [hp1] at hpa
      have ha : a = w0.heap.length := by simpa using hpa.symm
      have : w1.heap.length = w0.heap.length + 1 := by rw [hheap1]; simp
      omega
  · intro a hpa
    by_cases hlt2 : T2.length < N
    · rw [hno2 hlt2] at hpa; exact absurd hpa (by simp)
    · obtain ⟨hheap2, hp2⟩ := hhp2 (by omega)
      rw [hp2] at hpa
      have ha : a = w1.heap.length := by simpa using hpa.symm
      rw [hheap2, ha]
      simp

theorem inv_empty (N : Nat) : Inv N World.empty := by
  refine ⟨?_, ?_⟩
  · intro i o h
    simp [World.empty] at h
  · intro i j oi oj a _ h
    simp [World.empty] at h

/-- Replacing or adding one object `t`, and changing only heap arrays that the
old object `t` pointed to, keeps the invariant when the new object is well
formed and its pointer is held by no other object. -/
theorem inv_update (N : Nat) (w w1 : World) (t : Nat) (o1 : MyString) (hG : Inv N w)
    (ht : w1.objs[t]? = some o1) (hother : ∀ j, j ≠ t → w1.objs[j]? = w.objs[j]?)
    (hheap : ∀ a, a < w.heap.length →
      (∀ ot, w.objs[t]? = some ot → ot.item ≠ repr.lval (Ptr.heap a)) →
      w1.heap[a]? = w.heap[a]?)
    (hlen : w.heap.length ≤ w1.heap.length)
    (hloc : ObjOK N w1.heap o1)
    (huniq : ∀ a, o1.item = repr.lval (Ptr.heap a) → ∀ j oj, j ≠ t → w.objs[j]? = some oj →
      oj.item ≠ repr.lval (Ptr.heap a)) :
    Inv N w1 := by
  obtain ⟨hG1, hG2⟩ := hG
  refine ⟨?_, ?_⟩
  · intro i o hi
    by_cases hit : i = t
    · subst hit
      rw [ht] at hi
      have : o1 = o := Option.some.inj hi
      subst this
      exact hloc
    · rw [hother i hit] at hi
      obtain ⟨ha, hb, hc, hd, he, hf⟩ := hG1 i o hi
      have hkeep : ∀ a, o.item = repr.lval (Ptr.heap a) → w1.heap[a]? = w.heap[a]? := by
        intro a hia
        exact hheap a (he a hia) (fun ot hot h => hG2 i t o ot a hit hi hot hia h)
      refine ⟨ha, hb, ?_, hd, ?_, hf⟩
      · intro hpos hv
        obtain ⟨a, txt, hitem, hblock, hl, hz⟩ := hc hpos hv
        exact ⟨a, txt, hitem, by rw [hkeep a hitem]; exact hblock, hl, hz⟩
      · intro a hia
        exact Nat.lt_of_lt_of_le (he a hia) hlen
  · intro i j oi oj a hij hi hj hia
    by_cases hit : i = t
    · subst hit
      rw [ht] at hi
      have : o1 = oi := Option.some.inj hi
      subst this
      have hjt : j ≠ i := Ne.symm hij
      rw [hother j hjt] at hj
      exact huniq a hia j oj hjt hj
    · rw [hother i hit] at hi
      by_cases hjt : j = t
      · subst hjt
        rw [ht] at hj
        have : o1 = oj := Option.some.inj hj
        subst this
        intro hja
        exact huniq a hja i oi hit hi hia
      · rw [hother j hjt] at hj
        exact hG2 i j oi oj a hij hi hj hia

theorem assignCopy_split (N : Nat) (this other : Nat) (w : World) :
    assignCopy N this other w = (assignCopyHead this other w).bind (copyBody N this other) := by
  simp only [assignCopy, assignCopyHead, copyBody, Option.bind_eq_bind, Option.bind_assoc]

theorem assignCStr_split (N : Nat) (this : Nat) (str : List Cell) (w : World) :
    assignCStr N this str w = (assignCStrHead this str w).bind (textBody N this str) := by
  simp only [assignCStr, assignCStrHead, textBody, Option.bind_eq_bind, Option.bind_assoc]

theorem deleteArr_some (p : Ptr) (w W : World) (h : deleteArr p w = some W) :
    (p = Ptr.null ∧ W = w) ∨
    ∃ b cb, p = Ptr.heap b ∧ w.heap[b]? = some (some cb) ∧
      W = { heap := w.heap.set b none, objs := w.objs } := by
  cases p with
  | null =>
    left
    simp only [deleteArr, Option.some.injEq] at h
    exact ⟨rfl, h.symm⟩
  | heap b =>
    right
    cases hb : w.heap[b]? with
    | none => simp [deleteArr, hb] at h
    | some x =>
      cases x with
      | none => simp [deleteArr, hb] at h
      | some cb =>
        simp only [deleteArr, hb, Option.some.injEq] at h
        exact ⟨b, cb, rfl, hb, h.symm⟩
  | inl k => simp [deleteArr] at h

theorem assignCopyHead_some (r s : Nat) (w W : World) (h : assignCopyHead r s w = some W) :
    ∃ orr os, w.objs[r]? = some orr ∧ w.objs[s]? = some os ∧
      W.objs = w.objs.set r { sz := os.sz, item := orr.item, version := os.version } ∧
      (((orr.version = false ∨ orr.item = repr.lval Ptr.null) ∧ W.heap = w.heap) ∨
        ∃ b cb, orr.version = true ∧ orr.item = repr.lval (Ptr.heap b) ∧
          w.heap[b]? = some (some cb) ∧ W.heap = w.heap.set b none) := by
  cases hos : w.objs[s]? with
  | none => simp [assignCopyHead, getSz, hos] at h
  | some os =>
    cases hor : w.objs[r]? with
    | none => simp [assignCopyHead, getSz, setSz, hos, hor] at h
    | some orr =>
      refine ⟨orr, os, rfl, rfl, ?_⟩
      have hself : ∀ x : MyString, (w.objs.set r x)[r]? = some x :=
        fun x => get_set_self _ _ _ _ hor
      have hov : ∀ (n : Nat) (it : repr),
          Option.map (fun o => o.version)
            (w.objs.set r { sz := n, item := it, version := orr.version })[s]? =
            some os.version := by
        intro n it
        by_cases hrs : r = s
        · subst hrs
          rw [hself, Option.map_some']
          rw [hor] at hos
          rw [Option.some.inj hos]
        · rw [get_set_ne _ _ _ _ hrs, hos, Option.map_some']
      simp only [assignCopyHead, getSz, getVersion, getLvalData, setSz, setVersion, setObj,
        Option.bind_eq_bind, Option.some_bind, Option.map_some', Option.pure_def,
        List.set_set, hself, hos, hor, hov] at h
      cases hv : orr.version with
      | false =>
        simp only [hv, Bool.false_eq_true, if_false, Option.some.injEq] at h
        subst h
        exact ⟨rfl, Or.inl ⟨Or.inl rfl, rfl⟩⟩
      | true =>
        simp only [hv, if_true] at h
        cases hd : lvalData orr.item with
        | none => simp [hd] at h
        | some p =>
          have hitem : orr.item = repr.lval p := by
            cases hi : orr.item <;> simp_all [lvalData]
          simp only [hd, Option.some_bind] at h
          by_cases hp : p = Ptr.null
          · subst hp
            simp only [ne_eq, not_true_eq_false, if_false, Option.some.injEq] at h
            subst h
            exact ⟨rfl, Or.inl ⟨Or.inr hitem, rfl⟩⟩
          · simp only [ne_eq, hp, not_false_eq_true, if_true] at h
            rcases deleteArr_some _ _ _ h with ⟨h1, -⟩ | ⟨b, cb, h1, h2, h3⟩
            · exact absurd h1 hp
            · subst h1 h3
              exact ⟨rfl, Or.inr ⟨b, cb, rfl, hitem, h2, rfl⟩⟩

theorem assignCStrHead_some (r : Nat) (str : List Cell) (w W : World)
    (h : assignCStrHead r str w = some W) :
    ∃ orr T, strscan str = some T ∧ w.objs[r]? = some orr ∧
      W.objs = w.objs.set r { sz := T.length, item := orr.item, version := orr.version } ∧
      (((orr.version = false ∨ orr.item = repr.lval Ptr.null) ∧ W.heap = w.heap) ∨
        ∃ b cb, orr.version = true ∧ orr.item = repr.lval (Ptr.heap b) ∧
          w.heap[b]? = some (some cb) ∧ W.heap = w.heap.set b none) := by
  cases hT : strscan str with
  | none => simp [assignCStrHead, strlen, hT] at h
  | some T =>
    cases hor : w.objs[r]? with
    | none => simp [assignCStrHead, strlen, hT, setSz, hor] at h
    | some orr =>
      refine ⟨orr, T, rfl, rfl, ?_⟩
      have hself : ∀ x : MyString, (w.objs.set r x)[r]? = some x :=
        fun x => get_set_self _ _ _ _ hor
      simp only [assignCStrHead, strlen, hT, getVersion, getLvalData, setSz, setObj,
        Option.bind_eq_bind, Option.some_bind, Option.map_some', Option.pure_def,
        hself, hor] at h
      cases hv : orr.version with
      | false =>
        simp only [hv, Bool.false_eq_true, if_false, Option.some.injEq] at h
        subst h
        exact ⟨rfl, Or.inl ⟨Or.inl rfl, rfl⟩⟩
      | true =>
        simp only [hv, if_true] at h
        cases hd : lvalData orr.item with
        | none => simp [hd] at h
        | some p =>
          have hitem : orr.item = repr.lval p := by
            cases hi : orr.item <;> simp_all [lvalData]
          simp only [hd, Option.some_bind] at h
          rcases deleteArr_some _ _ _ h with ⟨h1, h2⟩ | ⟨b, cb, h1, h2, h3⟩
          · subst h1 h2
            exact ⟨rfl, Or.inl ⟨Or.inr hitem, rfl⟩⟩
          · subst h1 h3
            exact ⟨rfl, Or.inr ⟨b, cb, rfl, hitem, h2, rfl⟩⟩

theorem copyBody_empty (N : Nat) (t s : Nat) (W : World) (ot : MyString)
    (hot : W.objs[t]? = some ot) (hsz : ot.sz = 0) : copyBody N t s W = some W := by
  simp only [copyBody, getSz, hot, hsz, Option.bind_eq_bind, Option.some_bind, Option.map_some',
    Option.pure_def, gt_iff_lt, lt_self_iff_false, if_false]

theorem copyBody_heap (N : Nat) (t s a : Nat) (W : World) (ot os : MyString)
    (cells : List Cell) (txt : List Nat)
    (hot : W.objs[t]? = some ot) (hos : W.objs[s]? = some os) (hts : t ≠ s)
    (hsz : 0 < ot.sz) (hv : ot.version = true) (hp : os.item = repr.lval (Ptr.heap a))
    (hb : W.heap[a]? = some (some cells)) (hscan : strscan cells = some txt)
    (hfit : txt.length ≤ ot.sz) :
    copyBody N t s W = some
      { heap := W.heap ++ [some (cstring txt ++ List.replicate (ot.sz - txt.length) none)],
        objs := W.objs.set t
          { sz := ot.sz, item := repr.lval (Ptr.heap W.heap.length), version := true } } := by
  have hfit2 : txt.length + 1 ≤ ot.sz + 1 := by omega
  have hold : ∀ x, (W.heap ++ [x])[a]? = some (some cells) := fun x => get_concat_old _ _ _ _ hb
  have hself : ∀ x : MyString, (W.objs.set t x)[t]? = some x := fun x => get_set_self _ _ _ _ hot
  simp only [copyBody, getSz, getVersion, getLvalData, setLvalData, setObj,
    newArr, strcpy, readStr, writeStr, cellsAt, setCellsAt, strput,
    Option.bind_eq_bind, Option.some_bind, Option.map_some', Option.pure_def,
    List.set_set, List.length_replicate, List.drop_replicate, set_concat_length,
    get_concat_new, hself, get_set_ne _ _ _ _ hts, hot, hos, hv, hp, hsz, hold, hscan,
    hfit2, Nat.add_sub_add_right,
    lvalData_lval, gt_iff_lt, if_true, if_false, Bool.false_eq_true]

theorem copyBody_inline (N : Nat) (t s : Nat) (W : World) (ot os : MyString) (txt : List Nat)
    (hot : W.objs[t]? = some ot) (hos : W.objs[s]? = some os)
    (hsz : 0 < ot.sz) (hv : ot.version = false)
    (hscan : strscan (svalData N os.item) = some txt)
    (hfit : txt.length + 1 ≤ (svalData N ot.item).length) :
    copyBody N t s W = some
      { heap := W.heap,
        objs := W.objs.set t
          { sz := ot.sz,
            item := repr.sval (cstring txt ++ (svalData N ot.item).drop (txt.length + 1)),
            version := ot.version } } := by
  simp only [copyBody, getSz, getVersion, setObj, strcpy, readStr, writeStr, cellsAt,
    setCellsAt, strput,
    Option.bind_eq_bind, Option.some_bind, Option.map_some', Option.pure_def,
    hot, hos, hv, hsz, hscan, hfit, gt_iff_lt, if_true, if_false, Bool.false_eq_true]

theorem strscan_replicate_none (n : Nat) : strscan (List.replicate (n + 1) (none : Cell)) = none := by
  simp [List.replicate_succ, strscan]

theorem copyBody_self_heap (N : Nat) (t : Nat) (W : World) (ot : MyString)
    (hot : W.objs[t]? = some ot) (hsz : 0 < ot.sz) (hv : ot.version = true) :
    copyBody N t t W = none := by
  have hself : ∀ x : MyString, (W.objs.set t x)[t]? = some x := fun x => get_set_self _ _ _ _ hot
  simp only [copyBody, getSz, getVersion, getLvalData, setLvalData, setObj,
    newArr, strcpy, readStr, cellsAt,
    Option.bind_eq_bind, Option.some_bind, Option.none_bind, Option.map_some', Option.pure_def,
    get_concat_new, hself, hot, hv, hsz, strscan_replicate_none,
    lvalData_lval, gt_iff_lt, if_true]

theorem textBody_eq (N : Nat) (t : Nat) (str : List Cell) (T : List Nat) (W : World)
    (ot : MyString) (hN : 1 ≤ N) (hT : strscan str = some T)
    (hot : W.objs[t]? = some ot) (hsz : ot.sz = T.length)
    (harr : (svalData N ot.item).length = N) :
    textBody N t str W = some (
      if T.length = 0 then
        { heap := W.heap,
          objs := W.objs.set t { sz := 0, item := ot.item, version := false } }
      else if T.length < N then
        { heap := W.heap,
          objs := W.objs.set t
            { sz := T.length,
              item := repr.sval (cstring T ++ (svalData N ot.item).drop (T.length + 1)),
              version := false } }
      else
        { heap := W.heap ++ [some (cstring T)],
          objs := W.objs.set t
            { sz := T.length, item := repr.lval (Ptr.heap W.heap.length), version := true } }) := by
  have hself : ∀ x : MyString, (W.objs.set t x)[t]? = some x := fun x => get_set_self _ _ _ _ hot
  simp only [textBody, getSz, Option.bind_eq_bind, Option.some_bind, Option.map_some',
    Option.pure_def, hot, hsz]
  rcases Nat.eq_zero_or_pos T.length with h0 | h0
  · have hN2 : ¬ N ≤ 0 := by omega
    simp only [setVersion, setObj, getSz, Option.bind_eq_bind, Option.some_bind,
      Option.map_some', Option.pure_def, List.set_set, hself, hot, hsz, h0, hN2, ge_iff_le,
      gt_iff_lt, lt_self_iff_false, if_true, if_false]
  · have h1 : T.length ≠ 0 := by omega
    by_cases hlt : T.length < N
    · have h2 : ¬ (N ≤ T.length) := by omega
      have h3 : T.length + 1 ≤ N := by omega
      simp only [setVersion, setObj, getSz, getVersion, strcpyFrom, hT,
        writeStr, cellsAt, setCellsAt, strput,
        Option.bind_eq_bind, Option.some_bind, Option.map_some', Option.pure_def,
        List.set_set, hself, hot, hsz, harr, h0, h1, h2, h3, hlt, ge_iff_le, gt_iff_lt,
        if_true, if_false, Bool.not_false]
    · have h2 : N ≤ T.length := by omega
      simp only [setVersion, setLvalData, getLvalData, newArr, setObj, getSz, getVersion,
        strcpyFrom, hT, writeStr, cellsAt, setCellsAt, strput,
        Option.bind_eq_bind, Option.some_bind, Option.map_some', Option.pure_def,
        List.set_set, hself, hot, hsz, get_concat_new, set_concat_length, lvalData_lval,
        List.length_replicate, List.drop_replicate, Nat.sub_self, List.replicate_zero,
        List.append_nil, le_refl, h0, h1, h2, hlt, ge_iff_le, gt_iff_lt,
        if_true, if_false, Bool.not_true, Bool.false_eq_true]

theorem ctorCStr_congr (N : Nat) (str str1 : List Cell) (w : World)
    (h : strscan str = strscan str1) : ctorCStr N str w = ctorCStr N str1 w := by
  simp only [ctorCStr, strlen, strcpyFrom, h]

theorem ctorMove_empty_eq (N : Nat) (w : World) (s : Nat) (o : MyString)
    (ho : w.objs[s]? = some o) (hsz : o.sz = 0) :
    ctorMove N s w = some (
      { heap := w.heap,
        objs := w.objs ++ [{ sz := 0, item := repr.indeterminate, version := o.version }] },
      w.objs.length) := by
  simp only [ctorMove, getSz, getVersion, Option.bind_eq_bind, Option.some_bind,
    Option.map_some', Option.pure_def, get_concat_new, ho, hsz, gt_iff_lt, lt_self_iff_false,
    if_false]

theorem get_concat_ne {α : Type} (l : List α) (a : α) (j : Nat) (h : j ≠ l.length) :
    (l ++ [a])[j]? = l[j]? := by
  by_cases hj : j < l.length
  · exact List.getElem?_append_left hj
  · rw [List.getElem?_eq_none (by simp; omega), List.getElem?_eq_none (by omega)]

theorem assignMove_empty_eq (N : Nat) (w : World) (r s : Nat) (orr os : MyString)
    (hor : w.objs[r]? = some orr) (hos : w.objs[s]? = some os) (hsz : os.sz = 0) :
    assignMove N r s w = some
      { heap := w.heap,
        objs := w.objs.set r { sz := 0, item := orr.item, version := os.version } } := by
  have hself : ∀ x : MyString, (w.objs.set r x)[r]? = some x := fun x => get_set_self _ _ _ _ hor
  have hov : ∀ (n : Nat) (it : repr),
      Option.map (fun o => o.version)
        (w.objs.set r { sz := n, item := it, version := orr.version })[s]? =
        some os.version := by
    intro n it
    by_cases hrs : r = s
    · subst hrs
      rw [hself, Option.map_some']
      rw [hor] at hos
      rw [Option.some.inj hos]
    · rw [get_set_ne _ _ _ _ hrs, hos, Option.map_some']
  simp only [assignMove, getSz, getVersion, setSz, setVersion, setObj,
    Option.bind_eq_bind, Option.some_bind, Option.map_some', Option.pure_def,
    List.set_set, hself, hor, hos, hov, hsz, gt_iff_lt, lt_self_iff_false, if_false]

theorem assignMove_heap_eq (N : Nat) (w : World) (r s : Nat) (orr os : MyString) (p : Ptr)
    (hor : w.objs[r]? = some orr) (hos : w.objs[s]? = some os) (hne : r ≠ s)
    (hsz : 0 < os.sz) (hv : os.version = true) (hp : os.item = repr.lval p) :
    assignMove N r s w = some
      { heap := w.heap,
        objs := (w.objs.set s { sz := 0, item := repr.lval Ptr.null, version := true }).set r
          { sz := os.sz, item := repr.lval p, version := true } } := by
  have hself : ∀ x : MyString, (w.objs.set r x)[r]? = some x := fun x => get_set_self _ _ _ _ hor
  have hs1 : ∀ x : MyString, (w.objs.set r x)[s]? = some os := by
    intro x; rw [get_set_ne _ _ _ _ hne]; exact hos
  have hs2 : ∀ x y : MyString, ((w.objs.set r x).set s y)[s]? = some y :=
    fun x y => get_set_self _ _ _ _ (hs1 x)
  have hcomm : ∀ x y : MyString, (w.objs.set r x).set s y = (w.objs.set s y).set r x :=
    fun x y => List.set_comm _ _ _ hne
  simp only [assignMove, getSz, getVersion, getLvalData, setSz, setVersion, setLvalData, setObj,
    Option.bind_eq_bind, Option.some_bind, Option.map_some', Option.pure_def,
    List.set_set, hself, hs1, hs2, hor, hos, hv, hp, hsz, lvalData_lval,
    gt_iff_lt, if_true]
  rw [hcomm]

theorem assignMove_heap_self_eq (N : Nat) (w : World) (r : Nat) (o : MyString) (p : Ptr)
    (ho : w.objs[r]? = some o) (hsz : 0 < o.sz) (hv : o.version = true)
    (hp : o.item = repr.lval p) :
    assignMove N r r w = some
      { heap := w.heap,
        objs := w.objs.set r { sz := 0, item := repr.lval Ptr.null, version := true } } := by
  have hself : ∀ x : MyString, (w.objs.set r x)[r]? = some x := fun x => get_set_self _ _ _ _ ho
  simp only [assignMove, getSz, getVersion, getLvalData, setSz, setVersion, setLvalData, setObj,
    Option.bind_eq_bind, Option.some_bind, Option.map_some', Option.pure_def,
    List.set_set, hself, ho, hv, hp, hsz, lvalData_lval, gt_iff_lt, if_true]

theorem assignMove_inline_eq (N : Nat) (w : World) (r s : Nat) (orr os : MyString)
    (txt : List Nat)
    (hor : w.objs[r]? = some orr) (hos : w.objs[s]? = some os) (hne : r ≠ s)
    (hsz : 0 < os.sz) (hv : os.version = false)
    (hscan : strscan (svalData N os.item) = some txt)
    (hfit : txt.length + 1 ≤ (svalData N orr.item).length) :
    assignMove N r s w = some
      { heap := w.heap,
        objs := (w.objs.set s
            { sz := 0,
              item := repr.sval (List.replicate (min sizeof_sz N) (some 0) ++
                (svalData N os.item).drop (min sizeof_sz N)),
              version := false }).set r
          { sz := os.sz,
            item := repr.sval (cstring txt ++ (svalData N orr.item).drop (txt.length + 1)),
            version := false } } := by
  have hself : ∀ x : MyString, (w.objs.set r x)[r]? = some x := fun x => get_set_self _ _ _ _ hor
  have hs1 : ∀ x : MyString, (w.objs.set r x)[s]? = some os := by
    intro x; rw [get_set_ne _ _ _ _ hne]; exact hos
  have hs2 : ∀ x y : MyString, ((w.objs.set r x).set s y)[s]? = some y :=
    fun x y => get_set_self _ _ _ _ (hs1 x)
  have hcomm : ∀ x y : MyString, (w.objs.set r x).set s y = (w.objs.set s y).set r x :=
    fun x y => List.set_comm _ _ _ hne
  simp only [assignMove, getSz, getVersion, setSz, setVersion, setObj,
    Option.bind_eq_bind, Option.some_bind, Option.map_some', Option.pure_def,
    List.set_set, hself, hs1, hor, hos, hv, hsz, gt_iff_lt, if_true, if_false,
    Bool.false_eq_true]
  simp only [strcpy, readStr, writeStr, cellsAt, setCellsAt, strput, memsetSval, setSz, setObj,
    Option.bind_eq_bind, Option.some_bind, Option.map_some', Option.pure_def,
    List.set_set, hself, hs1, hs2, hscan, hfit, if_true]
  rw [hcomm]
  try simp only [hv]

theorem assignMove_inline_self_eq (N : Nat) (w : World) (r : Nat) (o : MyString)
    (txt : List Nat)
    (ho : w.objs[r]? = some o) (hsz : 0 < o.sz) (hv : o.version = false)
    (hscan : strscan (svalData N o.item) = some txt) :
    assignMove N r r w = some
      { heap := w.heap,
        objs := w.objs.set r
          { sz := 0,
            item := repr.sval (List.replicate (min sizeof_sz N) (some 0) ++
              (cstring txt ++ (svalData N o.item).drop (txt.length + 1)).drop (min sizeof_sz N)),
            version := false } } := by
  have hself : ∀ x : MyString, (w.objs.set r x)[r]? = some x := fun x => get_set_self _ _ _ _ ho
  have hfit : txt.length + 1 ≤ (svalData N o.item).length := strscan_length_lt _ _ hscan
  simp only [assignMove, getSz, getVersion, setSz, setVersion, setObj,
    Option.bind_eq_bind, Option.some_bind, Option.map_some', Option.pure_def,
    List.set_set, hself, ho, hv, hsz, gt_iff_lt, if_true, if_false,
    Bool.false_eq_true]
  simp only [strcpy, readStr, writeStr, cellsAt, setCellsAt, strput, memsetSval, setSz, setObj,
    Option.bind_eq_bind, Option.some_bind, Option.map_some', Option.pure_def,
    List.set_set, hself, hscan, hfit, svalData_sval, if_true]

theorem writeChar_inline_eq (N : Nat) (w : World) (s i ch : Nat) (o : MyString)
    (ho : w.objs[s]? = some o) (hv : o.version = false) (hi : i < o.sz)
    (hic : i < (svalData N o.item).length) :
    writeChar N s i ch w = some
      { heap := w.heap,
        objs := w.objs.set s
          { sz := o.sz, item := repr.sval ((svalData N o.item).set i (some ch)),
            version := o.version } } := by
  simp only [writeChar, opIndex, ho, hv, hi, store, cellsAt, setCellsAt, setObj, hic,
    Option.some_bind, Option.map_some', if_true, if_false, Bool.false_eq_true]

/-! ## The invariant is kept by every operation -/

theorem inv_set (N : Nat) (w : World) (H1 : List (Option (List Cell))) (t : Nat)
    (ot o1 : MyString) (hG : Inv N w) (hot : w.objs[t]? = some ot)
    (hheap : ∀ a, a < w.heap.length → ot.item ≠ repr.lval (Ptr.heap a) → H1[a]? = w.heap[a]?)
    (hlen : w.heap.length ≤ H1.length)
    (hloc : ObjOK N H1 o1)
    (huniq : ∀ a, o1.item = repr.lval (Ptr.heap a) → ∀ (j : Nat) (oj : MyString), j ≠ t →
      w.objs[j]? = some oj → oj.item ≠ repr.lval (Ptr.heap a)) :
    Inv N { heap := H1, objs := w.objs.set t o1 } :=
  inv_update N w { heap := H1, objs := w.objs.set t o1 } t o1 hG
    (get_set_self _ _ _ _ hot) (fun _ hj => get_set_ne _ _ _ _ (Ne.symm hj))
    (fun a ha h => hheap a ha (h ot hot)) hlen hloc huniq

theorem inv_push (N : Nat) (w : World) (H1 : List (Option (List Cell)))
    (o1 : MyString) (hG : Inv N w)
    (hheap : ∀ a, a < w.heap.length → H1[a]? = w.heap[a]?)
    (hlen : w.heap.length ≤ H1.length)
    (hloc : ObjOK N H1 o1)
    (huniq : ∀ a, o1.item = repr.lval (Ptr.heap a) → ∀ (j : Nat) (oj : MyString),
      w.objs[j]? = some oj → oj.item ≠ repr.lval (Ptr.heap a)) :
    Inv N { heap := H1, objs := w.objs ++ [o1] } :=
  inv_update N w { heap := H1, objs := w.objs ++ [o1] } w.objs.length o1 hG
    (get_concat_new _ _) (fun _ hj => get_concat_ne _ _ _ hj)
    (fun a ha _ => hheap a ha) hlen hloc (fun a ha j oj _ hj => huniq a ha j oj hj)

theorem objOK_empty (N : Nat) (heap : List (Option (List Cell))) (it : repr) (v : Bool)
    (hN : 1 ≤ N) (hit : ∀ a, it = repr.lval (Ptr.heap a) → a < heap.length)
    (hf : (svalData N it).length = N) :
    ObjOK N heap { sz := 0, item := it, version := v } := by
  unfold ObjOK
  refine ⟨fun _ => hN, fun _ => Or.inr rfl, ?_, ?_, hit, hf⟩
  · intro h; exact absurd h (Nat.lt_irrefl 0)
  · intro h; exact absurd h (Nat.lt_irrefl 0)

theorem objOK_inline (N : Nat) (heap : List (Option (List Cell))) (txt : List Nat)
    (rest : List Cell) (hlt : txt.length < N) (hz : ∀ c ∈ txt, c ≠ 0)
    (hf : (cstring txt ++ rest).length = N) :
    ObjOK N heap
      { sz := txt.length, item := repr.sval (cstring txt ++ rest), version := false } := by
  unfold ObjOK
  refine ⟨fun _ => hlt, ?_, ?_, ?_, ?_, hf⟩
  · intro h; exact Bool.noConfusion h
  · intro _ h; exact Bool.noConfusion h
  · intro _ _; exact ⟨txt, rest, rfl, rfl, hz⟩
  · intro a h; exact absurd h (by simp)

theorem objOK_heap (N : Nat) (heap : List (Option (List Cell))) (txt : List Nat) (a : Nat)
    (hge : N ≤ txt.length) (hz : ∀ c ∈ txt, c ≠ 0)
    (hb : heap[a]? = some (some (cstring txt))) :
    ObjOK N heap { sz := txt.length, item := repr.lval (Ptr.heap a), version := true } := by
  unfold ObjOK
  refine ⟨?_, fun _ => Or.inl hge, ?_, ?_, ?_, ?_⟩
  · intro h; exact Bool.noConfusion h
  · intro _ _; exact ⟨a, txt, rfl, hb, rfl, hz⟩
  · intro _ h; exact Bool.noConfusion h
  · intro b h
    have hab : b = a := by injection h with h1; injection h1 with h2; exact h2.symm
    rw [hab]; exact ne_length_of_some _ _ _ hb
  · simp

theorem inv_default (N : Nat) (hN : 1 ≤ N) (w : World) (hG : Inv N w) :
    Inv N (ctorDefault w).1 :=
  inv_push N w w.heap _ hG (fun _ _ => rfl) (Nat.le_refl _)
    (objOK_empty N w.heap repr.indeterminate false hN (fun a h => by cases h) (by simp))
    (fun a h => by cases h)

theorem inv_ptr_lt (N : Nat) (w : World) (hG : Inv N w) (j a : Nat) (oj : MyString)
    (hj : w.objs[j]? = some oj) (h : oj.item = repr.lval (Ptr.heap a)) : a < w.heap.length :=
  (hG.1 j oj hj).2.2.2.2.1 a h

theorem inv_fresh (N : Nat) (w : World) (hG : Inv N w) (j : Nat) (oj : MyString)
    (hj : w.objs[j]? = some oj) : oj.item ≠ repr.lval (Ptr.heap w.heap.length) :=
  fun h => Nat.lt_irrefl _ (inv_ptr_lt N w hG j _ oj hj h)

theorem ctorCStr_none (N : Nat) (str : List Cell) (w : World) (h : strscan str = none) :
    ctorCStr N str w = none := by
  simp only [ctorCStr, strlen, h, Option.map_none', Option.bind_eq_bind, Option.none_bind]

theorem inv_fromText (N : Nat) (hN : 1 ≤ N) (w w1 : World) (str : List Cell) (hG : Inv N w)
    (he : exec N (Op.fromText str) w = some w1) : Inv N w1 := by
  cases hT : strscan str with
  | none =>
    simp only [exec, ctorCStr_none N str w hT, Option.map_none'] at he
    cases he
  | some T =>
    obtain ⟨hz, -⟩ := strscan_eq_some str T hT
    have hc : ctorCStr N str w = ctorCStr N (cstring T) w :=
      ctorCStr_congr N str (cstring T) w (by rw [hT, strscan_cstring T hz])
    simp only [exec, hc, ctorCStr_eq N T w hz, Option.map_some', Option.some.injEq] at he
    subst he
    by_cases h0 : T.length = 0
    · rw [if_pos h0]
      exact inv_push N w w.heap _ hG (fun _ _ => rfl) (Nat.le_refl _)
        (objOK_empty N w.heap repr.indeterminate _ hN (fun a h => by cases h) (by simp))
        (fun a h => by cases h)
    · rw [if_neg h0]
      by_cases hlt : T.length < N
      · rw [if_pos hlt]
        exact inv_push N w w.heap _ hG (fun _ _ => rfl) (Nat.le_refl _)
          (objOK_inline N w.heap T _ hlt hz (by
            rw [List.length_append, cstring_length, List.length_replicate]; omega))
          (fun a h => by cases h)
      · rw [if_neg hlt]
        refine inv_push N w _ _ hG (fun a ha => List.getElem?_append_left ha)
          (by rw [List.length_append]; omega)
          (objOK_heap N _ T w.heap.length (by omega) hz (get_concat_new _ _)) ?_
        intro a ha j oj hj
        have hab : a = w.heap.length := by
          injection ha with h1; injection h1 with h2; exact h2.symm
        rw [hab]; exact inv_fresh N w hG j oj hj

theorem objOK_heap_data (N : Nat) (heap : List (Option (List Cell))) (o : MyString)
    (h : ObjOK N heap o) (hsz : 0 < o.sz) (hv : o.version = true) :
    ∃ a txt, o.item = repr.lval (Ptr.heap a) ∧ heap[a]? = some (some (cstring txt)) ∧
      txt.length = o.sz ∧ (∀ c ∈ txt, c ≠ 0) ∧ N ≤ txt.length := by
  obtain ⟨-, hb, hc, -, -, -⟩ := h
  obtain ⟨a, txt, h1, h2, h3, h4⟩ := hc hsz hv
  refine ⟨a, txt, h1, h2, h3, h4, ?_⟩
  rcases hb hv with h5 | h5
  · omega
  · omega

theorem objOK_inline_data (N : Nat) (heap : List (Option (List Cell))) (o : MyString)
    (h : ObjOK N heap o) (hsz : 0 < o.sz) (hv : o.version = false) :
    ∃ txt rest, o.item = repr.sval (cstring txt ++ rest) ∧ txt.length = o.sz ∧
      (∀ c ∈ txt, c ≠ 0) ∧ txt.length < N ∧ strscan (svalData N o.item) = some txt ∧
      (cstring txt ++ rest).length = N := by
  obtain ⟨ha, -, -, hd, -, hf⟩ := h
  obtain ⟨txt, rest, h1, h2, h3⟩ := hd hsz hv
  refine ⟨txt, rest, h1, h2, h3, ?_, ?_, ?_⟩
  · have := ha hv; omega
  · rw [h1, svalData_sval]
    unfold cstring
    rw [List.append_assoc]
    exact strscan_text txt h3 _
  · rw [h1, svalData_sval] at hf; exact hf

theorem objOK_arr (N : Nat) (heap : List (Option (List Cell))) (o : MyString)
    (h : ObjOK N heap o) : (svalData N o.item).length = N := h.2.2.2.2.2

theorem zeroed_length (N n : Nat) (cells : List Cell) (h : cells.length = N) :
    (List.replicate (min n N) (some 0) ++ cells.drop (min n N)).length = N := by
  rw [List.length_append, List.length_replicate, List.length_drop, h]
  omega

theorem inv_copy (N : Nat) (hN : 1 ≤ N) (w w1 : World) (s : Nat) (hG : Inv N w)
    (he : exec N (Op.copy s) w = some w1) : Inv N w1 := by
  cases hos : w.objs[s]? with
  | none =>
    simp only [exec, ctorCopy, getSz, hos, Option.map_none', Option.bind_eq_bind,
      Option.none_bind] at he
    cases he
  | some o =>
    have hO := hG.1 s o hos
    rcases Nat.eq_zero_or_pos o.sz with h0 | h0
    · simp only [exec, ctorCopy_empty_eq N w s o hos h0, Option.map_some',
        Option.some.injEq] at he
      subst he
      exact inv_push N w w.heap _ hG (fun _ _ => rfl) (Nat.le_refl _)
        (objOK_empty N w.heap repr.indeterminate _ hN (fun a h => by cases h) (by simp))
        (fun a h => by cases h)
    · cases hv : o.version with
      | true =>
        obtain ⟨a, txt, hit, hb, hl, hz, hge⟩ := objOK_heap_data N w.heap o hO h0 hv
        have hread : readStr N w (Ptr.heap a) = some txt := by
          simp only [readStr, cellsAt, hb, Option.some_bind, strscan_cstring txt hz]
        simp only [exec, ctorCopy_heap_eq N w s o (Ptr.heap a) txt hos h0 hv hit hread
          (Nat.le_of_eq hl), Option.map_some', Option.some.injEq] at he
        subst he
        rw [← hl, Nat.sub_self, List.replicate_zero, List.append_nil]
        refine inv_push N w _ _ hG (fun a ha => List.getElem?_append_left ha)
          (by rw [List.length_append]; omega)
          (objOK_heap N _ txt w.heap.length hge hz (get_concat_new _ _)) ?_
        intro b hb1 j oj hj
        have hab : b = w.heap.length := by
          injection hb1 with h1; injection h1 with h2; exact h2.symm
        rw [hab]; exact inv_fresh N w hG j oj hj
      | false =>
        obtain ⟨txt, rest, hit, hl, hz, hlt, hscan, hf⟩ :=
          objOK_inline_data N w.heap o hO h0 hv
        simp only [exec, ctorCopy_inline_eq N w s o txt hos h0 hv hscan (by omega),
          Option.map_some', Option.some.injEq] at he
        subst he
        rw [← hl]
        exact inv_push N w w.heap _ hG (fun _ _ => rfl) (Nat.le_refl _)
          (objOK_inline N w.heap txt _ hlt hz (by
            rw [List.length_append, cstring_length, List.length_replicate]; omega))
          (fun a h => by cases h)

theorem inv_move (N : Nat) (hN : 1 ≤ N) (w w1 : World) (s : Nat) (hG : Inv N w)
    (he : exec N (Op.move s) w = some w1) : Inv N w1 := by
  cases hos : w.objs[s]? with
  | none =>
    simp only [exec, ctorMove, getSz, hos, Option.map_none', Option.bind_eq_bind,
      Option.none_bind] at he
    cases he
  | some o =>
    have hO := hG.1 s o hos
    rcases Nat.eq_zero_or_pos o.sz with h0 | h0
    · simp only [exec, ctorMove_empty_eq N w s o hos h0, Option.map_some',
        Option.some.injEq] at he
      subst he
      exact inv_push N w w.heap _ hG (fun _ _ => rfl) (Nat.le_refl _)
        (objOK_empty N w.heap repr.indeterminate _ hN (fun a h => by cases h) (by simp))
        (fun a h => by cases h)
    · cases hv : o.version with
      | true =>
        obtain ⟨a, txt, hit, hb, hl, hz, hge⟩ := objOK_heap_data N w.heap o hO h0 hv
        simp only [exec, ctorMove_heap_eq N w s o (Ptr.heap a) hos h0 hv hit,
          Option.map_some', Option.some.injEq] at he
        subst he
        rw [← hl]
        have hmid : Inv N (World.mk w.heap
            (w.objs.set s (MyString.mk 0 (repr.lval Ptr.null) true))) :=
          inv_set N w w.heap s o _ hG hos (fun _ _ _ => rfl) (Nat.le_refl _)
            (objOK_empty N w.heap _ _ hN (fun a h => by cases h) (by simp))
            (fun a h => by cases h)
        refine inv_push N _ w.heap _ hmid (fun _ _ => rfl) (Nat.le_refl _)
          (objOK_heap N _ txt a hge hz hb) ?_
        intro b hb1 j oj hj
        have hab : b = a := by
          injection hb1 with h1; injection h1 with h2; exact h2.symm
        rw [hab]
        by_cases hjs : j = s
        · rw [hjs] at hj
          have hj2 : (w.objs.set s (MyString.mk 0 (repr.lval Ptr.null) true))[s]?
              = some oj := hj
          rw [get_set_self _ _ _ _ hos] at hj2
          rw [← Option.some.inj hj2]
          intro h; cases h
        · have hj2 : (w.objs.set s (MyString.mk 0 (repr.lval Ptr.null) true))[j]?
              = some oj := hj
          rw [get_set_ne _ _ _ _ (Ne.symm hjs)] at hj2
          exact hG.2 s j o oj a (Ne.symm hjs) hos hj2 hit
      | false =>
        obtain ⟨txt, rest, hit, hl, hz, hlt, hscan, hf⟩ :=
          objOK_inline_data N w.heap o hO h0 hv
        simp only [exec, ctorMove_inline_eq N w s o txt hos h0 hv hscan (by omega),
          Option.map_some', Option.some.injEq] at he
        subst he
        rw [← hl]
        have hmid : Inv N (World.mk w.heap
            (w.objs.set s (MyString.mk 0
              (repr.sval (List.replicate (min sizeof_sz N) (some 0) ++
                (svalData N o.item).drop (min sizeof_sz N))) false))) :=
          inv_set N w w.heap s o _ hG hos (fun _ _ _ => rfl) (Nat.le_refl _)
            (objOK_empty N w.heap _ _ hN (fun a h => by cases h)
              (by rw [svalData_sval]; exact zeroed_length N _ _ (objOK_arr N _ o hO)))
            (fun a h => by cases h)
        exact inv_push N _ w.heap _ hmid (fun _ _ => rfl) (Nat.le_refl _)
          (objOK_inline N w.heap txt _ hlt hz (by
            rw [List.length_append, cstring_length, List.length_replicate]; omega))
          (fun a h => by cases h)

theorem head_frame (w : World) (WH : List (Option (List Cell))) (orr : MyString)
    (h : ((orr.version = false ∨ orr.item = repr.lval Ptr.null) ∧ WH = w.heap) ∨
      ∃ b cb, orr.version = true ∧ orr.item = repr.lval (Ptr.heap b) ∧
        w.heap[b]? = some (some cb) ∧ WH = w.heap.set b none) :
    WH.length = w.heap.length ∧
      ∀ a, orr.item ≠ repr.lval (Ptr.heap a) → WH[a]? = w.heap[a]? := by
  rcases h with ⟨-, h⟩ | ⟨b, cb, -, hit, -, h⟩
  · rw [h]; exact ⟨rfl, fun _ _ => rfl⟩
  · rw [h]
    refine ⟨List.length_set _ _ _, ?_⟩
    intro a ha
    have hne : b ≠ a := by
      intro hba; apply ha; rw [hit, hba]
    exact get_set_ne _ _ _ _ hne

theorem strput_length (N : Nat) (txt : List Nat) (cells : List Cell)
    (h : cells.length = N) (hlt : txt.length < N) :
    (cstring txt ++ cells.drop (txt.length + 1)).length = N := by
  rw [List.length_append, cstring_length, List.length_drop, h]
  omega

theorem inv_assignCopy (N : Nat) (hN : 1 ≤ N) (w w1 : World) (r s : Nat) (hG : Inv N w)
    (he : exec N (Op.assignCopy r s) w = some w1) : Inv N w1 := by
  simp only [exec, assignCopy_split] at he
  cases hW : assignCopyHead r s w with
  | none => rw [hW] at he; cases he
  | some W =>
    rw [hW, Option.some_bind] at he
    obtain ⟨orr, os, hor, hos, hWo, hWh⟩ := assignCopyHead_some r s w W hW
    obtain ⟨hWlen, hWfr⟩ := head_frame w W.heap orr hWh
    have hOr := hG.1 r orr hor
    have hOs := hG.1 s os hos
    have hot : W.objs[r]? = some { sz := os.sz, item := orr.item, version := os.version } := by
      rw [hWo]; exact get_set_self _ _ _ _ hor
    have huq : ∀ a, orr.item = repr.lval (Ptr.heap a) → ∀ (j : Nat) (oj : MyString), j ≠ r →
        w.objs[j]? = some oj → oj.item ≠ repr.lval (Ptr.heap a) :=
      fun a ha j oj hj hoj => hG.2 r j orr oj a (Ne.symm hj) hor hoj ha
    rcases Nat.eq_zero_or_pos os.sz with h0 | h0
    · rw [copyBody_empty N r s W _ hot h0] at he
      have hw1 : w1 = { heap := W.heap,
                        objs := w.objs.set r { sz := 0, item := orr.item, version := os.version } } := by
        rw [← Option.some.inj he, ← h0, ← hWo]
      rw [hw1]
      exact inv_set N w W.heap r orr _ hG hor (fun a _ ha => hWfr a ha) (Nat.le_of_eq hWlen.symm)
        (objOK_empty N W.heap orr.item _ hN
          (fun a ha => by rw [hWlen]; exact inv_ptr_lt N w hG r a orr hor ha)
          (objOK_arr N _ orr hOr))
        huq
    · cases hv : os.version with
      | true =>
        by_cases hrs : r = s
        · subst hrs
          rw [copyBody_self_heap N r W _ hot h0 hv] at he
          cases he
        · obtain ⟨a, txt, hit, hb, hl, hz, hge⟩ := objOK_heap_data N w.heap os hOs h0 hv
          have hsrc : W.heap[a]? = some (some (cstring txt)) := by
            rw [hWfr a (fun h => hG.2 r s orr os a hrs hor hos h hit)]; exact hb
          have hos1 : W.objs[s]? = some os := by
            rw [hWo, get_set_ne _ _ _ _ hrs]; exact hos
          rw [copyBody_heap N r s a W _ os (cstring txt) txt hot hos1 hrs h0 hv hit hsrc
            (strscan_cstring txt hz) (Nat.le_of_eq hl)] at he
          have hw1 : w1 = { heap := W.heap ++ [some (cstring txt)],
                            objs := w.objs.set r
                              { sz := txt.length, item := repr.lval (Ptr.heap W.heap.length),
                                version := true } } := by
            rw [← Option.some.inj he, hWo, List.set_set]
            simp only [hl, Nat.sub_self, List.replicate_zero, List.append_nil]
          rw [hw1]
          refine inv_set N w _ r orr _ hG hor ?_ ?_
            (objOK_heap N _ txt W.heap.length hge hz (get_concat_new _ _)) ?_
          · intro b hb1 hb2
            rw [List.getElem?_append_left (by rw [hWlen]; exact hb1)]
            exact hWfr b hb2
          · rw [List.length_append, hWlen]; omega
          · intro b hb1 j oj _ hoj
            have hab : b = w.heap.length := by
              injection hb1 with h1; injection h1 with h2; rw [← h2, hWlen]
            rw [hab]; exact inv_fresh N w hG j oj hoj
      | false =>
        obtain ⟨txt, rest, hit, hl, hz, hlt, hscan, hf⟩ :=
          objOK_inline_data N w.heap os hOs h0 hv
        have hos1 : ∃ os1, W.objs[s]? = some os1 ∧ os1.item = os.item := by
          by_cases hrs : r = s
          · subst hrs
            rw [hor] at hos
            exact ⟨_, hot, by rw [Option.some.inj hos]⟩
          · exact ⟨os, by rw [hWo, get_set_ne _ _ _ _ hrs]; exact hos, rfl⟩
        obtain ⟨os1, hos1, hit1⟩ := hos1
        have harr := objOK_arr N _ orr hOr
        rw [copyBody_inline N r s W _ os1 txt hot hos1 h0 hv (by rw [hit1]; exact hscan)
          (by rw [harr]; omega)] at he
        have hw1 : w1 = { heap := W.heap,
                          objs := w.objs.set r
                            { sz := txt.length,
                              item := repr.sval (cstring txt ++
                                (svalData N orr.item).drop (txt.length + 1)),
                              version := false } } := by
          rw [← Option.some.inj he, hWo, List.set_set]
          simp only [hl, hv]
        rw [hw1]
        exact inv_set N w W.heap r orr _ hG hor (fun a _ ha => hWfr a ha)
          (Nat.le_of_eq hWlen.symm)
          (objOK_inline N W.heap txt _ hlt hz (strput_length N txt _ harr hlt))
          (fun a h => by cases h)

theorem inv_assignText (N : Nat) (hN : 1 ≤ N) (w w1 : World) (r : Nat) (str : List Cell)
    (hG : Inv N w) (he : exec N (Op.assignText r str) w = some w1) : Inv N w1 := by
  simp only [exec, assignCStr_split] at he
  cases hW : assignCStrHead r str w with
  | none => rw [hW] at he; cases he
  | some W =>
    rw [hW, Option.some_bind] at he
    obtain ⟨orr, T, hT, hor, hWo, hWh⟩ := assignCStrHead_some r str w W hW
    obtain ⟨hWlen, hWfr⟩ := head_frame w W.heap orr hWh
    obtain ⟨hz, -⟩ := strscan_eq_some str T hT
    have hOr := hG.1 r orr hor
    have harr := objOK_arr N _ orr hOr
    have hot : W.objs[r]? = some { sz := T.length, item := orr.item, version := orr.version } := by
      rw [hWo]; exact get_set_self _ _ _ _ hor
    have huq : ∀ a, orr.item = repr.lval (Ptr.heap a) → ∀ (j : Nat) (oj : MyString), j ≠ r →
        w.objs[j]? = some oj → oj.item ≠ repr.lval (Ptr.heap a) :=
      fun a ha j oj hj hoj => hG.2 r j orr oj a (Ne.symm hj) hor hoj ha
    rw [textBody_eq N r str T W _ hN hT hot rfl harr, hWo] at he
    have he1 := Option.some.inj he
    simp only [List.set_set] at he1
    by_cases h0 : T.length = 0
    · rw [if_pos h0] at he1
      rw [← he1]
      exact inv_set N w W.heap r orr _ hG hor (fun a _ ha => hWfr a ha) (Nat.le_of_eq hWlen.symm)
        (objOK_empty N W.heap orr.item _ hN
          (fun a ha => by rw [hWlen]; exact inv_ptr_lt N w hG r a orr hor ha) harr)
        huq
    · rw [if_neg h0] at he1
      by_cases hlt : T.length < N
      · rw [if_pos hlt] at he1
        rw [← he1]
        exact inv_set N w W.heap r orr _ hG hor (fun a _ ha => hWfr a ha)
          (Nat.le_of_eq hWlen.symm)
          (objOK_inline N W.heap T _ hlt hz (strput_length N T _ harr hlt))
          (fun a h => by cases h)
      · rw [if_neg hlt] at he1
        rw [← he1]
        refine inv_set N w _ r orr _ hG hor ?_ ?_
          (objOK_heap N _ T W.heap.length (by omega) hz (get_concat_new _ _)) ?_
        · intro b hb1 hb2
          rw [List.getElem?_append_left (by rw [hWlen]; exact hb1)]
          exact hWfr b hb2
        · rw [List.length_append, hWlen]; omega
        · intro b hb1 j oj _ hoj
          have hab : b = w.heap.length := by
            injection hb1 with h1; injection h1 with h2; rw [← h2, hWlen]
          rw [hab]; exact inv_fresh N w hG j oj hoj

theorem inv_assignMove (N : Nat) (hN : 1 ≤ N) (w w1 : World) (r s : Nat) (hG : Inv N w)
    (he : exec N (Op.assignMove r s) w = some w1) : Inv N w1 := by
  cases hos : w.objs[s]? with
  | none =>
    simp only [exec, assignMove, getSz, hos, Option.map_none', Option.bind_eq_bind,
      Option.none_bind] at he
    cases he
  | some os =>
    cases hor : w.objs[r]? with
    | none =>
      simp only [exec, assignMove, getSz, setSz, hos, hor, Option.map_none', Option.map_some',
        Option.bind_eq_bind, Option.none_bind, Option.some_bind] at he
      cases he
    | some orr =>
      have hOr := hG.1 r orr hor
      have hOs := hG.1 s os hos
      have harr := objOK_arr N _ orr hOr
      have huq : ∀ a, orr.item = repr.lval (Ptr.heap a) → ∀ (j : Nat) (oj : MyString), j ≠ r →
          w.objs[j]? = some oj → oj.item ≠ repr.lval (Ptr.heap a) :=
        fun a ha j oj hj hoj => hG.2 r j orr oj a (Ne.symm hj) hor hoj ha
      rcases Nat.eq_zero_or_pos os.sz with h0 | h0
      · simp only [exec, assignMove_empty_eq N w r s orr os hor hos h0,
          Option.some.injEq] at he
        rw [← he]
        exact inv_set N w w.heap r orr _ hG hor (fun _ _ _ => rfl) (Nat.le_refl _)
          (objOK_empty N w.heap orr.item _ hN
            (fun a ha => inv_ptr_lt N w hG r a orr hor ha) harr)
          huq
      · cases hv : os.version with
        | true =>
          obtain ⟨a, txt, hit, hb, hl, hz, hge⟩ := objOK_heap_data N w.heap os hOs h0 hv
          by_cases hrs : r = s
          · subst hrs
            simp only [exec, assignMove_heap_self_eq N w r os (Ptr.heap a) hos h0 hv hit,
              Option.some.injEq] at he
            rw [← he]
            exact inv_set N w w.heap r os _ hG hos (fun _ _ _ => rfl) (Nat.le_refl _)
              (objOK_empty N w.heap _ _ hN (fun a h => by cases h) (by simp))
              (fun a h => by cases h)
          · simp only [exec, assignMove_heap_eq N w r s orr os (Ptr.heap a) hor hos hrs h0 hv hit,
              Option.some.injEq] at he
            rw [← he, ← hl]
            have hmid : Inv N (World.mk w.heap
                (w.objs.set s (MyString.mk 0 (repr.lval Ptr.null) true))) :=
              inv_set N w w.heap s os _ hG hos (fun _ _ _ => rfl) (Nat.le_refl _)
                (objOK_empty N w.heap _ _ hN (fun a h => by cases h) (by simp))
                (fun a h => by cases h)
            have hmr : (World.mk w.heap
                (w.objs.set s (MyString.mk 0 (repr.lval Ptr.null) true))).objs[r]? = some orr := by
              show (w.objs.set s (MyString.mk 0 (repr.lval Ptr.null) true))[r]? = some orr
              rw [get_set_ne _ _ _ _ (Ne.symm hrs)]; exact hor
            refine inv_set N _ w.heap r orr _ hmid hmr (fun _ _ _ => rfl) (Nat.le_refl _)
              (objOK_heap N _ txt a hge hz hb) ?_
            intro b hb1 j oj hjr hj
            have hab : b = a := by
              injection hb1 with h1; injection h1 with h2; exact h2.symm
            rw [hab]
            by_cases hjs : j = s
            · rw [hjs] at hj
              have hj2 : (w.objs.set s (MyString.mk 0 (repr.lval Ptr.null) true))[s]?
                  = some oj := hj
              rw [get_set_self _ _ _ _ hos] at hj2
              rw [← Option.some.inj hj2]
              intro h; cases h
            · have hj2 : (w.objs.set s (MyString.mk 0 (repr.lval Ptr.null) true))[j]?
                  = some oj := hj
              rw [get_set_ne _ _ _ _ (Ne.symm hjs)] at hj2
              exact hG.2 s j os oj a (Ne.symm hjs) hos hj2 hit
        | false =>
          obtain ⟨txt, rest, hit, hl, hz, hlt, hscan, hf⟩ :=
            objOK_inline_data N w.heap os hOs h0 hv
          by_cases hrs : r = s
          · subst hrs
            simp only [exec, assignMove_inline_self_eq N w r os txt hos h0 hv hscan,
              Option.some.injEq] at he
            rw [← he]
            exact inv_set N w w.heap r os _ hG hos (fun _ _ _ => rfl) (Nat.le_refl _)
              (objOK_empty N w.heap _ _ hN (fun a h => by cases h)
                (by
                  rw [svalData_sval]
                  exact zeroed_length N _ _
                    (strput_length N txt _ (objOK_arr N _ os hOs) hlt)))
              (fun a h => by cases h)
          · simp only [exec, assignMove_inline_eq N w r s orr os txt hor hos hrs h0 hv hscan
              (by rw [harr]; omega), Option.some.injEq] at he
            rw [← he, ← hl]
            have hmid : Inv N (World.mk w.heap
                (w.objs.set s (MyString.mk 0
                  (repr.sval (List.replicate (min sizeof_sz N) (some 0) ++
                    (svalData N os.item).drop (min sizeof_sz N))) false))) :=
              inv_set N w w.heap s os _ hG hos (fun _ _ _ => rfl) (Nat.le_refl _)
                (objOK_empty N w.heap _ _ hN (fun a h => by cases h)
                  (by rw [svalData_sval]; exact zeroed_length N _ _ (objOK_arr N _ os hOs)))
                (fun a h => by cases h)
            have hmr : (World.mk w.heap
                (w.objs.set s (MyString.mk 0
                  (repr.sval (List.replicate (min sizeof_sz N) (some 0) ++
                    (svalData N os.item).drop (min sizeof_sz N))) false))).objs[r]? = some orr := by
              show (w.objs.set s _)[r]? = some orr
              rw [get_set_ne _ _ _ _ (Ne.symm hrs)]; exact hor
            exact inv_set N _ w.heap r orr _ hmid hmr (fun _ _ _ => rfl) (Nat.le_refl _)
              (objOK_inline N w.heap txt _ hlt hz (strput_length N txt _ harr hlt))
              (fun a h => by cases h)

theorem cstring_set (txt : List Nat) (rest : List Cell) (i c : Nat) (hi : i < txt.length) :
    (cstring txt ++ rest).set i (some c) = cstring (txt.set i c) ++ rest := by
  have h1 : i < (cstring txt).length := by rw [cstring_length]; omega
  have h2 : i < (txt.map some).length := by rw [List.length_map]; exact hi
  rw [List.set_append_left _ _ h1]
  unfold cstring
  rw [List.set_append_left _ _ h2, List.map_set]

theorem set_nonzero (txt : List Nat) (i c : Nat) (hc : c ≠ 0) (hz : ∀ x ∈ txt, x ≠ 0) :
    ∀ x ∈ txt.set i c, x ≠ 0 := by
  intro x hx
  rcases List.mem_or_eq_of_mem_set hx with h | h
  · exact hz x h
  · rw [h]; exact hc

theorem inv_write (N : Nat) (w w1 : World) (s pos c : Nat) (hc : c ≠ 0) (hG : Inv N w)
    (he : exec N (Op.write s pos c) w = some w1) : Inv N w1 := by
  cases hos : w.objs[s]? with
  | none =>
    simp only [exec, writeChar, opIndex, hos] at he
    cases he
  | some o =>
    have hO := hG.1 s o hos
    by_cases hi : pos < o.sz
    · have h0 : 0 < o.sz := by omega
      cases hv : o.version with
      | true =>
        obtain ⟨a, txt, hit, hb, hl, hz, hge⟩ := objOK_heap_data N w.heap o hO h0 hv
        have hic : pos < (cstring txt).length := by rw [cstring_length]; omega
        simp only [exec, writeChar_heap_eq N w s pos c a o (cstring txt) hos hv hit hi hb hic,
          Option.some.injEq] at he
        rw [← he]
        have hset := cstring_set txt [] pos c (by omega)
        rw [List.append_nil, List.append_nil] at hset
        rw [hset]
        have hb1 : (w.heap.set a (some (cstring (txt.set pos c))))[a]? =
            some (some (cstring (txt.set pos c))) := get_set_self _ _ _ _ hb
        have hloc : ObjOK N (w.heap.set a (some (cstring (txt.set pos c)))) o := by
          obtain ⟨ha1, hb2, -, -, he1, hf1⟩ := hO
          refine ⟨ha1, hb2, ?_, ?_, ?_, hf1⟩
          · intro _ _
            exact ⟨a, txt.set pos c, hit, hb1, by rw [List.length_set]; exact hl,
              set_nonzero txt pos c hc hz⟩
          · intro _ h; rw [hv] at h; exact Bool.noConfusion h
          · intro b hb3; rw [List.length_set]; exact he1 b hb3
        refine inv_update N w _ s o hG hos (fun _ _ => rfl) ?_
          (by
            show w.heap.length ≤ (w.heap.set a (some (cstring (txt.set pos c)))).length
            rw [List.length_set])
          hloc
          (fun b hb3 j oj hj hoj => hG.2 s j o oj b (Ne.symm hj) hos hoj hb3)
        intro b _ hb3
        have hne : a ≠ b := by
          intro hab; exact hb3 o hos (by rw [hit, hab])
        exact get_set_ne _ _ _ _ hne
      | false =>
        obtain ⟨txt, rest, hit, hl, hz, hlt, hscan, hf⟩ :=
          objOK_inline_data N w.heap o hO h0 hv
        have hic : pos < (svalData N o.item).length := by
          rw [objOK_arr N _ o hO]; omega
        simp only [exec, writeChar_inline_eq N w s pos c o hos hv hi hic,
          Option.some.injEq] at he
        rw [← he, hit, svalData_sval, cstring_set txt rest pos c (by omega), hv]
        have hl2 : o.sz = (txt.set pos c).length := by rw [List.length_set]; exact hl.symm
        rw [hl2]
        exact inv_set N w w.heap s o _ hG hos (fun _ _ _ => rfl) (Nat.le_refl _)
          (objOK_inline N w.heap (txt.set pos c) rest (by rw [List.length_set]; exact hlt)
            (set_nonzero txt pos c hc hz)
            (by
              rw [List.length_append, cstring_length, List.length_set]
              rw [List.length_append, cstring_length] at hf
              exact hf))
          (fun a h => by cases h)
    · simp only [exec, writeChar, opIndex, hos, hi, if_false] at he
      cases he

theorem inv_exec (N : Nat) (hN : 1 ≤ N) (w w1 : World) (op : Op) (hop : op.nulFree)
    (hG : Inv N w) (he : exec N op w = some w1) : Inv N w1 := by
  cases op with
  | default =>
    simp only [exec, Option.some.injEq] at he
    rw [← he]; exact inv_default N hN w hG
  | fromText str => exact inv_fromText N hN w w1 str hG he
  | copy other => exact inv_copy N hN w w1 other hG he
  | move other => exact inv_move N hN w w1 other hG he
  | assignCopy this other => exact inv_assignCopy N hN w w1 this other hG he
  | assignMove this other => exact inv_assignMove N hN w w1 this other hG he
  | assignText this str => exact inv_assignText N hN w w1 this str hG he
  | write s pos c => exact inv_write N w w1 s pos c hop hG he

theorem reachable_inv (N : Nat) (hN : 1 ≤ N) (w : World) (h : Reachable N w) : Inv N w := by
  induction h with
  | start => exact inv_empty N
  | step w w1 op _ hop he ih => exact inv_exec N hN w w1 op hop ih he

theorem reachable_abcWorld : Reachable 2 abcWorld :=
  Reachable.step World.empty abcWorld (Op.fromText (cstring [97, 98, 99])) Reachable.start
    trivial rfl

theorem reachable_abcMovedWorld : Reachable 2 abcMovedWorld :=
  Reachable.step abcWorld abcMovedWorld (Op.move 0) reachable_abcWorld trivial rfl

theorem size_some (w : World) (s n : Nat) (h : size s w = some n) :
    ∃ o, w.objs[s]? = some o ∧ o.sz = n := by
  cases hos : w.objs[s]? with
  | none => simp only [size, getSz, hos, Option.map_none'] at h; cases h
  | some o =>
    simp only [size, getSz, hos, Option.map_some', Option.some.injEq] at h
    exact ⟨o, rfl, h⟩

/-- What the invariant says of a non-empty instance, in terms of the storage
`CStr()` points to: the storage starts with the `sz` characters, none of them
NUL, and the terminator. -/
theorem inv_storage (N : Nat) (w : World) (hG : Inv N w) (s : Nat) (o : MyString)
    (ho : w.objs[s]? = some o) (h0 : 0 < o.sz) :
    ∃ p txt rest, CStr s w = some p ∧ cellsAt N w p = some (cstring txt ++ rest) ∧
      txt.length = o.sz ∧ (∀ c ∈ txt, c ≠ 0) ∧
      (∀ sink, render N sink s w = some (sink ++ txt)) ∧
      (∀ pos, pos < o.sz → opIndexConst s pos w = IndexResult.ref p pos) ∧
      (o.version = false → p = Ptr.inl s ∧ (cstring txt ++ rest).length = N ∧ o.sz < N) ∧
      (o.version = true → rest = [] ∧ ∃ a, p = Ptr.heap a) := by
  have hO := hG.1 s o ho
  have hne : ¬ o.sz = 0 := by omega
  cases hv : o.version with
  | true =>
    obtain ⟨a, txt, hit, hb, hl, hz, hge⟩ := objOK_heap_data N w.heap o hO h0 hv
    refine ⟨Ptr.heap a, txt, [], ?_, ?_, hl, hz, ?_, ?_, fun h => Bool.noConfusion h,
      fun _ => ⟨rfl, a, rfl⟩⟩
    · simp only [CStr, getSz, getVersion, getLvalData, ho, hne, hv, hit, lvalData_lval,
        Option.bind_eq_bind, Option.some_bind, Option.map_some', Option.pure_def, if_true,
        if_false]
    · simp only [cellsAt, hb, List.append_nil]
    · intro sink
      simp only [render, getSz, getVersion, getLvalData, readStr, cellsAt, ho, h0, hv, hit, hb,
        lvalData_lval, strscan_cstring txt hz,
        Option.bind_eq_bind, Option.some_bind, Option.map_some', Option.pure_def, gt_iff_lt,
        if_true]
    · intro pos hpos
      simp only [opIndexConst, ho, hpos, hv, hit, lvalData_lval, if_true]
  | false =>
    obtain ⟨txt, rest, hit, hl, hz, hlt, hscan, hf⟩ := objOK_inline_data N w.heap o hO h0 hv
    refine ⟨Ptr.inl s, txt, rest, ?_, ?_, hl, hz, ?_, ?_, fun _ => ⟨rfl, hf, by omega⟩,
      fun h => Bool.noConfusion h⟩
    · simp only [CStr, getSz, getVersion, ho, hne, hv, Option.bind_eq_bind,
        Option.some_bind, Option.map_some', Option.pure_def, if_false, Bool.false_eq_true]
    · simp only [cellsAt, ho, hit, svalData_sval, Option.map_some']
    · intro sink
      simp only [render, getSz, getVersion, readStr, cellsAt, ho, h0, hv, hscan,
        Option.bind_eq_bind, Option.some_bind, Option.map_some', Option.pure_def, gt_iff_lt,
        if_true, if_false, Bool.false_eq_true]
    · intro pos hpos
      simp only [opIndexConst, ho, hpos, hv, if_true, if_false, Bool.false_eq_true]

/-! ## Copies of storage that holds no terminated string -/

theorem ctorCopy_heap_none (N : Nat) (w : World) (s a : Nat) (o : MyString)
    (cells : List Cell)
    (ho : w.objs[s]? = some o) (hsz : 0 < o.sz) (hv : o.version = true)
    (hp : o.item = repr.lval (Ptr.heap a)) (hb : w.heap[a]? = some (some cells))
    (hscan : strscan cells = none) : ctorCopy N s w = none := by
  have hs1 : ∀ x : MyString, (w.objs ++ [x])[s]? = some o := fun x => get_concat_old _ _ _ _ ho
  have hold : ∀ x, (w.heap ++ [x])[a]? = some (some cells) := fun x => get_concat_old _ _ _ _ hb
  simp only [ctorCopy, getSz, getVersion, getLvalData, setLvalData, setObj, newArr, strcpy,
    readStr, cellsAt,
    Option.bind_eq_bind, Option.some_bind, Option.none_bind, Option.map_some', Option.pure_def,
    get_concat_new, set_concat_length, hs1, hold, hscan,
    ho, hv, hp, hsz, lvalData_lval, gt_iff_lt, if_true]

theorem ctorCopy_inline_none (N : Nat) (w : World) (s : Nat) (o : MyString)
    (ho : w.objs[s]? = some o) (hsz : 0 < o.sz) (hv : o.version = false)
    (hscan : strscan (svalData N o.item) = none) : ctorCopy N s w = none := by
  have hs1 : ∀ x : MyString, (w.objs ++ [x])[s]? = some o := fun x => get_concat_old _ _ _ _ ho
  simp only [ctorCopy, getSz, getVersion, strcpy, readStr, cellsAt,
    Option.bind_eq_bind, Option.some_bind, Option.none_bind, Option.map_some', Option.pure_def,
    get_concat_new, hs1, ho, hv, hsz, hscan, gt_iff_lt, if_true, if_false, Bool.false_eq_true]

theorem ctorMove_inline_none (N : Nat) (w : World) (s : Nat) (o : MyString)
    (ho : w.objs[s]? = some o) (hsz : 0 < o.sz) (hv : o.version = false)
    (hscan : strscan (svalData N o.item) = none) : ctorMove N s w = none := by
  have hs1 : ∀ x : MyString, (w.objs ++ [x])[s]? = some o := fun x => get_concat_old _ _ _ _ ho
  simp only [ctorMove, getSz, getVersion, strcpy, readStr, cellsAt,
    Option.bind_eq_bind, Option.some_bind, Option.none_bind, Option.map_some', Option.pure_def,
    get_concat_new, hs1, ho, hv, hsz, hscan, gt_iff_lt, if_true, if_false, Bool.false_eq_true]

theorem copyBody_heap_none (N : Nat) (t s a : Nat) (W : World) (ot os : MyString)
    (cells : List Cell)
    (hot : W.objs[t]? = some ot) (hos : W.objs[s]? = some os) (hts : t ≠ s)
    (hsz : 0 < ot.sz) (hv : ot.version = true) (hp : os.item = repr.lval (Ptr.heap a))
    (hb : W.heap[a]? = some (some cells)) (hscan : strscan cells = none) :
    copyBody N t s W = none := by
  have hold : ∀ x, (W.heap ++ [x])[a]? = some (some cells) := fun x => get_concat_old _ _ _ _ hb
  have hself : ∀ x : MyString, (W.objs.set t x)[t]? = some x := fun x => get_set_self _ _ _ _ hot
  simp only [copyBody, getSz, getVersion, getLvalData, setLvalData, setObj,
    newArr, strcpy, readStr, cellsAt,
    Option.bind_eq_bind, Option.some_bind, Option.none_bind, Option.map_some', Option.pure_def,
    hself, get_set_ne _ _ _ _ hts, hot, hos, hv, hp, hsz, hold, hscan,
    lvalData_lval, gt_iff_lt, if_true]

theorem copyBody_inline_none (N : Nat) (t s : Nat) (W : World) (ot os : MyString)
    (hot : W.objs[t]? = some ot) (hos : W.objs[s]? = some os)
    (hsz : 0 < ot.sz) (hv : ot.version = false)
    (hscan : strscan (svalData N os.item) = none) : copyBody N t s W = none := by
  simp only [copyBody, getSz, getVersion, strcpy, readStr, cellsAt,
    Option.bind_eq_bind, Option.some_bind, Option.none_bind, Option.map_some', Option.pure_def,
    hot, hos, hv, hsz, hscan, gt_iff_lt, if_true, if_false, Bool.false_eq_true]

theorem assignMove_inline_none (N : Nat) (w : World) (r s : Nat) (orr os : MyString)
    (hor : w.objs[r]? = some orr) (hos : w.objs[s]? = some os) (hne : r ≠ s)
    (hsz : 0 < os.sz) (hv : os.version = false)
    (hscan : strscan (svalData N os.item) = none) : assignMove N r s w = none := by
  have hself : ∀ x : MyString, (w.objs.set r x)[r]? = some x := fun x => get_set_self _ _ _ _ hor
  have hs1 : ∀ x : MyString, (w.objs.set r x)[s]? = some os := by
    intro x; rw [get_set_ne _ _ _ _ hne]; exact hos
  simp only [assignMove, getSz, getVersion, setSz, setVersion, setObj,
    Option.bind_eq_bind, Option.some_bind, Option.map_some', Option.pure_def,
    List.set_set, hself, hs1, hor, hos, hv, hsz, gt_iff_lt, if_true, if_false,
    Bool.false_eq_true]
  simp only [strcpy, readStr, cellsAt, hs1, hscan,
    Option.bind_eq_bind, Option.some_bind, Option.none_bind, Option.map_some']

theorem assignMove_inline_self_none (N : Nat) (w : World) (r : Nat) (o : MyString)
    (ho : w.objs[r]? = some o) (hsz : 0 < o.sz) (hv : o.version = false)
    (hscan : strscan (svalData N o.item) = none) : assignMove N r r w = none := by
  have hself : ∀ x : MyString, (w.objs.set r x)[r]? = some x := fun x => get_set_self _ _ _ _ ho
  simp only [assignMove, getSz, getVersion, setSz, setVersion, setObj,
    Option.bind_eq_bind, Option.some_bind, Option.map_some', Option.pure_def,
    List.set_set, hself, ho, hv, hsz, gt_iff_lt, if_true, if_false,
    Bool.false_eq_true]
  simp only [strcpy, readStr, cellsAt, hself, hscan,
    Option.bind_eq_bind, Option.some_bind, Option.none_bind, Option.map_some']

/-! ## The layout invariant is kept by every operation -/

theorem shape_empty (N : Nat) : Shape N World.empty := by
  refine ⟨?_, ?_⟩
  · intro i o h
    simp [World.empty] at h
  · intro i j oi oj a _ h
    simp [World.empty] at h

/-- Replacing or adding one object `t`, and changing only heap arrays that the
old object `t` pointed to, keeps the layout invariant when the new object is
well formed and its pointer is held by no other object. -/
theorem shape_update (N : Nat) (w w1 : World) (t : Nat) (o1 : MyString) (hG : Shape N w)
    (ht : w1.objs[t]? = some o1) (hother : ∀ j, j ≠ t → w1.objs[j]? = w.objs[j]?)
    (hheap : ∀ a, a < w.heap.length →
      (∀ ot, w.objs[t]? = some ot → ot.item ≠ repr.lval (Ptr.heap a)) →
      w1.heap[a]? = w.heap[a]?)
    (hlen : w.heap.length ≤ w1.heap.length)
    (hloc : ShapeOK N w1.heap o1)
    (huniq : ∀ a, o1.item = repr.lval (Ptr.heap a) → ∀ (j : Nat) (oj : MyString), j ≠ t →
      w.objs[j]? = some oj → oj.item ≠ repr.lval (Ptr.heap a)) :
    Shape N w1 := by
  obtain ⟨hG1, hG2⟩ := hG
  refine ⟨?_, ?_⟩
  · intro i o hi
    by_cases hit : i = t
    · subst hit
      rw [ht] at hi
      have : o1 = o := Option.some.inj hi
      subst this
      exact hloc
    · rw [hother i hit] at hi
      obtain ⟨ha, hc, he, hf⟩ := hG1 i o hi
      have hkeep : ∀ a, o.item = repr.lval (Ptr.heap a) → w1.heap[a]? = w.heap[a]? := by
        intro a hia
        exact hheap a (he a hia) (fun ot hot h => hG2 i t o ot a hit hi hot hia h)
      refine ⟨ha, ?_, ?_, hf⟩
      · intro hpos hv
        obtain ⟨a, cells, hitem, hblock, hl⟩ := hc hpos hv
        exact ⟨a, cells, hitem, by rw [hkeep a hitem]; exact hblock, hl⟩
      · intro a hia
        exact Nat.lt_of_lt_of_le (he a hia) hlen
  · intro i j oi oj a hij hi hj hia
    by_cases hit : i = t
    · subst hit
      rw [ht] at hi
      have : o1 = oi := Option.some.inj hi
      subst this
      have hjt : j ≠ i := Ne.symm hij
      rw [hother j hjt] at hj
      exact huniq a hia j oj hjt hj
    · rw [hother i hit] at hi
      by_cases hjt : j = t
      · subst hjt
        rw [ht] at hj
        have : o1 = oj := Option.some.inj hj
        subst this
        intro hja
        exact huniq a hja i oi hit hi hia
      · rw [hother j hjt] at hj
        exact hG2 i j oi oj a hij hi hj hia

theorem shape_set (N : Nat) (w : World) (H1 : List (Option (List Cell))) (t : Nat)
    (ot o1 : MyString) (hG : Shape N w) (hot : w.objs[t]? = some ot)
    (hheap : ∀ a, a < w.heap.length → ot.item ≠ repr.lval (Ptr.heap a) → H1[a]? = w.heap[a]?)
    (hlen : w.heap.length ≤ H1.length)
    (hloc : ShapeOK N H1 o1)
    (huniq : ∀ a, o1.item = repr.lval (Ptr.heap a) → ∀ (j : Nat) (oj : MyString), j ≠ t →
      w.objs[j]? = some oj → oj.item ≠ repr.lval (Ptr.heap a)) :
    Shape N { heap := H1, objs := w.objs.set t o1 } :=
  shape_update N w { heap := H1, objs := w.objs.set t o1 } t o1 hG
    (get_set_self _ _ _ _ hot) (fun _ hj => get_set_ne _ _ _ _ (Ne.symm hj))
    (fun a ha h => hheap a ha (h ot hot)) hlen hloc huniq

theorem shape_push (N : Nat) (w : World) (H1 : List (Option (List Cell)))
    (o1 : MyString) (hG : Shape N w)
    (hheap : ∀ a, a < w.heap.length → H1[a]? = w.heap[a]?)
    (hlen : w.heap.length ≤ H1.length)
    (hloc : ShapeOK N H1 o1)
    (huniq : ∀ a, o1.item = repr.lval (Ptr.heap a) → ∀ (j : Nat) (oj : MyString),
      w.objs[j]? = some oj → oj.item ≠ repr.lval (Ptr.heap a)) :
    Shape N { heap := H1, objs := w.objs ++ [o1] } :=
  shape_update N w { heap := H1, objs := w.objs ++ [o1] } w.objs.length o1 hG
    (get_concat_new _ _) (fun _ hj => get_concat_ne _ _ _ hj)
    (fun a ha _ => hheap a ha) hlen hloc (fun a ha j oj _ hj => huniq a ha j oj hj)

theorem shapeOK_empty (N : Nat) (heap : List (Option (List Cell))) (it : repr) (v : Bool)
    (hN : 1 ≤ N) (hit : ∀ a, it = repr.lval (Ptr.heap a) → a < heap.length)
    (hf : (svalData N it).length = N) :
    ShapeOK N heap { sz := 0, item := it, version := v } := by
  unfold ShapeOK
  refine ⟨fun _ => hN, ?_, hit, hf⟩
  intro h; exact absurd h (Nat.lt_irrefl 0)

theorem shapeOK_inline (N : Nat) (heap : List (Option (List Cell))) (n : Nat)
    (cells : List Cell) (hlt : n < N) (hf : cells.length = N) :
    ShapeOK N heap { sz := n, item := repr.sval cells, version := false } := by
  unfold ShapeOK
  refine ⟨fun _ => hlt, ?_, ?_, hf⟩
  · intro _ h; exact Bool.noConfusion h
  · intro a h; exact absurd h (by simp)

theorem shapeOK_heap (N : Nat) (heap : List (Option (List Cell))) (n a : Nat)
    (cells : List Cell) (hb : heap[a]? = some (some cells)) (hl : cells.length = n + 1) :
    ShapeOK N heap { sz := n, item := repr.lval (Ptr.heap a), version := true } := by
  unfold ShapeOK
  refine ⟨?_, ?_, ?_, ?_⟩
  · intro h; exact Bool.noConfusion h
  · intro _ _; exact ⟨a, cells, rfl, hb, hl⟩
  · intro b h
    have hab : b = a := by injection h with h1; injection h1 with h2; exact h2.symm
    rw [hab]; exact ne_length_of_some _ _ _ hb
  · simp

theorem shapeOK_heap_data (N : Nat) (heap : List (Option (List Cell))) (o : MyString)
    (h : ShapeOK N heap o) (hsz : 0 < o.sz) (hv : o.version = true) :
    ∃ a cells, o.item = repr.lval (Ptr.heap a) ∧ heap[a]? = some (some cells) ∧
      cells.length = o.sz + 1 := h.2.1 hsz hv

theorem shapeOK_arr (N : Nat) (heap : List (Option (List Cell))) (o : MyString)
    (h : ShapeOK N heap o) : (svalData N o.item).length = N := h.2.2.2

theorem shape_ptr_lt (N : Nat) (w : World) (hG : Shape N w) (j a : Nat) (oj : MyString)
    (hj : w.objs[j]? = some oj) (h : oj.item = repr.lval (Ptr.heap a)) : a < w.heap.length :=
  (hG.1 j oj hj).2.2.1 a h

theorem shape_fresh (N : Nat) (w : World) (hG : Shape N w) (j : Nat) (oj : MyString)
    (hj : w.objs[j]? = some oj) : oj.item ≠ repr.lval (Ptr.heap w.heap.length) :=
  fun h => Nat.lt_irrefl _ (shape_ptr_lt N w hG j _ oj hj h)

theorem copied_length (txt : List Nat) (n : Nat) (h : txt.length ≤ n) :
    (cstring txt ++ List.replicate (n - txt.length) (none : Cell)).length = n + 1 := by
  rw [List.length_append, cstring_length, List.length_replicate]; omega

theorem copied_inline_length (N : Nat) (txt : List Nat) (h : txt.length + 1 ≤ N) :
    (cstring txt ++ List.replicate (N - (txt.length + 1)) (none : Cell)).length = N := by
  rw [List.length_append, cstring_length, List.length_replicate]; omega

theorem shape_default (N : Nat) (hN : 1 ≤ N) (w : World) (hG : Shape N w) :
    Shape N (ctorDefault w).1 :=
  shape_push N w w.heap _ hG (fun _ _ => rfl) (Nat.le_refl _)
    (shapeOK_empty N w.heap repr.indeterminate false hN (fun a h => by cases h) (by simp))
    (fun a h => by cases h)

theorem shape_fromText (N : Nat) (hN : 1 ≤ N) (w w1 : World) (str : List Cell)
    (hG : Shape N w) (he : exec N (Op.fromText str) w = some w1) : Shape N w1 := by
  cases hT : strscan str with
  | none =>
    simp only [exec, ctorCStr_none N str w hT, Option.map_none'] at he
    cases he
  | some T =>
    obtain ⟨hz, -⟩ := strscan_eq_some str T hT
    have hc : ctorCStr N str w = ctorCStr N (cstring T) w :=
      ctorCStr_congr N str (cstring T) w (by rw [hT, strscan_cstring T hz])
    simp only [exec, hc, ctorCStr_eq N T w hz, Option.map_some', Option.some.injEq] at he
    subst he
    by_cases h0 : T.length = 0
    · rw [if_pos h0]
      exact shape_push N w w.heap _ hG (fun _ _ => rfl) (Nat.le_refl _)
        (shapeOK_empty N w.heap repr.indeterminate _ hN (fun a h => by cases h) (by simp))
        (fun a h => by cases h)
    · rw [if_neg h0]
      by_cases hlt : T.length < N
      · rw [if_pos hlt]
        exact shape_push N w w.heap _ hG (fun _ _ => rfl) (Nat.le_refl _)
          (shapeOK_inline N w.heap T.length _ hlt (copied_inline_length N T (by omega)))
          (fun a h => by cases h)
      · rw [if_neg hlt]
        refine shape_push N w _ _ hG (fun a ha => List.getElem?_append_left ha)
          (by rw [List.length_append]; omega)
          (shapeOK_heap N _ T.length w.heap.length (cstring T) (get_concat_new _ _)
            (cstring_length T)) ?_
        intro a ha j oj hj
        have hab : a = w.heap.length := by
          injection ha with h1; injection h1 with h2; exact h2.symm
        rw [hab]; exact shape_fresh N w hG j oj hj

theorem shape_copy (N : Nat) (hN : 1 ≤ N) (w w1 : World) (s : Nat) (hG : Shape N w)
    (he : exec N (Op.copy s) w = some w1) : Shape N w1 := by
  cases hos : w.objs[s]? with
  | none =>
    simp only [exec, ctorCopy, getSz, hos, Option.map_none', Option.bind_eq_bind,
      Option.none_bind] at he
    cases he
  | some o =>
    have hO := hG.1 s o hos
    rcases Nat.eq_zero_or_pos o.sz with h0 | h0
    · simp only [exec, ctorCopy_empty_eq N w s o hos h0, Option.map_some',
        Option.some.injEq] at he
      subst he
      exact shape_push N w w.heap _ hG (fun _ _ => rfl) (Nat.le_refl _)
        (shapeOK_empty N w.heap repr.indeterminate _ hN (fun a h => by cases h) (by simp))
        (fun a h => by cases h)
    · cases hv : o.version with
      | true =>
        obtain ⟨a, cells, hit, hb, hl⟩ := shapeOK_heap_data N w.heap o hO h0 hv
        cases hscan : strscan cells with
        | none =>
          simp only [exec, ctorCopy_heap_none N w s a o cells hos h0 hv hit hb hscan,
            Option.map_none'] at he
          cases he
        | some txt =>
          have hfit : txt.length ≤ o.sz := by
            have := strscan_length_lt cells txt hscan; omega
          have hread : readStr N w (Ptr.heap a) = some txt := by
            simp only [readStr, cellsAt, hb, Option.some_bind, hscan]
          simp only [exec, ctorCopy_heap_eq N w s o (Ptr.heap a) txt hos h0 hv hit hread hfit,
            Option.map_some', Option.some.injEq] at he
          subst he
          refine shape_push N w _ _ hG (fun a ha => List.getElem?_append_left ha)
            (by rw [List.length_append]; omega)
            (shapeOK_heap N _ o.sz w.heap.length _ (get_concat_new _ _)
              (copied_length txt o.sz hfit)) ?_
          intro b hb1 j oj hj
          have hab : b = w.heap.length := by
            injection hb1 with h1; injection h1 with h2; exact h2.symm
          rw [hab]; exact shape_fresh N w hG j oj hj
      | false =>
        have harr := shapeOK_arr N _ o hO
        cases hscan : strscan (svalData N o.item) with
        | none =>
          simp only [exec, ctorCopy_inline_none N w s o hos h0 hv hscan,
            Option.map_none'] at he
          cases he
        | some txt =>
          have hfit : txt.length + 1 ≤ N := by
            have := strscan_length_lt _ txt hscan; omega
          simp only [exec, ctorCopy_inline_eq N w s o txt hos h0 hv hscan hfit,
            Option.map_some', Option.some.injEq] at he
          subst he
          exact shape_push N w w.heap _ hG (fun _ _ => rfl) (Nat.le_refl _)
            (shapeOK_inline N w.heap o.sz _ (hO.1 hv) (copied_inline_length N txt hfit))
            (fun a h => by cases h)

theorem shape_move (N : Nat) (hN : 1 ≤ N) (w w1 : World) (s : Nat) (hG : Shape N w)
    (he : exec N (Op.move s) w = some w1) : Shape N w1 := by
  cases hos : w.objs[s]? with
  | none =>
    simp only [exec, ctorMove, getSz, hos, Option.map_none', Option.bind_eq_bind,
      Option.none_bind] at he
    cases he
  | some o =>
    have hO := hG.1 s o hos
    rcases Nat.eq_zero_or_pos o.sz with h0 | h0
    · simp only [exec, ctorMove_empty_eq N w s o hos h0, Option.map_some',
        Option.some.injEq] at he
      subst he
      exact shape_push N w w.heap _ hG (fun _ _ => rfl) (Nat.le_refl _)
        (shapeOK_empty N w.heap repr.indeterminate _ hN (fun a h => by cases h) (by simp))
        (fun a h => by cases h)
    · cases hv : o.version with
      | true =>
        obtain ⟨a, cells, hit, hb, hl⟩ := shapeOK_heap_data N w.heap o hO h0 hv
        simp only [exec, ctorMove_heap_eq N w s o (Ptr.heap a) hos h0 hv hit,
          Option.map_some', Option.some.injEq] at he
        subst he
        have hmid : Shape N (World.mk w.heap
            (w.objs.set s (MyString.mk 0 (repr.lval Ptr.null) true))) :=
          shape_set N w w.heap s o _ hG hos (fun _ _ _ => rfl) (Nat.le_refl _)
            (shapeOK_empty N w.heap _ _ hN (fun a h => by cases h) (by simp))
            (fun a h => by cases h)
        refine shape_push N _ w.heap _ hmid (fun _ _ => rfl) (Nat.le_refl _)
          (shapeOK_heap N _ o.sz a cells hb hl) ?_
        intro b hb1 j oj hj
        have hab : b = a := by
          injection hb1 with h1; injection h1 with h2; exact h2.symm
        rw [hab]
        by_cases hjs : j = s
        · rw [hjs] at hj
          have hj2 : (w.objs.set s (MyString.mk 0 (repr.lval Ptr.null) true))[s]?
              = some oj := hj
          rw [get_set_self _ _ _ _ hos] at hj2
          rw [← Option.some.inj hj2]
          intro h; cases h
        · have hj2 : (w.objs.set s (MyString.mk 0 (repr.lval Ptr.null) true))[j]?
              = some oj := hj
          rw [get_set_ne _ _ _ _ (Ne.symm hjs)] at hj2
          exact hG.2 s j o oj a (Ne.symm hjs) hos hj2 hit
      | false =>
        have harr := shapeOK_arr N _ o hO
        cases hscan : strscan (svalData N o.item) with
        | none =>
          simp only [exec, ctorMove_inline_none N w s o hos h0 hv hscan,
            Option.map_none'] at he
          cases he
        | some txt =>
          have hfit : txt.length + 1 ≤ N := by
            have := strscan_length_lt _ txt hscan; omega
          simp only [exec, ctorMove_inline_eq N w s o txt hos h0 hv hscan hfit,
            Option.map_some', Option.some.injEq] at he
          subst he
          have hmid : Shape N (World.mk w.heap
              (w.objs.set s (MyString.mk 0
                (repr.sval (List.replicate (min sizeof_sz N) (some 0) ++
                  (svalData N o.item).drop (min sizeof_sz N))) false))) :=
            shape_set N w w.heap s o _ hG hos (fun _ _ _ => rfl) (Nat.le_refl _)
              (shapeOK_empty N w.heap _ _ hN (fun a h => by cases h)
                (by rw [svalData_sval]; exact zeroed_length N _ _ harr))
              (fun a h => by cases h)
          exact shape_push N _ w.heap _ hmid (fun _ _ => rfl) (Nat.le_refl _)
            (shapeOK_inline N w.heap o.sz _ (hO.1 hv) (copied_inline_length N txt hfit))
            (fun a h => by cases h)

theorem shape_assignCopy (N : Nat) (hN : 1 ≤ N) (w w1 : World) (r s : Nat) (hG : Shape N w)
    (he : exec N (Op.assignCopy r s) w = some w1) : Shape N w1 := by
  simp only [exec, assignCopy_split] at he
  cases hW : assignCopyHead r s w with
  | none => rw [hW] at he; cases he
  | some W =>
    rw [hW, Option.some_bind] at he
    obtain ⟨orr, os, hor, hos, hWo, hWh⟩ := assignCopyHead_some r s w W hW
    obtain ⟨hWlen, hWfr⟩ := head_frame w W.heap orr hWh
    have hOr := hG.1 r orr hor
    have hOs := hG.1 s os hos
    have harr := shapeOK_arr N _ orr hOr
    have hot : W.objs[r]? = some { sz := os.sz, item := orr.item, version := os.version } := by
      rw [hWo]; exact get_set_self _ _ _ _ hor
    have huq : ∀ a, orr.item = repr.lval (Ptr.heap a) → ∀ (j : Nat) (oj : MyString), j ≠ r →
        w.objs[j]? = some oj → oj.item ≠ repr.lval (Ptr.heap a) :=
      fun a ha j oj hj hoj => hG.2 r j orr oj a (Ne.symm hj) hor hoj ha
    rcases Nat.eq_zero_or_pos os.sz with h0 | h0
    · rw [copyBody_empty N r s W _ hot h0] at he
      have hw1 : w1 = { heap := W.heap,
                        objs := w.objs.set r { sz := 0, item := orr.item, version := os.version } } := by
        rw [← Option.some.inj he, ← h0, ← hWo]
      rw [hw1]
      exact shape_set N w W.heap r orr _ hG hor (fun a _ ha => hWfr a ha)
        (Nat.le_of_eq hWlen.symm)
        (shapeOK_empty N W.heap orr.item _ hN
          (fun a ha => by rw [hWlen]; exact shape_ptr_lt N w hG r a orr hor ha) harr)
        huq
    · cases hv : os.version with
      | true =>
        by_cases hrs : r = s
        · subst hrs
          rw [copyBody_self_heap N r W _ hot h0 hv] at he
          cases he
        · obtain ⟨a, cells, hit, hb, hl⟩ := shapeOK_heap_data N w.heap os hOs h0 hv
          have hsrc : W.heap[a]? = some (some cells) := by
            rw [hWfr a (fun h => hG.2 r s orr os a hrs hor hos h hit)]; exact hb
          have hos1 : W.objs[s]? = some os := by
            rw [hWo, get_set_ne _ _ _ _ hrs]; exact hos
          cases hscan : strscan cells with
          | none =>
            rw [copyBody_heap_none N r s a W _ os cells hot hos1 hrs h0 hv hit hsrc hscan] at he
            cases he
          | some txt =>
            have hfit : txt.length ≤ os.sz := by
              have := strscan_length_lt cells txt hscan; omega
            rw [copyBody_heap N r s a W _ os cells txt hot hos1 hrs h0 hv hit hsrc
              hscan hfit] at he
            have hw1 : w1 = { heap := W.heap ++
                                [some (cstring txt ++ List.replicate (os.sz - txt.length) none)],
                              objs := w.objs.set r
                                { sz := os.sz, item := repr.lval (Ptr.heap W.heap.length),
                                  version := true } } := by
              rw [← Option.some.inj he, hWo, List.set_set]
            rw [hw1]
            refine shape_set N w _ r orr _ hG hor ?_ ?_
              (shapeOK_heap N _ os.sz W.heap.length _ (get_concat_new _ _)
                (copied_length txt os.sz hfit)) ?_
            · intro b hb1 hb2
              rw [List.getElem?_append_left (by rw [hWlen]; exact hb1)]
              exact hWfr b hb2
            · rw [List.length_append, hWlen]; omega
            · intro b hb1 j oj _ hoj
              have hab : b = w.heap.length := by
                injection hb1 with h1; injection h1 with h2; rw [← h2, hWlen]
              rw [hab]; exact shape_fresh N w hG j oj hoj
      | false =>
        have hos1 : ∃ os1, W.objs[s]? = some os1 ∧ os1.item = os.item := by
          by_cases hrs : r = s
          · subst hrs
            rw [hor] at hos
            exact ⟨_, hot, by rw [Option.some.inj hos]⟩
          · exact ⟨os, by rw [hWo, get_set_ne _ _ _ _ hrs]; exact hos, rfl⟩
        obtain ⟨os1, hos1, hit1⟩ := hos1
        cases hscan : strscan (svalData N os.item) with
        | none =>
          rw [copyBody_inline_none N r s W _ os1 hot hos1 h0 hv
            (by rw [hit1]; exact hscan)] at he
          cases he
        | some txt =>
          have hlt : txt.length < N := by
            have := strscan_length_lt _ txt hscan
            rw [shapeOK_arr N _ os hOs] at this; exact this
          rw [copyBody_inline N r s W _ os1 txt hot hos1 h0 hv (by rw [hit1]; exact hscan)
            (by rw [harr]; omega)] at he
          have hw1 : w1 = { heap := W.heap,
                            objs := w.objs.set r
                              { sz := os.sz,
                                item := repr.sval (cstring txt ++
                                  (svalData N orr.item).drop (txt.length + 1)),
                                version := false } } := by
            rw [← Option.some.inj he, hWo, List.set_set]
            simp only [hv]
          rw [hw1]
          exact shape_set N w W.heap r orr _ hG hor (fun a _ ha => hWfr a ha)
            (Nat.le_of_eq hWlen.symm)
            (shapeOK_inline N W.heap os.sz _ (hOs.1 hv) (strput_length N txt _ harr hlt))
            (fun a h => by cases h)

theorem shape_assignText (N : Nat) (hN : 1 ≤ N) (w w1 : World) (r : Nat) (str : List Cell)
    (hG : Shape N w) (he : exec N (Op.assignText r str) w = some w1) : Shape N w1 := by
  simp only [exec, assignCStr_split] at he
  cases hW : assignCStrHead r str w with
  | none => rw [hW] at he; cases he
  | some W =>
    rw [hW, Option.some_bind] at he
    obtain ⟨orr, T, hT, hor, hWo, hWh⟩ := assignCStrHead_some r str w W hW
    obtain ⟨hWlen, hWfr⟩ := head_frame w W.heap orr hWh
    have hOr := hG.1 r orr hor
    have harr := shapeOK_arr N _ orr hOr
    have hot : W.objs[r]? = some { sz := T.length, item := orr.item, version := orr.version } := by
      rw [hWo]; exact get_set_self _ _ _ _ hor
    have huq : ∀ a, orr.item = repr.lval (Ptr.heap a) → ∀ (j : Nat) (oj : MyString), j ≠ r →
        w.objs[j]? = some oj → oj.item ≠ repr.lval (Ptr.heap a) :=
      fun a ha j oj hj hoj => hG.2 r j orr oj a (Ne.symm hj) hor hoj ha
    rw [textBody_eq N r str T W _ hN hT hot rfl harr, hWo] at he
    have he1 := Option.some.inj he
    simp only [List.set_set] at he1
    by_cases h0 : T.length = 0
    · rw [if_pos h0] at he1
      rw [← he1]
      exact shape_set N w W.heap r orr _ hG hor (fun a _ ha => hWfr a ha)
        (Nat.le_of_eq hWlen.symm)
        (shapeOK_empty N W.heap orr.item _ hN
          (fun a ha => by rw [hWlen]; exact shape_ptr_lt N w hG r a orr hor ha) harr)
        huq
    · rw [if_neg h0] at he1
      by_cases hlt : T.length < N
      · rw [if_pos hlt] at he1
        rw [← he1]
        exact shape_set N w W.heap r orr _ hG hor (fun a _ ha => hWfr a ha)
          (Nat.le_of_eq hWlen.symm)
          (shapeOK_inline N W.heap T.length _ hlt (strput_length N T _ harr hlt))
          (fun a h => by cases h)
      · rw [if_neg hlt] at he1
        rw [← he1]
        refine shape_set N w _ r orr _ hG hor ?_ ?_
          (shapeOK_heap N _ T.length W.heap.length (cstring T) (get_concat_new _ _)
            (cstring_length T)) ?_
        · intro b hb1 hb2
          rw [List.getElem?_append_left (by rw [hWlen]; exact hb1)]
          exact hWfr b hb2
        · rw [List.length_append, hWlen]; omega
        · intro b hb1 j oj _ hoj
          have hab : b = w.heap.length := by
            injection hb1 with h1; injection h1 with h2; rw [← h2, hWlen]
          rw [hab]; exact shape_fresh N w hG j oj hoj

theorem shape_assignMove (N : Nat) (hN : 1 ≤ N) (w w1 : World) (r s : Nat) (hG : Shape N w)
    (he : exec N (Op.assignMove r s) w = some w1) : Shape N w1 := by
  cases hos : w.objs[s]? with
  | none =>
    simp only [exec, assignMove, getSz, hos, Option.map_none', Option.bind_eq_bind,
      Option.none_bind] at he
    cases he
  | some os =>
    cases hor : w.objs[r]? with
    | none =>
      simp only [exec, assignMove, getSz, setSz, hos, hor, Option.map_none', Option.map_some',
        Option.bind_eq_bind, Option.none_bind, Option.some_bind] at he
      cases he
    | some orr =>
      have hOr := hG.1 r orr hor
      have hOs := hG.1 s os hos
      have harr := shapeOK_arr N _ orr hOr
      have harrs := shapeOK_arr N _ os hOs
      have huq : ∀ a, orr.item = repr.lval (Ptr.heap a) → ∀ (j : Nat) (oj : MyString), j ≠ r →
          w.objs[j]? = some oj → oj.item ≠ repr.lval (Ptr.heap a) :=
        fun a ha j oj hj hoj => hG.2 r j orr oj a (Ne.symm hj) hor hoj ha
      rcases Nat.eq_zero_or_pos os.sz with h0 | h0
      · simp only [exec, assignMove_empty_eq N w r s orr os hor hos h0,
          Option.some.injEq] at he
        rw [← he]
        exact shape_set N w w.heap r orr _ hG hor (fun _ _ _ => rfl) (Nat.le_refl _)
          (shapeOK_empty N w.heap orr.item _ hN
            (fun a ha => shape_ptr_lt N w hG r a orr hor ha) harr)
          huq
      · cases hv : os.version with
        | true =>
          obtain ⟨a, cells, hit, hb, hl⟩ := shapeOK_heap_data N w.heap os hOs h0 hv
          by_cases hrs : r = s
          · subst hrs
            simp only [exec, assignMove_heap_self_eq N w r os (Ptr.heap a) hos h0 hv hit,
              Option.some.injEq] at he
            rw [← he]
            exact shape_set N w w.heap r os _ hG hos (fun _ _ _ => rfl) (Nat.le_refl _)
              (shapeOK_empty N w.heap _ _ hN (fun a h => by cases h) (by simp))
              (fun a h => by cases h)
          · simp only [exec, assignMove_heap_eq N w r s orr os (Ptr.heap a) hor hos hrs h0 hv hit,
              Option.some.injEq] at he
            rw [← he]
            have hmid : Shape N (World.mk w.heap
                (w.objs.set s (MyString.mk 0 (repr.lval Ptr.null) true))) :=
              shape_set N w w.heap s os _ hG hos (fun _ _ _ => rfl) (Nat.le_refl _)
                (shapeOK_empty N w.heap _ _ hN (fun a h => by cases h) (by simp))
                (fun a h => by cases h)
            have hmr : (World.mk w.heap
                (w.objs.set s (MyString.mk 0 (repr.lval Ptr.null) true))).objs[r]? = some orr := by
              show (w.objs.set s (MyString.mk 0 (repr.lval Ptr.null) true))[r]? = some orr
              rw [get_set_ne _ _ _ _ (Ne.symm hrs)]; exact hor
            refine shape_set N _ w.heap r orr _ hmid hmr (fun _ _ _ => rfl) (Nat.le_refl _)
              (shapeOK_heap N _ os.sz a cells hb hl) ?_
            intro b hb1 j oj hjr hj
            have hab : b = a := by
              injection hb1 with h1; injection h1 with h2; exact h2.symm
            rw [hab]
            by_cases hjs : j = s
            · rw [hjs] at hj
              have hj2 : (w.objs.set s (MyString.mk 0 (repr.lval Ptr.null) true))[s]?
                  = some oj := hj
              rw [get_set_self _ _ _ _ hos] at hj2
              rw [← Option.some.inj hj2]
              intro h; cases h
            · have hj2 : (w.objs.set s (MyString.mk 0 (repr.lval Ptr.null) true))[j]?
                  = some oj := hj
              rw [get_set_ne _ _ _ _ (Ne.symm hjs)] at hj2
              exact hG.2 s j os oj a (Ne.symm hjs) hos hj2 hit
        | false =>
          cases hscan : strscan (svalData N os.item) with
          | none =>
            by_cases hrs : r = s
            · subst hrs
              simp only [exec, assignMove_inline_self_none N w r os hos h0 hv hscan] at he
              cases he
            · simp only [exec, assignMove_inline_none N w r s orr os hor hos hrs h0 hv
                hscan] at he
              cases he
          | some txt =>
            have hlt : txt.length < N := by
              have := strscan_length_lt _ txt hscan
              rw [harrs] at this; exact this
            by_cases hrs : r = s
            · subst hrs
              simp only [exec, assignMove_inline_self_eq N w r os txt hos h0 hv hscan,
                Option.some.injEq] at he
              rw [← he]
              exact shape_set N w w.heap r os _ hG hos (fun _ _ _ => rfl) (Nat.le_refl _)
                (shapeOK_empty N w.heap _ _ hN (fun a h => by cases h)
                  (by
                    rw [svalData_sval]
                    exact zeroed_length N _ _ (strput_length N txt _ harrs hlt)))
                (fun a h => by cases h)
            · simp only [exec, assignMove_inline_eq N w r s orr os txt hor hos hrs h0 hv hscan
                (by rw [harr]; omega), Option.some.injEq] at he
              rw [← he]
              have hmid : Shape N (World.mk w.heap
                  (w.objs.set s (MyString.mk 0
                    (repr.sval (List.replicate (min sizeof_sz N) (some 0) ++
                      (svalData N os.item).drop (min sizeof_sz N))) false))) :=
                shape_set N w w.heap s os _ hG hos (fun _ _ _ => rfl) (Nat.le_refl _)
                  (shapeOK_empty N w.heap _ _ hN (fun a h => by cases h)
                    (by rw [svalData_sval]; exact zeroed_length N _ _ harrs))
                  (fun a h => by cases h)
              have hmr : (World.mk w.heap
                  (w.objs.set s (MyString.mk 0
                    (repr.sval (List.replicate (min sizeof_sz N) (some 0) ++
                      (svalData N os.item).drop (min sizeof_sz N))) false))).objs[r]?
                  = some orr := by
                show (w.objs.set s _)[r]? = some orr
                rw [get_set_ne _ _ _ _ (Ne.symm hrs)]; exact hor
              exact shape_set N _ w.heap r orr _ hmid hmr (fun _ _ _ => rfl) (Nat.le_refl _)
                (shapeOK_inline N w.heap os.sz _ (hOs.1 hv) (strput_length N txt _ harr hlt))
                (fun a h => by cases h)

theorem shape_write (N : Nat) (w w1 : World) (s pos c : Nat) (hG : Shape N w)
    (he : exec N (Op.write s pos c) w = some w1) : Shape N w1 := by
  cases hos : w.objs[s]? with
  | none =>
    simp only [exec, writeChar, opIndex, hos] at he
    cases he
  | some o =>
    have hO := hG.1 s o hos
    by_cases hi : pos < o.sz
    · have h0 : 0 < o.sz := by omega
      cases hv : o.version with
      | true =>
        obtain ⟨a, cells, hit, hb, hl⟩ := shapeOK_heap_data N w.heap o hO h0 hv
        have hic : pos < cells.length := by omega
        simp only [exec, writeChar_heap_eq N w s pos c a o cells hos hv hit hi hb hic,
          Option.some.injEq] at he
        rw [← he]
        have hb1 : (w.heap.set a (some (cells.set pos (some c))))[a]? =
            some (some (cells.set pos (some c))) := get_set_self _ _ _ _ hb
        have hloc : ShapeOK N (w.heap.set a (some (cells.set pos (some c)))) o := by
          obtain ⟨ha1, -, he1, hf1⟩ := hO
          refine ⟨ha1, ?_, ?_, hf1⟩
          · intro _ _
            exact ⟨a, cells.set pos (some c), hit, hb1, by rw [List.length_set]; exact hl⟩
          · intro b hb3; rw [List.length_set]; exact he1 b hb3
        refine shape_update N w _ s o hG hos (fun _ _ => rfl) ?_
          (by
            show w.heap.length ≤ (w.heap.set a (some (cells.set pos (some c)))).length
            rw [List.length_set])
          hloc
          (fun b hb3 j oj hj hoj => hG.2 s j o oj b (Ne.symm hj) hos hoj hb3)
        intro b _ hb3
        have hne : a ≠ b := by
          intro hab; exact hb3 o hos (by rw [hit, hab])
        exact get_set_ne _ _ _ _ hne
      | false =>
        have harr := shapeOK_arr N _ o hO
        have hlt := hO.1 hv
        have hic : pos < (svalData N o.item).length := by rw [harr]; omega
        simp only [exec, writeChar_inline_eq N w s pos c o hos hv hi hic,
          Option.some.injEq] at he
        rw [← he, hv]
        exact shape_set N w w.heap s o _ hG hos (fun _ _ _ => rfl) (Nat.le_refl _)
          (shapeOK_inline N w.heap o.sz _ hlt (by rw [List.length_set]; exact harr))
          (fun a h => by cases h)
    · simp only [exec, writeChar, opIndex, hos, hi, if_false] at he
      cases he

theorem shape_exec (N : Nat) (hN : 1 ≤ N) (w w1 : World) (op : Op)
    (hG : Shape N w) (he : exec N op w = some w1) : Shape N w1 := by
  cases op with
  | default =>
    simp only [exec, Option.some.injEq] at he
    rw [← he]; exact shape_default N hN w hG
  | fromText str => exact shape_fromText N hN w w1 str hG he
  | copy other => exact shape_copy N hN w w1 other hG he
  | move other => exact shape_move N hN w w1 other hG he
  | assignCopy this other => exact shape_assignCopy N hN w w1 this other hG he
  | assignMove this other => exact shape_assignMove N hN w w1 this other hG he
  | assignText this str => exact shape_assignText N hN w w1 this str hG he
  | write s pos c => exact shape_write N w w1 s pos c hG he

theorem attained_shape (N : Nat) (hN : 1 ≤ N) (w : World) (h : Attained N w) : Shape N w := by
  induction h with
  | start => exact shape_empty N
  | step w w1 op _ he ih => exact shape_exec N hN w w1 op ih he

theorem reachable_attained (N : Nat) (w : World) (h : Reachable N w) : Attained N w := by
  induction h with
  | start => exact Attained.start
  | step w w1 op _ _ he ih => exact Attained.step w w1 op ih he

/-- What the layout invariant says of a non-empty instance: `CStr()` points to
live storage, `operator<<` prints the bytes of that storage before its first
NUL, and `operator[]` reads its bytes. -/
theorem shape_storage (N : Nat) (w : World) (hG : Shape N w) (s : Nat) (o : MyString)
    (ho : w.objs[s]? = some o) (h0 : 0 < o.sz) :
    ∃ p cells, CStr s w = some p ∧ cellsAt N w p = some cells ∧
      (∀ sink, render N sink s w = (strscan cells).map (fun txt => sink ++ txt)) ∧
      (∀ pos, pos < o.sz → charAt N s pos w = cells[pos]?) ∧
      (o.version = false → p = Ptr.inl s ∧ cells.length = N ∧ o.sz < N) ∧
      (o.version = true → ∃ a, p = Ptr.heap a ∧ getLvalData s w = some (Ptr.heap a) ∧
        w.heap[a]? = some (some cells) ∧ cells.length = o.sz + 1) := by
  have hO := hG.1 s o ho
  have hne : ¬ o.sz = 0 := by omega
  cases hv : o.version with
  | true =>
    obtain ⟨a, cells, hit, hb, hl⟩ := shapeOK_heap_data N w.heap o hO h0 hv
    have hp : getLvalData s w = some (Ptr.heap a) := by
      simp only [getLvalData, ho, hit, Option.some_bind, lvalData_lval]
    have hcells : cellsAt N w (Ptr.heap a) = some cells := by simp only [cellsAt, hb]
    refine ⟨Ptr.heap a, cells, ?_, hcells, ?_, ?_, fun h => Bool.noConfusion h,
      fun _ => ⟨a, rfl, hp, hb, hl⟩⟩
    · simp only [CStr, getSz, getVersion, ho, hne, hv, hp,
        Option.bind_eq_bind, Option.some_bind, Option.map_some', Option.pure_def, if_true,
        if_false]
    · intro sink
      simp only [render, getSz, getVersion, readStr, ho, h0, hv, hp, hcells,
        Option.bind_eq_bind, Option.some_bind, Option.map_some', Option.pure_def, gt_iff_lt,
        if_true]
      cases strscan cells <;> rfl
    · intro pos hpos
      simp only [charAt, opIndexConst, ho, hpos, hv, hit, lvalData_lval, if_true, load, hcells,
        Option.some_bind]
  | false =>
    have hcells : cellsAt N w (Ptr.inl s) = some (svalData N o.item) := by
      simp only [cellsAt, ho, Option.map_some']
    refine ⟨Ptr.inl s, svalData N o.item, ?_, hcells, ?_, ?_,
      fun _ => ⟨rfl, shapeOK_arr N _ o hO, hO.1 hv⟩, fun h => Bool.noConfusion h⟩
    · simp only [CStr, getSz, getVersion, ho, hne, hv, Option.bind_eq_bind,
        Option.some_bind, Option.map_some', Option.pure_def, if_false, Bool.false_eq_true]
    · intro sink
      simp only [render, getSz, getVersion, readStr, ho, h0, hv, hcells,
        Option.bind_eq_bind, Option.some_bind, Option.map_some', Option.pure_def, gt_iff_lt,
        if_true, if_false, Bool.false_eq_true]
      cases strscan (svalData N o.item) <;> rfl
    · intro pos hpos
      simp only [charAt, opIndexConst, ho, hpos, hv, if_true, if_false, Bool.false_eq_true,
        load, hcells, Option.some_bind]

theorem strscan_of_prefix (n : Nat) (cells : List Cell)
    (h1 : ∀ i, i < n → ∃ c, cells[i]? = some (some c) ∧ c ≠ 0)
    (h2 : cells[n]? = some (some 0)) :
    ∃ txt, strscan cells = some txt ∧ txt.length = n := by
  induction n generalizing cells with
  | zero =>
    cases cells with
    | nil => simp at h2
    | cons x rest =>
      simp only [List.getElem?_cons_zero, Option.some.injEq] at h2
      subst h2
      exact ⟨[], rfl, rfl⟩
  | succ n ih =>
    cases cells with
    | nil => simp at h2
    | cons x rest =>
      obtain ⟨c, hc, hc0⟩ := h1 0 (Nat.succ_pos n)
      simp only [List.getElem?_cons_zero, Option.some.injEq] at hc
      subst hc
      obtain ⟨k, rfl⟩ := Nat.exists_eq_succ_of_ne_zero hc0
      obtain ⟨txt, ht, hl⟩ := ih rest
        (fun i hi => by
          have := h1 (i + 1) (Nat.succ_lt_succ hi)
          simpa only [List.getElem?_cons_succ] using this)
        (by simpa only [List.getElem?_cons_succ] using h2)
      refine ⟨(k + 1) :: txt, ?_, by rw [List.length_cons, hl]⟩
      simp only [strscan, ht, Option.map_some']

theorem strscan_prefix_iff (n : Nat) (cells : List Cell) :
    (∃ txt, strscan cells = some txt ∧ txt.length = n) ↔
      (∀ i, i < n → ∃ c, cells[i]? = some (some c) ∧ c ≠ 0) ∧ cells[n]? = some (some 0) := by
  constructor
  · rintro ⟨txt, ht, hl⟩
    obtain ⟨hz, rest, hcells⟩ := strscan_eq_some cells txt ht
    refine ⟨fun i hi => ?_, ?_⟩
    · have hit : i < txt.length := by omega
      exact ⟨txt[i], strscan_getElem? cells txt ht i hit, hz _ (List.getElem_mem hit)⟩
    · rw [hcells, ← hl]
      rw [List.getElem?_append_right (by rw [List.length_map])]
      simp
  · rintro ⟨h1, h2⟩
    exact strscan_of_prefix n cells h1 h2

theorem attained_nulWrittenWorld : Attained 2 nulWrittenWorld :=
  Attained.step _ nulWrittenWorld (Op.write 1 0 0)
    (Attained.step _ _ (Op.fromText (cstring [120, 121, 122]))
      (Attained.step World.empty abcWorld (Op.fromText (cstring [97, 98, 99]))
        Attained.start rfl) rfl) rfl

/-! ## The claims on assignment, allocation, invariants and rendering -/

/-- C11: for every threshold `N ≥ 1`, build two instances from texts by the
constructor, in either order (`rFirst` says whether the receiver `r`, from
`R`, or the source `s`, from `S`, is built first), and copy-assign `r = s`.
The assignment returns; `r` has the size and mode of `s` and `r[i] = s[i]` for
every `i` below the size; `s` is unchanged; a buffer `r` owned before was
allocated and is released, and no other heap array that existed is changed;
and when the result is in heap mode, `data` of `r` is a heap array that did
not exist before, of `Size(s) + 1` bytes, which is not the buffer of `s`. -/
theorem C11_copy_assign_distinct (N : Nat) (R S : List Nat) (w0 : World) (rFirst : Bool)
    (hN : 1 ≤ N) (hR : ∀ c ∈ R, c ≠ 0) (hS : ∀ c ∈ S, c ≠ 0) :
    ∃ w1 x w2 y, ctorCStr N (cstring (if rFirst then R else S)) w0 = some (w1, x) ∧
      ctorCStr N (cstring (if rFirst then S else R)) w1 = some (w2, y) ∧
      ∀ r s, r = (if rFirst then x else y) → s = (if rFirst then y else x) →
        r ≠ s ∧
        ∃ w3, assignCopy N r s w2 = some w3 ∧
          size r w3 = size s w2 ∧ size s w2 = some S.length ∧
          mode r w3 = mode s w2 ∧
          (∀ i, i < S.length → charAt N r i w3 = charAt N s i w2) ∧
          (∀ i, charAt N s i w2 = (S[i]?).map some) ∧
          w3.objs[s]? = w2.objs[s]? ∧ size s w3 = size s w2 ∧ mode s w3 = mode s w2 ∧
          (∀ i, charAt N s i w3 = charAt N s i w2) ∧
          (∀ b, mode r w2 = some Mode.Heap → getLvalData r w2 = some (Ptr.heap b) →
            isLive w2 b = true ∧ isReleased w3 b = true) ∧
          (∀ a, a < w2.heap.length →
            ¬ (mode r w2 = some Mode.Heap ∧ getLvalData r w2 = some (Ptr.heap a)) →
            w3.heap[a]? = w2.heap[a]?) ∧
          (mode r w3 = some Mode.Heap → ∃ a cells, getLvalData r w3 = some (Ptr.heap a) ∧
            w2.heap[a]? = none ∧ w3.heap[a]? = some (some cells) ∧
            cells.length = S.length + 1 ∧ getLvalData s w3 ≠ some (Ptr.heap a)) := by
  -- the common part, for a receiver and a source that both hold their texts
  have main : ∀ (w2 : World) (r s : Nat), r ≠ s → HoldsText N w2 s S → Assignable N w2 r →
      (∀ a, getLvalData r w2 = some (Ptr.heap a) → getLvalData s w2 ≠ some (Ptr.heap a)) →
      (∀ a, getLvalData s w2 = some (Ptr.heap a) → a < w2.heap.length) →
      ∃ w3, assignCopy N r s w2 = some w3 ∧
        size r w3 = size s w2 ∧ size s w2 = some S.length ∧
        mode r w3 = mode s w2 ∧
        (∀ i, i < S.length → charAt N r i w3 = charAt N s i w2) ∧
        (∀ i, charAt N s i w2 = (S[i]?).map some) ∧
        w3.objs[s]? = w2.objs[s]? ∧ size s w3 = size s w2 ∧ mode s w3 = mode s w2 ∧
        (∀ i, charAt N s i w3 = charAt N s i w2) ∧
        (∀ b, mode r w2 = some Mode.Heap → getLvalData r w2 = some (Ptr.heap b) →
          isLive w2 b = true ∧ isReleased w3 b = true) ∧
        (∀ a, a < w2.heap.length →
          ¬ (mode r w2 = some Mode.Heap ∧ getLvalData r w2 = some (Ptr.heap a)) →
          w3.heap[a]? = w2.heap[a]?) ∧
        (mode r w3 = some Mode.Heap → ∃ a cells, getLvalData r w3 = some (Ptr.heap a) ∧
          w2.heap[a]? = none ∧ w3.heap[a]? = some (some cells) ∧
          cells.length = S.length + 1 ∧ getLvalData s w3 ≠ some (Ptr.heap a)) := by
    intro w2 r s hne hsrc hrecv hdist hrange
    obtain ⟨w3, ha, hr3, hs3, hobj, hrel, hframe, hfresh, -⟩ :=
      assignCopy_holds N w2 r s S hN hS hne hsrc hrecv hdist
    obtain ⟨a1, a2, -, a4, -, -⟩ := holdsText_obs N w3 r S hS hr3
    obtain ⟨b1, b2, -, b4, -, -⟩ := holdsText_obs N w2 s S hS hsrc
    obtain ⟨c1, c2, -, c4, -, -⟩ := holdsText_obs N w3 s S hS hs3
    refine ⟨w3, ha, by rw [a1, b1], b1, by rw [a2, b2], fun i _ => by rw [a4 i, b4 i], b4, hobj,
      by rw [c1, b1], by rw [c2, b2], fun i => by rw [c4 i, b4 i], hrel, hframe, ?_⟩
    intro hm
    have hge : N ≤ S.length := by
      by_contra hlt
      rw [a2] at hm
      simp [Nat.lt_of_not_le hlt] at hm
    obtain ⟨-, f2, f3⟩ := hfresh hge
    refine ⟨w2.heap.length, cstring S, f2, List.getElem?_eq_none (Nat.le_refl _), f3,
      cstring_length S, ?_⟩
    intro hp
    have hp2 : getLvalData s w2 = some (Ptr.heap w2.heap.length) := by
      simp only [getLvalData, ← hobj]
      exact hp
    exact absurd (hrange _ hp2) (Nat.lt_irrefl _)
  cases rFirst with
  | true =>
    obtain ⟨w1, w2, hc1, hc2, hh1, hh2, ha1, ha2, hd, hr1, hr2⟩ := two_built N R S w0 hN hR hS
    refine ⟨w1, _, w2, _, hc1, hc2, ?_⟩
    intro r s hr hs
    simp only [if_true] at hr hs
    subst hr hs
    exact ⟨by omega, main w2 _ _ (by omega) hh2 ha1 hd hr2⟩
  | false =>
    obtain ⟨w1, w2, hc1, hc2, hh1, hh2, ha1, ha2, hd, hr1, hr2⟩ := two_built N S R w0 hN hS hR
    refine ⟨w1, _, w2, _, hc1, hc2, ?_⟩
    intro r s hr hs
    simp only [Bool.false_eq_true, if_false] at hr hs
    subst hr hs
    refine ⟨by omega, main w2 _ _ (by omega) hh1 ha2 ?_ hr1⟩
    intro a h1 h2
    exact hd a h2 h1

/-- Witness for C11 at `N = 2`: the receiver built first from `"abc"` (heap
mode), the source built from `"x"` (inline mode). -/
theorem C11_copy_assign_distinct_witness :
    (1 ≤ 2 ∧ (∀ c ∈ [97, 98, 99], c ≠ 0) ∧ ∀ c ∈ [120], c ≠ 0) ∧
    ∃ w1 x w2 y, ctorCStr 2 (cstring (if true then [97, 98, 99] else [120])) World.empty
        = some (w1, x) ∧
      ctorCStr 2 (cstring (if true then [120] else [97, 98, 99])) w1 = some (w2, y) ∧
      ∀ r s, r = (if true then x else y) → s = (if true then y else x) →
        r ≠ s ∧
        ∃ w3, assignCopy 2 r s w2 = some w3 ∧
          size r w3 = size s w2 ∧ size s w2 = some [120].length ∧
          mode r w3 = mode s w2 ∧
          (∀ i, i < [120].length → charAt 2 r i w3 = charAt 2 s i w2) ∧
          (∀ i, charAt 2 s i w2 = ([120][i]?).map some) ∧
          w3.objs[s]? = w2.objs[s]? ∧ size s w3 = size s w2 ∧ mode s w3 = mode s w2 ∧
          (∀ i, charAt 2 s i w3 = charAt 2 s i w2) ∧
          (∀ b, mode r w2 = some Mode.Heap → getLvalData r w2 = some (Ptr.heap b) →
            isLive w2 b = true ∧ isReleased w3 b = true) ∧
          (∀ a, a < w2.heap.length →
            ¬ (mode r w2 = some Mode.Heap ∧ getLvalData r w2 = some (Ptr.heap a)) →
            w3.heap[a]? = w2.heap[a]?) ∧
          (mode r w3 = some Mode.Heap → ∃ a cells, getLvalData r w3 = some (Ptr.heap a) ∧
            w2.heap[a]? = none ∧ w3.heap[a]? = some (some cells) ∧
            cells.length = [120].length + 1 ∧ getLvalData s w3 ≠ some (Ptr.heap a)) :=
  ⟨⟨by decide, by decide, by decide⟩,
    C11_copy_assign_distinct 2 [97, 98, 99] [120] World.empty true
      (by decide) (by decide) (by decide)⟩

/-- C12 fails for an instance that was moved from in heap mode: with `N = 2`,
build `a` from `"abc"` (heap mode) and move-construct `b` from it; `a` then has
size 0, which is less than `N`, and its mode is still Heap.  The move
assignment `r = std::move(a)` into an instance `r` built from `"xyz"` leaves
`a` in the same state. -/
theorem C12_counterexample_moved_from_heap :
    ∃ w1 a w2 b, ctorCStr 2 (cstring [97, 98, 99]) World.empty = some (w1, a) ∧
      ctorMove 2 a w1 = some (w2, b) ∧ Reachable 2 w2 ∧
      size a w2 = some 0 ∧ 0 < 2 ∧ mode a w2 = some Mode.Heap ∧
      mode a w2 ≠ some Mode.Inline ∧
      ∃ w3 r w4, ctorCStr 2 (cstring [120, 121, 122]) w1 = some (w3, r) ∧
        assignMove 2 r a w3 = some w4 ∧
        size a w4 = some 0 ∧ mode a w4 = some Mode.Heap :=
  ⟨_, _, _, _, rfl, rfl, reachable_abcMovedWorld, rfl, by decide, rfl, by decide,
    _, _, _, rfl, rfl, rfl, rfl⟩

/-- C12 (amended): for every threshold `N >= 1` and every instance `i` of a
world reached by default construction, construction from text, copy and move
construction, copy, move and text assignment (and writes of non-NUL characters
through `operator[]`): an Inline instance has length below `N`; a Heap instance
has length at least `N` or length 0; hence for a non-empty instance mode is
Inline iff length is below `N` and Heap iff length is at least `N`.  A
default-constructed instance has length 0 and mode Inline. -/
theorem C12_mode_length_invariant (N : Nat) (hN : 1 ≤ N) (w : World) (hr : Reachable N w)
    (i : Nat) (hi : i < w.objs.length) :
    (∃ n m, size i w = some n ∧ mode i w = some m ∧
      (m = Mode.Inline → n < N) ∧ (m = Mode.Heap → N ≤ n ∨ n = 0) ∧
      (N ≤ n → m = Mode.Heap) ∧
      (0 < n → (m = Mode.Inline ↔ n < N) ∧ (m = Mode.Heap ↔ N ≤ n))) ∧
    size (ctorDefault w).2 (ctorDefault w).1 = some 0 ∧
    mode (ctorDefault w).2 (ctorDefault w).1 = some Mode.Inline := by
  have hG := reachable_inv N hN w hr
  refine ⟨?_, ?_, ?_⟩
  · obtain ⟨o, ho⟩ : ∃ o, w.objs[i]? = some o := ⟨w.objs[i], List.getElem?_eq_getElem hi⟩
    obtain ⟨ha, hb, -⟩ := hG.1 i o ho
    refine ⟨o.sz, if o.version then Mode.Heap else Mode.Inline, ?_, ?_, ?_⟩
    · simp only [size, getSz, ho, Option.map_some']
    · simp only [mode, getVersion, ho, Option.map_some']
    · cases hv : o.version with
      | true =>
        have hb1 := hb hv
        rw [if_pos rfl]
        refine ⟨fun h => Mode.noConfusion h, fun _ => hb1, fun _ => rfl, fun h0 => ?_⟩
        refine ⟨⟨fun h => Mode.noConfusion h, fun h => ?_⟩, ⟨fun _ => ?_, fun _ => rfl⟩⟩
        · omega
        · omega
      | false =>
        have ha1 := ha hv
        rw [if_neg Bool.false_ne_true]
        refine ⟨fun _ => ha1, fun h => Mode.noConfusion h, fun h => ?_, fun _ => ?_⟩
        · omega
        · refine ⟨⟨fun _ => ha1, fun _ => rfl⟩, ⟨fun h => Mode.noConfusion h, fun h => ?_⟩⟩
          omega
  · simp only [ctorDefault, size, getSz, get_concat_new, Option.map_some']
  · simp only [ctorDefault, mode, getVersion, get_concat_new, Option.map_some',
      Bool.false_eq_true, if_false]

theorem C12_mode_length_invariant_witness :
    (1 ≤ 2 ∧ Reachable 2 abcMovedWorld ∧ 1 < abcMovedWorld.objs.length) ∧
    (∃ n m, size 1 abcMovedWorld = some n ∧ mode 1 abcMovedWorld = some m ∧
      (m = Mode.Inline → n < 2) ∧ (m = Mode.Heap → 2 ≤ n ∨ n = 0) ∧
      (2 ≤ n → m = Mode.Heap) ∧
      (0 < n → (m = Mode.Inline ↔ n < 2) ∧ (m = Mode.Heap ↔ 2 ≤ n))) ∧
    size (ctorDefault abcMovedWorld).2 (ctorDefault abcMovedWorld).1 = some 0 ∧
    mode (ctorDefault abcMovedWorld).2 (ctorDefault abcMovedWorld).1 = some Mode.Inline :=
  ⟨⟨by decide, reachable_abcMovedWorld, by decide⟩,
    C12_mode_length_invariant 2 (by decide) abcMovedWorld reachable_abcMovedWorld 1 (by decide)⟩

/-- C13: for every threshold `N ≥ 1` and text `T`, the constructor from `T`
leaves the heap unchanged when `T` is shorter than `N`; otherwise it adds
exactly one heap array, of `length(T) + 1` bytes, holding the bytes of `T`
and the terminator, and the new instance's `data` points to it. -/
theorem C13_ctor_allocation (N : Nat) (T : List Nat) (w : World) (hN : 1 ≤ N)
    (hT : ∀ c ∈ T, c ≠ 0) :
    ∃ w1 s, ctorCStr N (cstring T) w = some (w1, s) ∧
      (T.length < N → w1.heap = w.heap) ∧
      (N ≤ T.length →
        w1.heap = w.heap ++ [some (cstring T)] ∧ (cstring T).length = T.length + 1 ∧
        getLvalData s w1 = some (Ptr.heap w.heap.length) ∧
        isLive w1 w.heap.length = true ∧ isLive w w.heap.length = false) := by
  obtain ⟨w1, hc, -, hnil, hin, hhp⟩ := ctorCStr_spec N T w hT
  refine ⟨w1, _, hc, ?_, ?_⟩
  · intro hlt
    by_cases hne : T = []
    · exact (hnil hne).1
    · exact (hin hne hlt).1
  · intro hge
    have hne : T ≠ [] := by
      intro h
      subst h
      simp at hge
      omega
    obtain ⟨hheap, hobj⟩ := hhp hne hge
    refine ⟨hheap, cstring_length T, ?_, ?_, ?_⟩
    · simp only [getLvalData, hobj, Option.some_bind, lvalData_lval]
    · simp [isLive, hheap]
    · simp [isLive]

/-- Witness for C13 at `N = 2` with `"abc"` in the empty world. -/
theorem C13_ctor_allocation_witness :
    (1 ≤ 2 ∧ ∀ c ∈ [97, 98, 99], c ≠ 0) ∧
    ∃ w1 s, ctorCStr 2 (cstring [97, 98, 99]) World.empty = some (w1, s) ∧
      (3 < 2 → w1.heap = World.empty.heap) ∧
      (2 ≤ 3 →
        w1.heap = World.empty.heap ++ [some (cstring [97, 98, 99])] ∧
        (cstring [97, 98, 99]).length = 3 + 1 ∧
        getLvalData s w1 = some (Ptr.heap World.empty.heap.length) ∧
        isLive w1 World.empty.heap.length = true ∧
        isLive World.empty World.empty.heap.length = false) :=
  ⟨⟨by decide, by decide⟩,
    C13_ctor_allocation 2 [97, 98, 99] World.empty (by decide) (by decide)⟩

/-- C14: for every threshold `N >= 1` and every instance `s` of a world
reached by any sequence of public operations (writes of any character through
`operator[]` included), `CStr()` returns a pointer, and that pointer is null if
and only if `size()` is 0.  When the size `n` is positive the pointer is the
inline array of `s` (`N` bytes) in Inline mode, and in Heap mode the pointer
`data` to a live heap array of `n + 1` bytes. -/
theorem C14_cstr_null_iff_empty (N : Nat) (hN : 1 ≤ N) (w : World) (hr : Attained N w)
    (s n : Nat) (hs : size s w = some n) :
    ∃ p, CStr s w = some p ∧ (p = Ptr.null ↔ n = 0) ∧
      (0 < n → mode s w = some Mode.Inline →
        p = Ptr.inl s ∧ ∃ cells, cellsAt N w p = some cells ∧ cells.length = N) ∧
      (0 < n → mode s w = some Mode.Heap →
        ∃ a cells, p = Ptr.heap a ∧ getLvalData s w = some (Ptr.heap a) ∧
          w.heap[a]? = some (some cells) ∧ cellsAt N w p = some cells ∧
          cells.length = n + 1) := by
  have hG := attained_shape N hN w hr
  obtain ⟨o, ho, hn⟩ := size_some w s n hs
  rcases Nat.eq_zero_or_pos n with h0 | h0
  · refine ⟨Ptr.null, ?_, ⟨fun _ => h0, fun _ => rfl⟩, fun h => ?_, fun h => ?_⟩
    · simp only [CStr, getSz, ho, hn, h0, Option.bind_eq_bind, Option.some_bind,
        Option.map_some', Option.pure_def, if_true]
    · omega
    · omega
  · obtain ⟨p, cells, hp, hcells, -, -, hin, hhp⟩ :=
      shape_storage N w hG s o ho (by omega)
    refine ⟨p, hp, ⟨fun h => ?_, fun h => ?_⟩, fun _ hm => ?_, fun _ hm => ?_⟩
    · cases hv : o.version with
      | true =>
        obtain ⟨a, ha, -⟩ := hhp hv
        rw [ha] at h; exact Ptr.noConfusion h
      | false =>
        rw [(hin hv).1] at h; exact Ptr.noConfusion h
    · omega
    · cases hv : o.version with
      | true =>
        simp only [mode, getVersion, ho, hv, Option.map_some', if_true,
          Option.some.injEq] at hm
        exact Mode.noConfusion hm
      | false =>
        obtain ⟨h1, h2, -⟩ := hin hv
        exact ⟨h1, cells, hcells, h2⟩
    · cases hv : o.version with
      | true =>
        obtain ⟨a, h1, h2, h3, h4⟩ := hhp hv
        exact ⟨a, cells, h1, h2, h3, hcells, by rw [h4, hn]⟩
      | false =>
        simp only [mode, getVersion, ho, hv, Option.map_some', if_false,
          Bool.false_eq_true, Option.some.injEq] at hm
        exact Mode.noConfusion hm

/-- Witness for C14 at `N = 2`: the instance `t` (object 1, size 3, heap mode)
after `MyString<2> s("abc"); MyString<2> t("xyz"); t[0] = 0;`. -/
theorem C14_cstr_null_iff_empty_witness :
    (1 ≤ 2 ∧ Attained 2 nulWrittenWorld ∧ size 1 nulWrittenWorld = some 3) ∧
    ∃ p, CStr 1 nulWrittenWorld = some p ∧ (p = Ptr.null ↔ 3 = 0) ∧
      (0 < 3 → mode 1 nulWrittenWorld = some Mode.Inline →
        p = Ptr.inl 1 ∧ ∃ cells, cellsAt 2 nulWrittenWorld p = some cells ∧ cells.length = 2) ∧
      (0 < 3 → mode 1 nulWrittenWorld = some Mode.Heap →
        ∃ a cells, p = Ptr.heap a ∧ getLvalData 1 nulWrittenWorld = some (Ptr.heap a) ∧
          nulWrittenWorld.heap[a]? = some (some cells) ∧
          cellsAt 2 nulWrittenWorld p = some cells ∧ cells.length = 3 + 1) :=
  ⟨⟨by decide, attained_nulWrittenWorld, rfl⟩,
    C14_cstr_null_iff_empty 2 (by decide) nulWrittenWorld attained_nulWrittenWorld 1 3 rfl⟩

/-- C15 fails after a NUL was written through `operator[]`: with `N = 2`, build
`s` from `"abc"` and write `s[1] = 0`.  `size()` is still 3 and `s[2]` is still
`c` (99), but `operator<<` passes the buffer to the stream as a C string, which
stops at the NUL: one character (`a`, 97) is emitted, not three.  A copy `c` of
`s`, itself never written, also has size 3 and also renders as one character. -/
theorem C15_counterexample_nul_write :
    ∃ w1 s w2, ctorCStr 2 (cstring [97, 98, 99]) World.empty = some (w1, s) ∧
      writeChar 2 s 1 0 w1 = some w2 ∧ size s w2 = some 3 ∧
      charAt 2 s 0 w2 = some (some 97) ∧ charAt 2 s 1 w2 = some (some 0) ∧
      charAt 2 s 2 w2 = some (some 99) ∧
      render 2 [] s w2 = some [97] ∧ [97].length ≠ 3 ∧
      ∃ w3 c, ctorCopy 2 s w2 = some (w3, c) ∧ size c w3 = some 3 ∧
        render 2 [] c w3 = some [97] :=
  ⟨_, _, _, rfl, rfl, rfl, rfl, rfl, rfl, rfl, by decide, _, _, rfl, rfl, rfl⟩

/-- C15 (amended): for every threshold `N >= 1` and every instance `s` of size
`n` in a world reached by any sequence of public operations:
when `n = 0`, rendering `s` leaves the sink as it was;
when `n > 0`, rendering `s` appends to the sink the bytes of the storage
`CStr()` points to that precede its first NUL byte (and is undefined when an
indeterminate byte comes first), so it appends exactly `n` characters, namely
`s[0]`, ..., `s[n - 1]` in order, if and only if the bytes at offsets
`0 .. n - 1` of that storage are non-NUL characters and the byte at offset `n`
is NUL;
and when no write through `operator[]` in the run stored the NUL character,
rendering `s` appends exactly `n` characters, namely `s[0]`, ..., `s[n - 1]`
in order. -/
theorem C15_render_emits_text (N : Nat) (hN : 1 ≤ N) (w : World) (ha : Attained N w)
    (s n : Nat) (sink : List Nat) (hs : size s w = some n) :
    (n = 0 → render N sink s w = some sink) ∧
    (0 < n → ∃ p cells, CStr s w = some p ∧ cellsAt N w p = some cells ∧
      render N sink s w = (strscan cells).map (fun txt => sink ++ txt) ∧
      (∀ i, i < n → charAt N s i w = cells[i]?) ∧
      ((∃ txt, render N sink s w = some (sink ++ txt) ∧ txt.length = n ∧
          ∀ i, i < n → charAt N s i w = (txt[i]?).map some ∧ ∃ c, txt[i]? = some c) ↔
        (∀ i, i < n → ∃ c, cells[i]? = some (some c) ∧ c ≠ 0) ∧
          cells[n]? = some (some 0))) ∧
    (Reachable N w → ∃ txt, render N sink s w = some (sink ++ txt) ∧ txt.length = n ∧
      ∀ i, i < n → charAt N s i w = (txt[i]?).map some ∧ ∃ c, txt[i]? = some c) := by
  have hG := attained_shape N hN w ha
  obtain ⟨o, ho, hn⟩ := size_some w s n hs
  have hzero : n = 0 → render N sink s w = some sink := by
    intro h0
    simp only [render, getSz, ho, hn, h0, Option.bind_eq_bind, Option.some_bind,
      Option.map_some', Option.pure_def, gt_iff_lt, lt_self_iff_false, if_false]
  have hgen : 0 < n → ∃ p cells, CStr s w = some p ∧ cellsAt N w p = some cells ∧
      render N sink s w = (strscan cells).map (fun txt => sink ++ txt) ∧
      (∀ i, i < n → charAt N s i w = cells[i]?) ∧
      ((∃ txt, render N sink s w = some (sink ++ txt) ∧ txt.length = n ∧
          ∀ i, i < n → charAt N s i w = (txt[i]?).map some ∧ ∃ c, txt[i]? = some c) ↔
        (∀ i, i < n → ∃ c, cells[i]? = some (some c) ∧ c ≠ 0) ∧
          cells[n]? = some (some 0)) := by
    intro h0
    obtain ⟨p, cells, hp, hcells, hrn, hidx, -, -⟩ :=
      shape_storage N w hG s o ho (by omega)
    have hidx1 : ∀ i, i < n → charAt N s i w = cells[i]? :=
      fun i hi => hidx i (by omega)
    refine ⟨p, cells, hp, hcells, hrn sink, hidx1, ?_⟩
    rw [← strscan_prefix_iff n cells]
    constructor
    · rintro ⟨txt, hr1, hl, -⟩
      rw [hrn sink] at hr1
      cases hscan : strscan cells with
      | none => rw [hscan] at hr1; cases hr1
      | some t =>
        rw [hscan, Option.map_some', Option.some.injEq] at hr1
        have htt : t = txt := List.append_cancel_left hr1
        exact ⟨txt, by rw [htt], hl⟩
    · rintro ⟨txt, hscan, hl⟩
      refine ⟨txt, by rw [hrn sink, hscan, Option.map_some'], hl, fun i hi => ?_⟩
      have hit : i < txt.length := by omega
      refine ⟨?_, txt[i], List.getElem?_eq_getElem hit⟩
      rw [hidx1 i hi, strscan_getElem? cells txt hscan i hit, List.getElem?_eq_getElem hit,
        Option.map_some']
  refine ⟨hzero, hgen, fun hr => ?_⟩
  have hI := reachable_inv N hN w hr
  rcases Nat.eq_zero_or_pos n with h0 | h0
  · refine ⟨[], ?_, h0.symm, fun i hi => ?_⟩
    · rw [List.append_nil]; exact hzero h0
    · omega
  · obtain ⟨p, txt, rest, -, hcells, hl, -, hrn, hidx, -, -⟩ :=
      inv_storage N w hI s o ho (by omega)
    refine ⟨txt, hrn sink, by omega, fun i hi => ?_⟩
    have hit : i < txt.length := by omega
    refine ⟨?_, txt[i], List.getElem?_eq_getElem hit⟩
    rw [List.getElem?_eq_getElem hit, Option.map_some']
    simp only [charAt, hidx i (by omega), load, hcells, Option.some_bind]
    exact cstring_getElem? txt i hit rest

/-- Witness for C15 at `N = 2`: the instance built from `"abc"` (size 3), with
`>` (62) already in the sink. -/
theorem C15_render_emits_text_witness :
    (1 ≤ 2 ∧ Attained 2 abcWorld ∧ size 0 abcWorld = some 3 ∧ Reachable 2 abcWorld) ∧
    (3 = 0 → render 2 [62] 0 abcWorld = some [62]) ∧
    (0 < 3 → ∃ p cells, CStr 0 abcWorld = some p ∧ cellsAt 2 abcWorld p = some cells ∧
      render 2 [62] 0 abcWorld = (strscan cells).map (fun txt => [62] ++ txt) ∧
      (∀ i, i < 3 → charAt 2 0 i abcWorld = cells[i]?) ∧
      ((∃ txt, render 2 [62] 0 abcWorld = some ([62] ++ txt) ∧ txt.length = 3 ∧
          ∀ i, i < 3 → charAt 2 0 i abcWorld = (txt[i]?).map some ∧ ∃ c, txt[i]? = some c) ↔
        (∀ i, i < 3 → ∃ c, cells[i]? = some (some c) ∧ c ≠ 0) ∧
          cells[3]? = some (some 0))) ∧
    (Reachable 2 abcWorld → ∃ txt, render 2 [62] 0 abcWorld = some ([62] ++ txt) ∧
      txt.length = 3 ∧
      ∀ i, i < 3 → charAt 2 0 i abcWorld = (txt[i]?).map some ∧ ∃ c, txt[i]? = some c) :=
  ⟨⟨by decide, reachable_attained 2 abcWorld reachable_abcWorld, rfl, reachable_abcWorld⟩,
    C15_render_emits_text 2 (by decide) abcWorld
      (reachable_attained 2 abcWorld reachable_abcWorld) 0 3 [62] rfl⟩

/-- C16: for every non-empty heap-mode source `s` (size `n > 0`) whose `data`
is the buffer `b`, the move constructor returns with the heap unchanged (no
allocation, no release, no byte written), the new instance `d` has the size
and mode of `s` and its `data` is `b`, and afterwards `data` of `s` is the
null pointer and `s` has size 0. -/
theorem C16_move_ctor_heap_transfer (N : Nat) (w : World) (s n b : Nat)
    (hs : size s w = some n) (hn : 0 < n) (hm : mode s w = some Mode.Heap)
    (hp : getLvalData s w = some (Ptr.heap b)) :
    ∃ w1 d, ctorMove N s w = some (w1, d) ∧ w1.heap = w.heap ∧
      getLvalData d w1 = some (Ptr.heap b) ∧ size d w1 = some n ∧
      mode d w1 = some Mode.Heap ∧
      getLvalData s w1 = some Ptr.null ∧ size s w1 = some 0 := by
  obtain ⟨os, hos, hsz⟩ : ∃ o, w.objs[s]? = some o ∧ o.sz = n := by
    simpa [size, getSz] using hs
  subst hsz
  have hv : os.version = true := by
    cases hv : os.version <;> simp_all [mode, getVersion]
  have hitem : os.item = repr.lval (Ptr.heap b) := by
    have h1 : lvalData os.item = some (Ptr.heap b) := by simpa [getLvalData, hos] using hp
    cases hi : os.item <;> simp_all [lvalData]
  obtain ⟨w1, hm1, hheap, hd, hs1, -⟩ := ctorMove_heap_spec N w s os (Ptr.heap b) hos hn hv hitem
  refine ⟨w1, _, hm1, hheap, ?_, ?_, ?_, ?_, ?_⟩
  · simp only [getLvalData, hd, Option.some_bind, lvalData_lval]
  · simp only [size, getSz, hd, Option.map_some']
  · simp [mode, getVersion, hd]
  · simp only [getLvalData, hs1, Option.some_bind, lvalData_lval]
  · simp only [size, getSz, hs1, Option.map_some']

/-- Witness for C16: the heap instance built from `"abc"` with `N = 2`. -/
theorem C16_move_ctor_heap_transfer_witness :
    (size 0 abcWorld = some 3 ∧ 0 < 3 ∧ mode 0 abcWorld = some Mode.Heap ∧
      getLvalData 0 abcWorld = some (Ptr.heap 0)) ∧
    ∃ w1 d, ctorMove 2 0 abcWorld = some (w1, d) ∧ w1.heap = abcWorld.heap ∧
      getLvalData d w1 = some (Ptr.heap 0) ∧ size d w1 = some 3 ∧
      mode d w1 = some Mode.Heap ∧
      getLvalData 0 w1 = some Ptr.null ∧ size 0 w1 = some 0 :=
  ⟨⟨rfl, by decide, rfl, rfl⟩,
    C16_move_ctor_heap_transfer 2 abcWorld 0 3 0 rfl (by decide) rfl rfl⟩

/-- C18 fails on the code: with `N = 2`, build `a` from `"x"` (inline mode,
object 0) and move-construct `b` from it (object 1).  The `strcpy` into the
array of `b` writes offsets 0 and 1, but the `memset` on the array of `a`
writes `sizeof(sz) = 8` bytes, offsets 0 to 7 of a 2-byte array.  The move
assignment `r = std::move(a)` into an instance `r` built from `"y"` makes the
same `memset`. -/
theorem C18_memset_past_inline_array :
    ∃ w1 a w2 b w3 r, ctorCStr 2 (cstring [120]) World.empty = some (w1, a) ∧
      mode a w1 = some Mode.Inline ∧
      ctorCStrInlineWrites 2 (cstring [120]) World.empty = some [(a, 0), (a, 1)] ∧
      ctorMove 2 a w1 = some (w2, b) ∧
      ctorMoveInlineWrites 2 a w1 =
        some [(b, 0), (b, 1), (a, 0), (a, 1), (a, 2), (a, 3), (a, 4), (a, 5), (a, 6), (a, 7)] ∧
      (∃ ws, ctorMoveInlineWrites 2 a w1 = some ws ∧ (a, 7) ∈ ws ∧ ¬ 7 < 2) ∧
      ctorCStr 2 (cstring [121]) w1 = some (w3, r) ∧
      (assignMove 2 r a w3).isSome = true ∧
      (∃ ws, assignMoveInlineWrites 2 r a w3 = some ws ∧ (a, 7) ∈ ws ∧ ¬ 7 < 2) :=
  ⟨_, _, _, _, _, _, rfl, rfl, rfl, rfl, rfl, ⟨_, rfl, by decide, by decide⟩, rfl, rfl,
    ⟨_, rfl, by decide, by decide⟩⟩

end SmallString
